import Mathlib

/-!
# Verification of the `dynatrace_api_client` pagination + authentication + normalization core

This file gives a shallow embedding, in Lean 4, of the core logic of the
`dynatrace_api_client` repository:

* `main_process_topology.py` — entity normalization into a topology graph
  (`clean_unsupported_metadata`, `extract_tags`, `extract_management_zones`,
  `normalize_process_group_v2_to_v1`, `process_entity_to_component`,
  `process_topology`);
* `main.py` — the OAuth2 token lifecycle (`JwtAuthenticator`) and the two
  pagination protocols (`fetch_json`, `fetch_paginated_v1`,
  `fetch_paginated_entities`).

Modelling conventions:

* JSON values are the inductive type `JVal`.  Python floats are represented by
  their display string (`JVal.jfloat r` stands for the float whose
  `str()`/`repr()` form is `r`); none of the verified properties depends on
  float arithmetic.  JSON numbers that are integers are `JVal.jint`.
* Python dicts are association lists in insertion order with unique keys
  (the shape produced by `json.load`); `objGet`/`objSet`/`objRemove` implement
  Python's ordered-dict lookup, in-place update and deletion.
* Python exceptions are `Except PyErr`.  Operations that can raise
  (`.items()` on a non-dict, iteration over `None`, `str + nonstr`, …) are
  modelled by the corresponding `PyErr` value.
* Time is modelled by integers; the HTTP session and token endpoint are
  modelled by oracles (scripted response lists) inside a `World` state.
-/

set_option linter.unusedVariables false

namespace DynatraceClient

/-- A JSON value as handled by the Python code.  `jfloat r` models a Python
float via its display string; `jobj` is an insertion-ordered dict. -/
inductive JVal where
  | jnull
  | jbool (b : Bool)
  | jint (n : Int)
  | jfloat (r : String)
  | jstr (s : String)
  | jarr (xs : List JVal)
  | jobj (fields : List (String × JVal))

/-- Python exception kinds raised by the modelled code paths. -/
inductive PyErr where
  | attributeError
  | typeError
  | valueError
  | recursionError

/-- Python truthiness of a float, decided from its display string: the only
falsy floats are the zeroes.  (No verified claim depends on this case.) -/
def floatTruthy (r : String) : Bool :=
  !(r == "0.0" || r == "-0.0" || r == "0" || r == "-0")

/-- Python truthiness (`bool(v)`) of a JSON value. -/
def truthy : JVal → Bool
  | .jnull => false
  | .jbool b => b
  | .jint n => n != 0
  | .jfloat r => floatTruthy r
  | .jstr s => s != ""
  | .jarr xs => !xs.isEmpty
  | .jobj fs => !fs.isEmpty

mutual

/-- Python `str()` of a value that appears inside a container (`repr` form:
strings are quoted).  Only used by `pyStr` on containers; no claim depends on
its exact output. -/
def pyRepr : JVal → String
  | .jnull => "None"
  | .jbool b => if b then "True" else "False"
  | .jint n => toString n
  | .jfloat r => r
  | .jstr s => "\x27" ++ s ++ "\x27"
  | .jarr xs => "[" ++ String.intercalate ", " (pyReprList xs) ++ "]"
  | .jobj fs => "\x7b" ++ String.intercalate ", " (pyReprFields fs) ++ "\x7d"

/-- `repr` of the elements of a Python list. -/
def pyReprList : List JVal → List String
  | [] => []
  | x :: xs => pyRepr x :: pyReprList xs

/-- `repr` of the entries of a Python dict. -/
def pyReprFields : List (String × JVal) → List String
  | [] => []
  | (k, v) :: fs => ("\x27" ++ k ++ "\x27: " ++ pyRepr v) :: pyReprFields fs

end

/-- Python `str()` of a value (also the meaning of an f-string interpolation). -/
def pyStr : JVal → String
  | .jnull => "None"
  | .jbool b => if b then "True" else "False"
  | .jint n => toString n
  | .jfloat r => r
  | .jstr s => s
  | .jarr xs => pyRepr (.jarr xs)
  | .jobj fs => pyRepr (.jobj fs)

/-- Ordered-dict lookup: value of the first (unique) entry with key `k`. -/
def objGet (fs : List (String × JVal)) (k : String) : Option JVal :=
  (fs.find? (fun p => p.1 == k)).map (·.2)

/-- Python `d.get(k, default)`. -/
def objGetD (fs : List (String × JVal)) (k : String) (d : JVal) : JVal :=
  (objGet fs k).getD d

/-- Python `d.get(k)` (default `None`). -/
def objGetN (fs : List (String × JVal)) (k : String) : JVal :=
  objGetD fs k .jnull

/-- Python `k in d`. -/
def objHasKey (fs : List (String × JVal)) (k : String) : Bool :=
  fs.any (fun p => p.1 == k)

/-- Replace the value of the first entry with key `k`, keeping its position. -/
def replaceEntry : List (String × JVal) → String → JVal → List (String × JVal)
  | [], _, _ => []
  | p :: fs, k, v => if p.1 == k then (p.1, v) :: fs else p :: replaceEntry fs k v

/-- Python `d[k] = v`: replace the value in place if the key exists (keeping
its position), otherwise append a new entry. -/
def objSet (fs : List (String × JVal)) (k : String) (v : JVal) : List (String × JVal) :=
  if objHasKey fs k then replaceEntry fs k v else fs ++ [(k, v)]

/-- Python `d.pop(k, None)` / `del d[k]`: drop the entry with key `k`. -/
def objRemove (fs : List (String × JVal)) (k : String) : List (String × JVal) :=
  fs.filter (fun p => !(p.1 == k))

/-- Python iteration `for x in v`: lists yield their elements, strings their
characters, dicts their keys; scalars and `None` raise `TypeError`. -/
def pyIter : JVal → Except PyErr (List JVal)
  | .jarr xs => .ok xs
  | .jstr s => .ok (s.toList.map (fun c => .jstr (String.mk [c])))
  | .jobj fs => .ok (fs.map (fun p => .jstr p.1))
  | _ => .error .typeError

/-- Python `v.get(k, d)` on an arbitrary value: raises `AttributeError` when
`v` is not a dict. -/
def pyGetD (v : JVal) (k : String) (d : JVal) : Except PyErr JVal :=
  match v with
  | .jobj fs => .ok (objGetD fs k d)
  | _ => .error .attributeError

/-- Python `s += v` where `s` is a `str`: `TypeError` unless `v` is a `str`. -/
def strAdd (s : String) (v : JVal) : Except PyErr String :=
  match v with
  | .jstr t => .ok (s ++ t)
  | _ => .error .typeError

/-- Python `":".join(parts)`: `TypeError` unless every part is a `str`. -/
def joinColon : List JVal → Except PyErr String
  | [] => .ok ""
  | [.jstr s] => .ok s
  | .jstr s :: rest => do
      let r ← joinColon rest
      .ok (s ++ ":" ++ r)
  | _ => .error .typeError

/-- Python `int(v)`: identity on ints, `bool` are 0/1, numeric strings parse,
everything else raises.  (Float truncation is not modelled; no verified claim
calls `int()` on a float.) -/
def pyInt (v : JVal) : Except PyErr Int :=
  match v with
  | .jint n => .ok n
  | .jbool b => .ok (if b then 1 else 0)
  | .jstr s =>
      match s.toInt? with
      | some n => .ok n
      | none => .error .valueError
  | _ => .error .typeError

/-! ## `main_process_topology.py` — entity normalization -/

/-- Top-level scalar coercion of `clean_unsupported_metadata`
(main_process_topology.py:38-44): floats, booleans and ints become their
`str()` form; everything else is unchanged. -/
def coerceScalar (v : JVal) : JVal :=
  match v with
  | .jfloat r => .jstr r
  | .jbool b => .jstr (pyStr (.jbool b))
  | .jint n => .jstr (toString n)
  | _ => v

/-- The `osServices` conversion (main_process_topology.py:55-70): map each
service record to a name, preferring `dt.osservice.name`, then
`dt.osservice.display_name`, then a synthesized placeholder; plain strings
pass through; anything else is stringified. -/
def convertOsServices (services : List JVal) : List JVal :=
  (services.enum.map fun (i, service) =>
    match service with
    | .jobj sf =>
        let name := objGetN sf "dt.osservice.name"
        let display := objGetN sf "dt.osservice.display_name"
        if truthy name then name
        else if truthy display then display
        else .jstr ("unknown_service_" ++ toString i)
    | .jstr s => .jstr s
    | other => .jstr (pyStr other))

/-- The `customPgMetadata` fold (main_process_topology.py:75-93): each entry
contributes one key/value pair to a flat dict; later entries with the same
resolved key overwrite earlier ones via the dict assignment. -/
def foldCustomPgMetadata (items : List JVal) : List (String × JVal) :=
  items.enum.foldl
    (fun acc (i, item) =>
      match item with
      | .jobj itf =>
          let rawKey := objGetN itf "key"
          let key :=
            match rawKey with
            | .jobj kf =>
                match objGet kf "key" with
                | some (.jstr s) => s
                | some (.jint n) => toString n
                | some (.jfloat r) => r
                | some (.jbool b) => pyStr (.jbool b)
                | _ => "unknown_key_" ++ toString i
            | .jstr s => s
            | .jint n => toString n
            | .jfloat r => r
            | .jbool b => pyStr (.jbool b)
            | _ => "unknown_key_" ++ toString i
          let value := objGetD itf "value"
            (objGetD itf "val" (.jstr ("unknown_value_" ++ toString i)))
          objSet acc key value
      | other => objSet acc ("item_" ++ toString i) (.jstr (pyStr other)))
    []

/-- The nested-`properties` handling of `clean_unsupported_metadata`
(main_process_topology.py:47-110), applied to a `properties` dict. -/
def cleanProperties (props : List (String × JVal)) : List (String × JVal) :=
  -- releasesVersion: a string form is replaced by an empty dict
  let props :=
    match objGet props "releasesVersion" with
    | some (.jstr _) => objSet props "releasesVersion" (.jobj [])
    | _ => props
  -- osServices: a list is mapped to a flat list of names
  let props :=
    match objGet props "osServices" with
    | some (.jarr services) => objSet props "osServices" (.jarr (convertOsServices services))
    | _ => props
  -- customPgMetadata: a list of key/value records folds to a flat dict;
  -- any other non-dict value is cleared to an empty dict
  let props :=
    match objGet props "customPgMetadata" with
    | some (.jarr items) => objSet props "customPgMetadata" (.jobj (foldCustomPgMetadata items))
    | some (.jobj _) => props
    | some _ => objSet props "customPgMetadata" (.jobj [])
    | none => props
  -- logFileStatus: a list is wrapped; a non-list non-dict becomes None
  let props :=
    match objGet props "logFileStatus" with
    | some (.jarr xs) => objSet props "logFileStatus" (.jobj [("logFileStatus", .jarr xs)])
    | some (.jobj _) => props
    | some _ => objSet props "logFileStatus" .jnull
    | none => props
  -- logSourceState: same wrapping rule
  let props :=
    match objGet props "logSourceState" with
    | some (.jarr xs) => objSet props "logSourceState" (.jobj [("logSourceState", .jarr xs)])
    | some (.jobj _) => props
    | some _ => objSet props "logSourceState" .jnull
    | none => props
  props

/-- `clean_unsupported_metadata` (main_process_topology.py:29-116).  The
Python function deep-copies its argument and mutates only the copy; the pure
model returns the transformed field list.  A non-dict argument raises
`AttributeError` at `component.keys()`. -/
def cleanUnsupportedMetadata (component : JVal) : Except PyErr (List (String × JVal)) :=
  match component with
  | .jobj fs =>
      let fs := fs.map (fun p => (p.1, coerceScalar p.2))
      let fs :=
        match objGet fs "properties" with
        | some (.jobj props) => objSet fs "properties" (.jobj (cleanProperties props))
        | _ => fs
      let fs := objRemove fs "lastSeenTimestamp"
      .ok fs
  | _ => .error .attributeError

/-- `create_component_identifier` (main_process_topology.py:119-121). -/
def createComponentIdentifier (entityId : JVal) : JVal :=
  .jstr ("urn:dynatrace:/" ++ pyStr entityId)

/-- `extract_tags` (main_process_topology.py:124-149): build `[context]key:value`
labels from the structured tag records.  `tag_label += key` is a plain string
concatenation and raises `TypeError` for a truthy non-string key; iteration
over a non-iterable `tags` value raises `TypeError`. -/
def extractTags (fs : List (String × JVal)) : Except PyErr (List JVal) := do
  let entityTags ← pyIter (objGetD fs "tags" (.jarr []))
  entityTags.foldlM
    (fun acc tag =>
      match tag with
      | .jobj tf => do
          let context := objGetN tf "context"
          let label :=
            if truthy context &&
                !(match context with | .jstr s => s == "CONTEXTLESS" | _ => false) then
              "[" ++ pyStr context ++ "]"
            else ""
          let key := objGetN tf "key"
          let label ← if truthy key then strAdd label key else pure label
          let value := objGetN tf "value"
          let label := if truthy value then label ++ ":" ++ pyStr value else label
          pure (if label != "" then acc ++ [JVal.jstr label] else acc)
      | _ => pure acc)
    []

/-- `extract_management_zones` (main_process_topology.py:152-163). -/
def extractManagementZones (fs : List (String × JVal)) : Except PyErr (List JVal) := do
  let zones ← pyIter (objGetD fs "managementZones" (.jarr []))
  zones.foldlM
    (fun acc zone =>
      match zone with
      | .jobj zf =>
          let name := objGetN zf "name"
          pure (if truthy name then acc ++ [JVal.jstr ("managementZones:" ++ pyStr name)] else acc)
      | _ => pure acc)
    []

/-- The fixed v2→v1 metadata key table of `normalize_process_group_v2_to_v1`
(main_process_topology.py:193-206). -/
def metadataKeyMapping (k : String) : Option String :=
  match k with
  | "COMMAND_LINE_ARGS" => some "commandLineArgs"
  | "EXE_NAME" => some "executables"
  | "EXE_PATH" => some "executablePaths"
  | "JAVA_MAIN_CLASS" => some "javaMainClasses"
  | "CONTAINER_IMAGE_NAME" => some "containerImageNames"
  | "CONTAINER_IMAGE_VERSION" => some "containerImageVersions"
  | "CONTAINER_NAME" => some "containerNames"
  | "ELASTIC_SEARCH_CLUSTER_NAMES" => some "elasticSearchClusterNames"
  | "ELASTIC_SEARCH_NODE_NAMES" => some "elasticSearchNodeNames"
  | "PG_ID_CALC_INPUT_KEY_LINKAGE" => some "pgIdCalcInputKeyLinkage"
  | "JAVA_JAR_FILE" => some "javaJarFiles"
  | "JAVA_JAR_PATH" => some "javaJarPaths"
  | _ => none

/-- Resolved dict key for a truthy raw metadata key.  Non-string hashable
scalars pass `key_mapping.get` unchanged and become dict keys themselves; we
render them by their string form (no verified claim uses a non-string key).
Lists and dicts are unhashable and raise `TypeError` at `key_mapping.get`. -/
def metadataTargetKey (rawKey : JVal) : Except PyErr String :=
  match rawKey with
  | .jstr s => .ok ((metadataKeyMapping s).getD s)
  | .jint n => .ok (toString n)
  | .jbool b => .ok (pyStr (.jbool b))
  | .jfloat r => .ok r
  | .jnull => .ok "None"
  | _ => .error .typeError

/-- The metadata entry fold of `normalize_process_group_v2_to_v1`
(main_process_topology.py:207-221): entries accumulate values per mapped
target key, in order; a falsy raw key skips the entry; a `None` value still
creates the (empty) bucket but appends nothing. -/
def foldMetadataEntries (entries : List JVal) : Except PyErr (List (String × JVal)) :=
  entries.foldlM
    (fun acc entry =>
      match entry with
      | .jobj ef => do
          let rawKey := objGetN ef "key"
          let value := objGetN ef "value"
          if !truthy rawKey then
            pure acc
          else do
            let targetKey ← metadataTargetKey rawKey
            let acc :=
              if objHasKey acc targetKey then acc else objSet acc targetKey (.jarr [])
            let acc :=
              if value matches .jnull then acc
              else
                match objGet acc targetKey with
                | some (.jarr vs) => objSet acc targetKey (.jarr (vs ++ [value]))
                | _ => acc
            pure acc
      | _ => pure acc)
    []

/-- `normalize_process_group_v2_to_v1` (main_process_topology.py:166-225),
modelled on the field list of the (always dict-valued) `component_data`
argument.  The Python function mutates `data["properties"]` in place exactly
when that entry is a truthy dict (the `or {}` fallback produces an unshared
fresh dict otherwise); the model reflects the mutated properties back into
the parent at the end — no intermediate read observes the difference. -/
def normalizeProcessGroupV2ToV1 (fs : List (String × JVal)) :
    Except PyErr (List (String × JVal)) := do
  let propsVal := objGetN fs "properties"
  -- `properties = data.get("properties") or {}`
  let props0 : JVal := if truthy propsVal then propsVal else .jobj []
  match props0 with
  | .jobj pf =>
      -- mutations of `properties` are visible in `data` iff the dict is shared
      let shared := truthy propsVal
      -- 1) listenPorts
      let listenPorts := objGetN pf "listenPorts"
      let pf := objRemove pf "listenPorts"
      let fs :=
        if truthy listenPorts && (listenPorts matches .jarr _) then
          objSet fs "listenPorts" listenPorts
        else fs
      -- 2) softwareTechnologies
      let softwareTechs := objGetN pf "softwareTechnologies"
      let pf := objRemove pf "softwareTechnologies"
      let fs :=
        if truthy softwareTechs && (softwareTechs matches .jarr _) then
          objSet fs "softwareTechnologies" softwareTechs
        else fs
      -- 3) detectedName -> discoveredName when missing
      let detectedName := objGetN pf "detectedName"
      let fs :=
        if truthy detectedName && !truthy (objGetN fs "discoveredName") then
          objSet fs "discoveredName" detectedName
        else fs
      -- 4) metadata entries list -> dict-of-arrays
      let metadataEntries := objGetN pf "metadata"
      let pf := objRemove pf "metadata"
      let metaOut ←
        match metadataEntries with
        | .jarr entries =>
            if truthy (.jarr entries) then foldMetadataEntries entries
            else pure []
        | _ => pure []
      let fs := if !metaOut.isEmpty then objSet fs "metadata" (.jobj metaOut) else fs
      let fs := if shared then objSet fs "properties" (.jobj pf) else fs
      pure fs
  | _ => pure fs

/-- The tag-list construction of `process_entity_to_component`
(main_process_topology.py:243-274): structured tags, management zones, the
entity id itself, one colon-joined label per top-level software-technology
record, and the monitoring-state labels.  Note the software-technology and
monitoring-state blocks read the top-level fields of the cleaned entity and
are not conditioned on the component type. -/
def buildTags (cfs : List (String × JVal)) (entityId : JVal) : Except PyErr (List JVal) := do
  let tags ← extractTags cfs
  let zones ← extractManagementZones cfs
  let tags := tags ++ zones
  let tags := if truthy entityId then tags ++ [entityId] else tags
  let softwareTechs := objGetD cfs "softwareTechnologies" (.jarr [])
  let tags ←
    if truthy softwareTechs then do
      let techs ← pyIter softwareTechs
      techs.foldlM
        (fun acc tech =>
          match tech with
          | .jobj tf => do
              let parts := [objGetN tf "type", objGetN tf "edition", objGetN tf "version"]
              let parts := parts.filter truthy
              let label ← joinColon parts
              pure (if label != "" then acc ++ [JVal.jstr label] else acc)
          | _ => pure acc)
        tags
    else pure tags
  let monitoringState := objGetN cfs "monitoringState"
  let tags :=
    match monitoringState with
    | .jobj mf =>
        let actual := objGetN mf "actualMonitoringState"
        let tags :=
          if truthy actual then tags ++ [JVal.jstr ("actualMonitoringState:" ++ pyStr actual)]
          else tags
        let expected := objGetN mf "expectedMonitoringState"
        if truthy expected then tags ++ [JVal.jstr ("expectedMonitoringState:" ++ pyStr expected)]
        else tags
    | _ => tags
  pure tags

/-- The record returned by `process_entity_to_component`
(main_process_topology.py:296-303). -/
structure Processed where
  entityId : JVal
  displayName : JVal
  componentType : String
  component : JVal
  fromRels : JVal
  toRels : JVal

/-- `process_entity_to_component` (main_process_topology.py:228-303). -/
def processEntityToComponent (entity : JVal) (componentType : String) :
    Except PyErr Processed := do
  let cfs ← cleanUnsupportedMetadata entity
  let entityId := objGetD cfs "entityId" (.jstr "")
  let displayName := objGetD cfs "displayName" entityId
  let identifiers := [createComponentIdentifier entityId]
  let tags ← buildTags cfs entityId
  -- component_data = {} updated with the cleaned entity, minus relationships and raw tags
  let cd := objRemove (objRemove (objRemove cfs "fromRelationships") "toRelationships") "tags"
  let cd ←
    if componentType == "process-group" then normalizeProcessGroupV2ToV1 cd
    else pure cd
  let cd := objSet cd "identifiers" (.jarr identifiers)
  let cd := objSet cd "tags" (.jarr tags)
  let cd := objSet cd "component_type" (.jstr componentType)
  pure { entityId := entityId
         displayName := displayName
         componentType := componentType
         component := .jobj cd
         fromRels := objGetD cfs "fromRelationships" (.jobj [])
         toRels := objGetD cfs "toRelationships" (.jobj []) }

/-- A directed relationship edge (main_process_topology.py:351-355). -/
structure Edge where
  source : JVal
  target : JVal
  type : String

/-- `target.get("id") if isinstance(target, dict) else target`
(main_process_topology.py:349). -/
def resolveRelId (t : JVal) : JVal :=
  match t with
  | .jobj tf => objGetN tf "id"
  | other => other

/-- Body of the outgoing-relationship loop of `process_topology`
(main_process_topology.py:345-355): one edge per truthy resolved target id,
non-list values for a relation type are skipped. -/
def relsFromPairs (entityId : JVal) (fs : List (String × JVal)) : List Edge :=
  fs.flatMap fun (relType, v) =>
    match v with
    | .jarr targets =>
        targets.filterMap fun t =>
          if truthy (resolveRelId t) then some ⟨entityId, resolveRelId t, relType⟩ else none
    | _ => []

/-- Body of the incoming-relationship loop of `process_topology`
(main_process_topology.py:358-368). -/
def relsToPairs (entityId : JVal) (fs : List (String × JVal)) : List Edge :=
  fs.flatMap fun (relType, v) =>
    match v with
    | .jarr sources =>
        sources.filterMap fun s =>
          if truthy (resolveRelId s) then some ⟨resolveRelId s, entityId, relType⟩ else none
    | _ => []

/-- The outgoing-relationship loop of `process_topology`
(main_process_topology.py:344-355); `.items()` on a non-dict raises
`AttributeError`. -/
def relsFrom (entityId : JVal) (fromRels : JVal) : Except PyErr (List Edge) :=
  match fromRels with
  | .jobj fs => .ok (relsFromPairs entityId fs)
  | _ => .error .attributeError

/-- The incoming-relationship loop of `process_topology`
(main_process_topology.py:357-368). -/
def relsTo (entityId : JVal) (toRels : JVal) : Except PyErr (List Edge) :=
  match toRels with
  | .jobj fs => .ok (relsToPairs entityId fs)
  | _ => .error .attributeError

/-- `entity.get("entityId", "UNKNOWN")` in the exception handler of
`process_topology` (main_process_topology.py:370); raises when the raw entity
is not a dict. -/
def warnId (entity : JVal) : Except PyErr JVal :=
  match entity with
  | .jobj fs => .ok (objGetD fs "entityId" (.jstr "UNKNOWN"))
  | _ => .error .attributeError

/-- One iteration of the entity loop of `process_topology`
(main_process_topology.py:334-372), as its contribution of components, edges
and warning ids.  The component is appended before the relationship loops
run, so an error raised by `.items()` leaves the component (and, for
`toRelationships`, the already-collected outgoing edges) in the output. -/
def processOne (componentType : String) (entity : JVal) :
    Except PyErr (List JVal × List Edge × List JVal) :=
  match processEntityToComponent entity componentType with
  | .ok p =>
      match relsFrom p.entityId p.fromRels with
      | .ok fromEdges =>
          match relsTo p.entityId p.toRels with
          | .ok toEdges => .ok ([p.component], fromEdges ++ toEdges, [])
          | .error _ =>
              (warnId entity).map (fun w => ([p.component], fromEdges, [w]))
      | .error _ =>
          (warnId entity).map (fun w => ([p.component], [], [w]))
  | .error _ =>
      (warnId entity).map (fun w => ([], [], [w]))

/-- The aggregate built by `process_topology` (main_process_topology.py:377-390).
`warnings` records the entity ids named in the printed warnings; the
file-name/timestamp metadata is collaborator glue and not modelled. -/
structure Topology where
  components : List JVal
  relationships : List Edge
  warnings : List JVal

/-- The entity loop of `process_topology` (main_process_topology.py:330-390)
over an already-extracted entity list and resolved component type. -/
def processTopology (entities : List JVal) (componentType : String) :
    Except PyErr Topology :=
  match entities with
  | [] => .ok ⟨[], [], []⟩
  | e :: rest =>
      match processOne componentType e with
      | .error err => .error err
      | .ok (cs, rs, ws) =>
          match processTopology rest componentType with
          | .error err => .error err
          | .ok t => .ok ⟨cs ++ t.components, rs ++ t.relationships, ws ++ t.warnings⟩

/-- `True` exactly for Python dicts. -/
def JVal.isObj : JVal → Bool
  | .jobj _ => true
  | _ => false

/-- `True` exactly for Python strings. -/
def JVal.isStr : JVal → Bool
  | .jstr _ => true
  | _ => false

/-- The `tags` field stored in a processed component. -/
def componentTagsOf (p : Processed) : JVal :=
  match p.component with
  | .jobj fs => objGetD fs "tags" .jnull
  | _ => .jnull

/-- Components of a topology result (empty on an aborted run). -/
def componentsOf (r : Except PyErr Topology) : List JVal :=
  match r with
  | .ok t => t.components
  | .error _ => []

/-- Relationships of a topology result (empty on an aborted run). -/
def relationshipsOf (r : Except PyErr Topology) : List Edge :=
  match r with
  | .ok t => t.relationships
  | .error _ => []

/-- Warnings of a topology result (empty on an aborted run). -/
def warningsOf (r : Except PyErr Topology) : List JVal :=
  match r with
  | .ok t => t.warnings
  | .error _ => []

/-- The entity id named in a logged per-entity warning: the entity's
`entityId` value, or the sentinel `UNKNOWN` when missing (dict entities). -/
def loggedWarningId (e : JVal) : JVal :=
  match e with
  | .jobj fs => objGetD fs "entityId" (.jstr "UNKNOWN")
  | _ => .jnull

/-! ## Ordered-dict lemmas -/

theorem objGet_nil (k : String) : objGet [] k = none := rfl

theorem objGet_cons (p : String × JVal) (fs : List (String × JVal)) (k : String) :
    objGet (p :: fs) k = if p.1 == k then some p.2 else objGet fs k := by
  simp only [objGet, List.find?]
  cases h : p.1 == k <;> simp [h]

theorem objGet_of_objHasKey_eq_false {fs : List (String × JVal)} {k : String}
    (h : objHasKey fs k = false) : objGet fs k = none := by
  induction fs with
  | nil => rfl
  | cons p fs ih =>
      simp only [objHasKey, List.any_cons, Bool.or_eq_false_iff] at h
      rw [objGet_cons, h.1, if_neg (by simp)]
      exact ih h.2

theorem objGet_replaceEntry_self {fs : List (String × JVal)} {k : String} {v : JVal}
    (h : objHasKey fs k = true) : objGet (replaceEntry fs k v) k = some v := by
  induction fs with
  | nil => simp [objHasKey] at h
  | cons p fs ih =>
      cases hpk : (p.1 == k) with
      | true => rw [replaceEntry, if_pos (by rw [hpk]), objGet_cons, hpk, if_pos rfl]
      | false =>
          simp only [objHasKey, List.any_cons, hpk, Bool.false_or] at h
          rw [replaceEntry, if_neg (by rw [hpk]; exact Bool.false_ne_true),
            objGet_cons, hpk, if_neg (by simp)]
          exact ih h

theorem objGet_replaceEntry_ne {fs : List (String × JVal)} {k k' : String} {v : JVal}
    (h : ¬k' = k) : objGet (replaceEntry fs k' v) k = objGet fs k := by
  induction fs with
  | nil => rfl
  | cons p fs ih =>
      cases hpk : (p.1 == k') with
      | true =>
          have hk : (p.1 == k) = false := by
            have : p.1 = k' := by simpa using hpk
            simp [this, h]
          rw [replaceEntry, if_pos (by rw [hpk]), objGet_cons, objGet_cons, hk]
          simp [hk]
      | false =>
          rw [replaceEntry, if_neg (by rw [hpk]; exact Bool.false_ne_true),
            objGet_cons, objGet_cons]
          cases hx : (p.1 == k) with
          | true => simp
          | false => simp [ih]

theorem objGet_append_single_self {fs : List (String × JVal)} {k : String} {v : JVal}
    (h : objHasKey fs k = false) : objGet (fs ++ [(k, v)]) k = some v := by
  induction fs with
  | nil => simp [objGet_cons]
  | cons p fs ih =>
      simp only [objHasKey, List.any_cons, Bool.or_eq_false_iff] at h
      rw [List.cons_append, objGet_cons, h.1, if_neg (by simp)]
      exact ih h.2

theorem objGet_append_single_ne {fs : List (String × JVal)} {k k' : String} {v : JVal}
    (h : ¬k' = k) : objGet (fs ++ [(k', v)]) k = objGet fs k := by
  induction fs with
  | nil => simp [objGet_cons, objGet_nil, h]
  | cons p fs ih =>
      rw [List.cons_append, objGet_cons, objGet_cons]
      cases hx : (p.1 == k) with
      | true => simp
      | false => simp [ih]

/-- Dict assignment then lookup at the same key. -/
theorem objGet_objSet_self (fs : List (String × JVal)) (k : String) (v : JVal) :
    objGet (objSet fs k v) k = some v := by
  unfold objSet
  cases h : objHasKey fs k with
  | true => simpa using objGet_replaceEntry_self h
  | false => simpa using objGet_append_single_self h

/-- Dict assignment then lookup at a different key. -/
theorem objGet_objSet_ne (fs : List (String × JVal)) {k k' : String} (v : JVal)
    (h : ¬k' = k) : objGet (objSet fs k' v) k = objGet fs k := by
  unfold objSet
  cases hk : objHasKey fs k' with
  | true => simpa using objGet_replaceEntry_ne h
  | false => simpa using objGet_append_single_ne h


/-! ## Relationship membership lemmas -/

theorem mem_relsFromPairs (entityId : JVal) (fs : List (String × JVal)) (e : Edge) :
    e ∈ relsFromPairs entityId fs ↔
      ∃ relType targets t, (relType, JVal.jarr targets) ∈ fs ∧ t ∈ targets ∧
        truthy (resolveRelId t) = true ∧ e = ⟨entityId, resolveRelId t, relType⟩ := by
  unfold relsFromPairs
  rw [List.mem_flatMap]
  constructor
  · rintro ⟨⟨rt, v⟩, hin, he⟩
    cases v with
    | jarr ts =>
        rw [List.mem_filterMap] at he
        obtain ⟨t, ht, hsome⟩ := he
        cases htr : truthy (resolveRelId t) with
        | true =>
            rw [htr, if_pos rfl] at hsome
            exact ⟨rt, ts, t, hin, ht, htr, (Option.some_injective _ hsome).symm⟩
        | false => rw [htr] at hsome; simp at hsome
    | jnull => simp at he
    | jbool b => simp at he
    | jint n => simp at he
    | jfloat r => simp at he
    | jstr s => simp at he
    | jobj o => simp at he
  · rintro ⟨rt, ts, t, hin, ht, htr, rfl⟩
    exact ⟨(rt, .jarr ts), hin, List.mem_filterMap.mpr ⟨t, ht, by rw [htr, if_pos rfl]⟩⟩

theorem mem_relsToPairs (entityId : JVal) (fs : List (String × JVal)) (e : Edge) :
    e ∈ relsToPairs entityId fs ↔
      ∃ relType sources s, (relType, JVal.jarr sources) ∈ fs ∧ s ∈ sources ∧
        truthy (resolveRelId s) = true ∧ e = ⟨resolveRelId s, entityId, relType⟩ := by
  unfold relsToPairs
  rw [List.mem_flatMap]
  constructor
  · rintro ⟨⟨rt, v⟩, hin, he⟩
    cases v with
    | jarr ss =>
        rw [List.mem_filterMap] at he
        obtain ⟨s, hs, hsome⟩ := he
        cases htr : truthy (resolveRelId s) with
        | true =>
            rw [htr, if_pos rfl] at hsome
            exact ⟨rt, ss, s, hin, hs, htr, (Option.some_injective _ hsome).symm⟩
        | false => rw [htr] at hsome; simp at hsome
    | jnull => simp at he
    | jbool b => simp at he
    | jint n => simp at he
    | jfloat r => simp at he
    | jstr s => simp at he
    | jobj o => simp at he
  · rintro ⟨rt, ss, s, hin, hs, htr, rfl⟩
    exact ⟨(rt, .jarr ss), hin, List.mem_filterMap.mpr ⟨s, hs, by rw [htr, if_pos rfl]⟩⟩

/-! ## Claim C7 -/

/-- C7: the two metadata folds are intentionally asymmetric.  A
`properties.customPgMetadata` list folds into a flat dict with last-write-wins
semantics (both in the spec example and for every trailing entry whose key is
a plain string), whereas the process-group `properties.metadata` entry list
folds into a dict-of-arrays whose values accumulate in array order. -/
theorem customPgMetadata_lww_vs_metadata_accumulation :
    (cleanUnsupportedMetadata (.jobj [("properties", .jobj [("customPgMetadata",
        .jarr [.jobj [("key", .jstr "a"), ("value", .jint 1)],
               .jobj [("key", .jstr "a"), ("value", .jint 2)]])])])
      = .ok [("properties", .jobj [("customPgMetadata", .jobj [("a", .jint 2)])])])
  ∧ (normalizeProcessGroupV2ToV1 [("properties", .jobj [("metadata",
        .jarr [.jobj [("key", .jstr "EXE_NAME"), ("value", .jstr "x")],
               .jobj [("key", .jstr "EXE_NAME"), ("value", .jstr "y")]])])]
      = .ok [("properties", .jobj []),
             ("metadata", .jobj [("executables", .jarr [.jstr "x", .jstr "y"])])])
  ∧ (∀ (items : List JVal) (k : String) (v : JVal),
      objGet (foldCustomPgMetadata
        (items ++ [.jobj [("key", .jstr k), ("value", v)]])) k = some v)
  ∧ (∀ (v1 v2 : JVal), v1 ≠ .jnull → v2 ≠ .jnull →
      foldMetadataEntries
          [.jobj [("key", .jstr "EXE_NAME"), ("value", v1)],
           .jobj [("key", .jstr "EXE_NAME"), ("value", v2)]]
        = .ok [("executables", .jarr [v1, v2])]) := by
  refine ⟨rfl, rfl, ?_, ?_⟩
  · intro items k v
    unfold foldCustomPgMetadata
    rw [List.enum_append, List.foldl_append]
    exact objGet_objSet_self _ k v
  · intro v1 v2 h1 h2
    cases v1 <;> cases v2 <;> first
      | exact absurd rfl h1
      | exact absurd rfl h2
      | rfl

/-- Witness for C7's quantified conjuncts at concrete inputs. -/
theorem customPgMetadata_lww_vs_metadata_accumulation_witness :
    foldMetadataEntries
        [.jobj [("key", .jstr "EXE_NAME"), ("value", .jstr "x")],
         .jobj [("key", .jstr "EXE_NAME"), ("value", .jstr "y")]]
      = .ok [("executables", .jarr [.jstr "x", .jstr "y"])] :=
  customPgMetadata_lww_vs_metadata_accumulation.2.2.2 (.jstr "x") (.jstr "y")
    (fun h => nomatch h) (fun h => nomatch h)

/-! ## Claim C8 -/

/-- C8 counterexample: a record target whose `id` field is present but the
empty string yields no edge at all, although the claim prescribes the edge
`{source: "E1", target: "", type: "runsOn"}` for every target. -/
theorem relationship_edge_per_target_counterexample :
    relationshipsOf (processTopology
        [.jobj [("entityId", .jstr "E1"),
                ("fromRelationships", .jobj [("runsOn", .jarr [.jobj [("id", .jstr "")]])])]]
        "entity") = []
  ∧ objGet [("id", JVal.jstr "")] "id" = some (.jstr "") :=
  ⟨rfl, rfl⟩

/-- C8 (amended): an outgoing-relationships entry `{relationType: [targets]}`
yields the edge `{source: entityId, target: targetId, type: relationType}`
exactly for the targets whose resolved id (the `id` field of a record, or the
bare entry itself) is truthy; incoming entries symmetrically; a relation-type
key with a non-list value yields no edges and no error; and the spec's
`E1`/`E2` examples produce exactly their stated edges. -/
theorem relationship_edge_per_truthy_target :
    (∀ (entityId : JVal) (fs : List (String × JVal)) (e : Edge),
        e ∈ relsFromPairs entityId fs ↔
          ∃ relType targets t, (relType, JVal.jarr targets) ∈ fs ∧ t ∈ targets ∧
            truthy (resolveRelId t) = true ∧ e = ⟨entityId, resolveRelId t, relType⟩)
  ∧ (∀ (entityId : JVal) (fs : List (String × JVal)) (e : Edge),
        e ∈ relsToPairs entityId fs ↔
          ∃ relType sources s, (relType, JVal.jarr sources) ∈ fs ∧ s ∈ sources ∧
            truthy (resolveRelId s) = true ∧ e = ⟨resolveRelId s, entityId, relType⟩)
  ∧ (∀ (entityId : JVal) (fs : List (String × JVal)),
        ∃ l, relsFrom entityId (.jobj fs) = .ok l)
  ∧ (∀ (entityId : JVal) (fs : List (String × JVal)),
        ∃ l, relsTo entityId (.jobj fs) = .ok l)
  ∧ relationshipsOf (processTopology
        [.jobj [("entityId", .jstr "E1"),
                ("fromRelationships", .jobj [("runsOn", .jarr [.jobj [("id", .jstr "H1")]])])],
         .jobj [("entityId", .jstr "E2"),
                ("toRelationships", .jobj [("isInstanceOf", .jarr [.jstr "PG1"])])]]
        "entity")
      = [⟨.jstr "E1", .jstr "H1", "runsOn"⟩, ⟨.jstr "PG1", .jstr "E2", "isInstanceOf"⟩] :=
  ⟨mem_relsFromPairs, mem_relsToPairs,
   fun entityId fs => ⟨relsFromPairs entityId fs, rfl⟩,
   fun entityId fs => ⟨relsToPairs entityId fs, rfl⟩,
   rfl⟩

/-- Witness for C8's amended characterization at a concrete edge. -/
theorem relationship_edge_per_truthy_target_witness :
    Edge.mk (.jstr "E1") (.jstr "H1") "runsOn" ∈
      relsFromPairs (.jstr "E1") [("runsOn", .jarr [.jobj [("id", .jstr "H1")]])] :=
  (relationship_edge_per_truthy_target.1 (.jstr "E1")
      [("runsOn", .jarr [.jobj [("id", .jstr "H1")]])]
      ⟨.jstr "E1", .jstr "H1", "runsOn"⟩).mpr
    ⟨"runsOn", [.jobj [("id", .jstr "H1")]], .jobj [("id", .jstr "H1")],
      List.mem_singleton.mpr rfl, List.mem_singleton.mpr rfl, rfl, rfl⟩

/-! ## Claim C10 -/

/-- C10 counterexample: a truthy non-string entry (the integer `5`) is used
verbatim as the edge target, so an emitted `Relationship` need not carry a
string on the side supplied by the relationship list. -/
theorem falsy_relationship_ids_dropped_counterexample :
    relationshipsOf (processTopology
        [.jobj [("entityId", .jstr "E1"),
                ("fromRelationships", .jobj [("t", .jarr [.jint 5])])]]
        "entity") = [⟨.jstr "E1", .jint 5, "t"⟩]
  ∧ JVal.isStr (.jint 5) = false :=
  ⟨rfl, rfl⟩

/-- C10 (amended): a relationship-list entry whose resolved id is missing or
falsy is silently dropped — no edge, no error — so every emitted edge carries
a truthy (though not necessarily string) value on the side supplied by the
relationship list. -/
theorem falsy_relationship_ids_dropped :
    (∀ (entityId : JVal) (fs : List (String × JVal)) (e : Edge),
        e ∈ relsFromPairs entityId fs → truthy e.target = true)
  ∧ (∀ (entityId : JVal) (fs : List (String × JVal)) (e : Edge),
        e ∈ relsToPairs entityId fs → truthy e.source = true)
  ∧ (processTopology
        [.jobj [("entityId", .jstr "E1"),
                ("fromRelationships", .jobj
                  [("t", .jarr [.jnull, .jstr "", .jbool false, .jint 0, .jobj [],
                                .jobj [("id", .jstr "")], .jobj [("name", .jstr "x")]])]),
                ("toRelationships", .jobj [("u", .jarr [.jnull, .jstr ""])])]]
        "entity")
      = .ok ⟨[.jobj [("entityId", .jstr "E1"),
                     ("identifiers", .jarr [.jstr "urn:dynatrace:/E1"]),
                     ("tags", .jarr [.jstr "E1"]),
                     ("component_type", .jstr "entity")]], [], []⟩ := by
  refine ⟨?_, ?_, rfl⟩
  · intro entityId fs e he
    obtain ⟨rt, ts, t, hin, ht, htr, rfl⟩ := (mem_relsFromPairs entityId fs e).mp he
    exact htr
  · intro entityId fs e he
    obtain ⟨rt, ss, s, hin, hs, htr, rfl⟩ := (mem_relsToPairs entityId fs e).mp he
    exact htr

/-- Witness for C10's quantified conjuncts at a concrete edge. -/
theorem falsy_relationship_ids_dropped_witness :
    truthy (Edge.mk (.jstr "S") (.jstr "T") "r").target = true :=
  falsy_relationship_ids_dropped.1 (.jstr "S") [("r", .jarr [.jstr "T"])]
    ⟨.jstr "S", .jstr "T", "r"⟩
    (List.mem_flatMap.mpr ⟨("r", .jarr [.jstr "T"]), List.mem_singleton.mpr rfl,
      List.mem_filterMap.mpr ⟨.jstr "T", List.mem_singleton.mpr rfl, rfl⟩⟩)

/-! ## Claim C6 -/

/-- The `tags` value stored in a processed component is computed from the
cleaned entity before the component-type branch and is therefore independent
of the component type. -/
theorem processEntityToComponent_tags (e : JVal) (ct : String) (p : Processed)
    (h : processEntityToComponent e ct = .ok p) :
    ∃ cfs tags, cleanUnsupportedMetadata e = .ok cfs ∧
      buildTags cfs (objGetD cfs "entityId" (.jstr "")) = .ok tags ∧
      componentTagsOf p = .jarr tags := by
  unfold processEntityToComponent at h
  cases hc : cleanUnsupportedMetadata e with
  | error err => rw [hc] at h; simp [Bind.bind, Except.bind] at h
  | ok cfs =>
      rw [hc] at h
      simp only [Bind.bind, Except.bind] at h
      cases htg : buildTags cfs (objGetD cfs "entityId" (.jstr "")) with
      | error err => rw [htg] at h; simp at h
      | ok tags =>
          rw [htg] at h
          dsimp only at h
          refine ⟨cfs, tags, rfl, htg, ?_⟩
          by_cases hct : (ct == "process-group") = true
          · rw [if_pos hct] at h
            cases hn : normalizeProcessGroupV2ToV1
                (objRemove (objRemove (objRemove cfs "fromRelationships") "toRelationships")
                  "tags") with
            | error err => rw [hn] at h; simp at h
            | ok cd =>
                rw [hn] at h
                dsimp only [pure, Except.pure] at h
                injection h with h
                subst h
                dsimp only [componentTagsOf]
                unfold objGetD
                rw [objGet_objSet_ne _ _ (by decide), objGet_objSet_self]
                rfl
          · rw [if_neg hct] at h
            dsimp only [pure, Except.pure] at h
            injection h with h
            subst h
            dsimp only [componentTagsOf]
            unfold objGetD
            rw [objGet_objSet_ne _ _ (by decide), objGet_objSet_self]
            rfl

/-- C6 counterexample: an entity processed with kind `process` (not
`process-group`) whose top-level fields carry software-technology and
monitoring-state records still receives the `<type>:<edition>:<version>` and
monitoring-state labels — the labels are not restricted to process-groups. -/
theorem process_group_only_labels_counterexample :
    Except.map componentTagsOf
        (processEntityToComponent
          (.jobj [("entityId", .jstr "E1"),
                  ("softwareTechnologies",
                    .jarr [.jobj [("type", .jstr "JAVA"), ("version", .jstr "11")]]),
                  ("monitoringState", .jobj [("actualMonitoringState", .jstr "ON")])])
          "process")
      = .ok (.jarr [.jstr "E1", .jstr "JAVA:11", .jstr "actualMonitoringState:ON"])
  ∧ "process" ≠ "process-group" :=
  ⟨rfl, by decide⟩

/-- C6 (amended): the software-technology and monitoring-state labels are
derived from the top-level `softwareTechnologies` and `monitoringState`
fields of the cleaned entity for entities of every kind — the component type
plays no role in tag construction (it only selects the process-group data
reshape, which runs after the tag list is built).  In particular a
process-group entity carrying these fields nested under `properties` receives
no such labels. -/
theorem software_technology_and_monitoring_labels :
    (∀ (e : JVal) (ct₁ ct₂ : String) (p q : Processed),
        processEntityToComponent e ct₁ = .ok p →
        processEntityToComponent e ct₂ = .ok q →
        componentTagsOf p = componentTagsOf q)
  ∧ Except.map componentTagsOf
        (processEntityToComponent
          (.jobj [("entityId", .jstr "E1"),
                  ("softwareTechnologies",
                    .jarr [.jobj [("type", .jstr "JAVA"), ("version", .jstr "11")]]),
                  ("monitoringState", .jobj [("actualMonitoringState", .jstr "ON")])])
          "process-group")
      = .ok (.jarr [.jstr "E1", .jstr "JAVA:11", .jstr "actualMonitoringState:ON"])
  ∧ Except.map componentTagsOf
        (processEntityToComponent
          (.jobj [("entityId", .jstr "PG1"),
                  ("properties", .jobj [("softwareTechnologies",
                    .jarr [.jobj [("type", .jstr "JAVA")]])])])
          "process-group")
      = .ok (.jarr [.jstr "PG1"]) := by
  refine ⟨?_, rfl, rfl⟩
  intro e ct₁ ct₂ p q hp hq
  obtain ⟨cfs₁, tags₁, hc₁, ht₁, he₁⟩ := processEntityToComponent_tags e ct₁ p hp
  obtain ⟨cfs₂, tags₂, hc₂, ht₂, he₂⟩ := processEntityToComponent_tags e ct₂ q hq
  rw [hc₁] at hc₂
  injection hc₂ with hcc
  subst hcc
  rw [ht₁] at ht₂
  injection ht₂ with htt
  subst htt
  rw [he₁, he₂]

/-- Witness for C6's quantified conjunct at a concrete entity and two kinds. -/
theorem software_technology_and_monitoring_labels_witness :
    componentTagsOf
        { entityId := .jstr "W1", displayName := .jstr "W1", componentType := "process"
          component := .jobj [("entityId", .jstr "W1"),
                              ("identifiers", .jarr [.jstr "urn:dynatrace:/W1"]),
                              ("tags", .jarr [.jstr "W1"]),
                              ("component_type", .jstr "process")]
          fromRels := .jobj [], toRels := .jobj [] }
      = componentTagsOf
        { entityId := .jstr "W1", displayName := .jstr "W1", componentType := "host"
          component := .jobj [("entityId", .jstr "W1"),
                              ("identifiers", .jarr [.jstr "urn:dynatrace:/W1"]),
                              ("tags", .jarr [.jstr "W1"]),
                              ("component_type", .jstr "host")]
          fromRels := .jobj [], toRels := .jobj [] } :=
  software_technology_and_monitoring_labels.1 (.jobj [("entityId", .jstr "W1")])
    "process" "host" _ _ rfl rfl

/-! ## Claim C1 -/

theorem isObj_iff_exists {v : JVal} : v.isObj = true ↔ ∃ fs, v = .jobj fs := by
  cases v <;> simp [JVal.isObj]

/-- The loop body never propagates an exception for a dict entity: the
`except` handler's `entity.get` always succeeds. -/
theorem processOne_ok_of_obj (ct : String) (fs : List (String × JVal)) :
    ∃ v, processOne ct (.jobj fs) = .ok v := by
  unfold processOne
  cases h : processEntityToComponent (.jobj fs) ct with
  | error err =>
      exact ⟨([], [], [objGetD fs "entityId" (.jstr "UNKNOWN")]),
        by simp [warnId, Except.map]⟩
  | ok p =>
      cases hf : relsFrom p.entityId p.fromRels with
      | error e1 =>
          exact ⟨([p.component], [], [objGetD fs "entityId" (.jstr "UNKNOWN")]),
            by simp [hf, warnId, Except.map]⟩
      | ok fe =>
          cases ht : relsTo p.entityId p.toRels with
          | error e2 =>
              exact ⟨([p.component], fe, [objGetD fs "entityId" (.jstr "UNKNOWN")]),
                by simp [hf, ht, warnId, Except.map]⟩
          | ok te => exact ⟨([p.component], fe ++ te, []), by simp [hf, ht]⟩

/-- A normalization failure on a dict entity contributes no component, no
relationship, and exactly one warning naming the entity id (or `UNKNOWN`). -/
theorem processOne_error {ct : String} {bad : JVal} {err : PyErr}
    (hbad : bad.isObj = true)
    (herr : processEntityToComponent bad ct = .error err) :
    processOne ct bad = .ok ([], [], [loggedWarningId bad]) := by
  obtain ⟨bfs, rfl⟩ := isObj_iff_exists.mp hbad
  simp [processOne, herr, warnId, loggedWarningId, Except.map]

/-- A batch of dict entities never aborts. -/
theorem processTopology_ok_of_objs (es : List JVal) (ct : String)
    (h : ∀ e ∈ es, e.isObj = true) : ∃ t, processTopology es ct = .ok t := by
  induction es with
  | nil => exact ⟨⟨[], [], []⟩, rfl⟩
  | cons e rest ih =>
      obtain ⟨fs, rfl⟩ := isObj_iff_exists.mp (h e (List.mem_cons_self e rest))
      obtain ⟨v, hv⟩ := processOne_ok_of_obj ct fs
      obtain ⟨t, ht⟩ := ih (fun e he => h e (List.mem_cons_of_mem _ he))
      exact ⟨⟨v.1 ++ t.components, v.2.1 ++ t.relationships, v.2.2 ++ t.warnings⟩,
        by simp [processTopology, hv, ht]⟩

/-- C1 counterexample: an entity whose `fromRelationships` value is a string
raises `AttributeError` at `.items()`, the error is caught and a warning
naming `E1` is logged — but the entity's component was already appended, so a
failing entity can still contribute a component to the output. -/
theorem entity_error_never_contributes_counterexample :
    processTopology
        [.jobj [("entityId", .jstr "E1"), ("fromRelationships", .jstr "oops")]]
        "entity"
      = .ok ⟨[.jobj [("entityId", .jstr "E1"),
                     ("identifiers", .jarr [.jstr "urn:dynatrace:/E1"]),
                     ("tags", .jarr [.jstr "E1"]),
                     ("component_type", .jstr "entity")]],
             [], [.jstr "E1"]⟩
  ∧ relsFrom (.jstr "E1") (.jstr "oops") = .error .attributeError :=
  ⟨rfl, rfl⟩

/-- C1 (amended): for dict entities a per-entity processing error is caught,
a warning naming the entity id (or `UNKNOWN`) is logged, and the batch
continues.  An entity whose *normalization*
(`process_entity_to_component`) raises contributes no component and no
relationships; only an entity failing later, during relationship extraction,
retains its already-appended component.  A 10-entity batch with one
malformed entity (its `tags` value is `null`, so tag iteration raises)
yields exactly 9 components, the malformed entity's warning, and no abort. -/
theorem per_entity_errors_skip_entity_and_continue :
    (∀ (xs ys : List JVal) (bad : JVal) (ct : String) (err : PyErr),
        (∀ e ∈ xs, e.isObj = true) → (∀ e ∈ ys, e.isObj = true) → bad.isObj = true →
        processEntityToComponent bad ct = .error err →
        ∃ t, processTopology (xs ++ bad :: ys) ct = .ok t ∧
          t.components = componentsOf (processTopology xs ct)
              ++ componentsOf (processTopology ys ct) ∧
          t.relationships = relationshipsOf (processTopology xs ct)
              ++ relationshipsOf (processTopology ys ct) ∧
          t.warnings = warningsOf (processTopology xs ct)
              ++ loggedWarningId bad :: warningsOf (processTopology ys ct))
  ∧ Except.map (fun t => (t.components.length, t.warnings))
        (processTopology
          [.jobj [("entityId", .jstr "P1")], .jobj [("entityId", .jstr "P2")],
           .jobj [("entityId", .jstr "P3")], .jobj [("entityId", .jstr "P4")],
           .jobj [("entityId", .jstr "P5")],
           .jobj [("entityId", .jstr "BAD"), ("tags", .jnull)],
           .jobj [("entityId", .jstr "P6")], .jobj [("entityId", .jstr "P7")],
           .jobj [("entityId", .jstr "P8")], .jobj [("entityId", .jstr "P9")]]
          "process")
      = .ok (9, [.jstr "BAD"]) := by
  refine ⟨?_, rfl⟩
  intro xs ys bad ct err hxs hys hbad herr
  induction xs with
  | nil =>
      obtain ⟨t2, ht2⟩ := processTopology_ok_of_objs ys ct hys
      have hone := processOne_error hbad herr
      refine ⟨⟨t2.components, t2.relationships, loggedWarningId bad :: t2.warnings⟩, ?_, ?_, ?_, ?_⟩
      · simp [processTopology, hone, ht2]
      · simp [componentsOf, processTopology, ht2]
      · simp [relationshipsOf, processTopology, ht2]
      · simp [warningsOf, processTopology, ht2]
  | cons x xs ih =>
      have hx : x.isObj = true := hxs x (List.mem_cons_self x xs)
      have hxs' : ∀ e ∈ xs, e.isObj = true := fun e he => hxs e (List.mem_cons_of_mem _ he)
      obtain ⟨t, ht, hc, hr, hw⟩ := ih hxs'
      obtain ⟨fs, rfl⟩ := isObj_iff_exists.mp hx
      obtain ⟨v, hv⟩ := processOne_ok_of_obj ct fs
      obtain ⟨t1, ht1⟩ := processTopology_ok_of_objs xs ct hxs'
      refine ⟨⟨v.1 ++ t.components, v.2.1 ++ t.relationships, v.2.2 ++ t.warnings⟩, ?_, ?_, ?_, ?_⟩
      · simp [processTopology, hv, ht]
      · have hcons : processTopology (JVal.jobj fs :: xs) ct
            = .ok ⟨v.1 ++ t1.components, v.2.1 ++ t1.relationships, v.2.2 ++ t1.warnings⟩ := by
          simp [processTopology, hv, ht1]
        simp [componentsOf, hcons, ht1, hc, List.append_assoc]
      · have hcons : processTopology (JVal.jobj fs :: xs) ct
            = .ok ⟨v.1 ++ t1.components, v.2.1 ++ t1.relationships, v.2.2 ++ t1.warnings⟩ := by
          simp [processTopology, hv, ht1]
        simp [relationshipsOf, hcons, ht1, hr, List.append_assoc]
      · have hcons : processTopology (JVal.jobj fs :: xs) ct
            = .ok ⟨v.1 ++ t1.components, v.2.1 ++ t1.relationships, v.2.2 ++ t1.warnings⟩ := by
          simp [processTopology, hv, ht1]
        simp [warningsOf, hcons, ht1, hw, List.append_assoc]

/-- Witness for C1's quantified conjunct: a concrete 3-entity batch whose
middle entity fails normalization yields the outer entities' components and
one warning. -/
theorem per_entity_errors_skip_entity_and_continue_witness :
    ∃ t, processTopology
        [.jobj [("entityId", .jstr "A")],
         .jobj [("entityId", .jstr "BAD"), ("tags", .jnull)],
         .jobj [("entityId", .jstr "B")]] "entity"
      = .ok t ∧
      t.components = componentsOf (processTopology [.jobj [("entityId", .jstr "A")]] "entity")
          ++ componentsOf (processTopology [.jobj [("entityId", .jstr "B")]] "entity") ∧
      t.relationships
        = relationshipsOf (processTopology [.jobj [("entityId", .jstr "A")]] "entity")
          ++ relationshipsOf (processTopology [.jobj [("entityId", .jstr "B")]] "entity") ∧
      t.warnings = warningsOf (processTopology [.jobj [("entityId", .jstr "A")]] "entity")
          ++ loggedWarningId (.jobj [("entityId", .jstr "BAD"), ("tags", .jnull)])
            :: warningsOf (processTopology [.jobj [("entityId", .jstr "B")]] "entity") :=
  per_entity_errors_skip_entity_and_continue.1
    [.jobj [("entityId", .jstr "A")]] [.jobj [("entityId", .jstr "B")]]
    (.jobj [("entityId", .jstr "BAD"), ("tags", .jnull)]) "entity" .typeError
    (by intro e he; rw [List.mem_singleton.mp he]; rfl)
    (by intro e he; rw [List.mem_singleton.mp he]; rfl)
    rfl rfl


/-! ## `main.py` — token lifecycle and paginated fetching

The HTTP session and the token endpoint are modelled by scripted oracles
inside a `World`: `pages` answers `session.get` in order, `exchanges` answers
the token-exchange `requests.post` in order, and `timeline` yields the
successive `time.time()` samples.  Issued GET requests are recorded in `log`
(query parameters and `Authorization` header), so the theorems can speak
about which requests were sent. -/

/-- An HTTP response as the code observes it: status code, JSON body (`none`
when the body fails to parse as JSON), raw text and response headers. -/
structure HttpResp where
  status : Nat
  body : Option JVal
  text : String
  headers : List (String × String)

/-- A recorded outgoing GET request. -/
structure ReqRecord where
  params : List (String × JVal)
  authHeader : String

/-- The external world: time source, scripted token-endpoint responses,
scripted page responses, and the log of issued GET requests. -/
structure World where
  timeline : Nat → Int
  timeIdx : Nat
  exchanges : List HttpResp
  pages : List HttpResp
  log : List ReqRecord

/-- The mutable state of a `JwtAuthenticator` (main.py:117-131):
`_token`, `_expiry_epoch`, plus an instrumentation counter of `invalidate`
calls. -/
structure JwtState where
  token : Option JVal
  expiryEpoch : Int
  invalidations : Nat

/-- Failures of the fetch/auth layer. -/
inductive Err where
  | pyError (e : PyErr)
  | httpStatusError (status : Nat)
  | fetchError (status : Nat) (text : String)
  | jsonParseError
  | noAccessToken
  | exhausted

/-- Computations over the authenticator state and the world, with
exception propagation (a raised exception keeps the state at the throw
point, matching Python's mutable state). -/
def M (α : Type) : Type := JwtState → World → Except Err α × JwtState × World

instance : Monad M where
  pure a := fun s w => (.ok a, s, w)
  bind m f := fun s w =>
    match m s w with
    | (.ok a, s', w') => f a s' w'
    | (.error e, s', w') => (.error e, s', w')

/-- Raise an exception. -/
def eThrow (e : Err) : M α := fun s w => (.error e, s, w)

/-- One `time.time()` sample. -/
def mNow : M Int := fun s w =>
  (.ok (w.timeline w.timeIdx), s, { w with timeIdx := w.timeIdx + 1 })

/-- The token-exchange `requests.post` (main.py:146), answered by the
`exchanges` oracle. -/
def mPost : M HttpResp := fun s w =>
  match w.exchanges with
  | [] => (.error .exhausted, s, w)
  | r :: rest => (.ok r, s, { w with exchanges := rest })

/-- A `session.get` (main.py:183/211/216), answered by the `pages` oracle and
recorded in the request log. -/
def mGet (params : List (String × JVal)) (authHeader : String) : M HttpResp := fun s w =>
  match w.pages with
  | [] => (.error .exhausted, s, { w with log := w.log ++ [⟨params, authHeader⟩] })
  | r :: rest =>
      (.ok r, s, { w with pages := rest, log := w.log ++ [⟨params, authHeader⟩] })

/-- Number of scripted pages remaining (used only to size the loop fuel). -/
def mPageCount : M Nat := fun s w => (.ok w.pages.length, s, w)

/-- Read the authenticator state. -/
def mGetAuth : M JwtState := fun s w => (.ok s, s, w)

/-- Update the authenticator state. -/
def mSetAuth (f : JwtState → JwtState) : M Unit := fun s w => (.ok (), f s, w)

/-- Truthiness of `self._token` (`None` and `""` are falsy). -/
def tokenTruthy : Option JVal → Bool
  | none => false
  | some v => truthy v

/-- `JwtAuthenticator._refresh_token` (main.py:133-155): POST to the auth
endpoint, require a truthy `access_token`, and cache expiry
`time.time() + max(expires_in - 30, 30)` with `expires_in` defaulting to
300. -/
def refreshToken : M Unit := do
  let resp ← mPost
  if 400 ≤ resp.status then eThrow (.httpStatusError resp.status)
  match resp.body with
  | none => eThrow (.pyError .valueError)
  | some payload =>
      match payload with
      | .jobj pf => do
          let token := objGetN pf "access_token"
          if !truthy token then eThrow .noAccessToken
          let expiresIn ←
            match pyInt (objGetD pf "expires_in" (.jint 300)) with
            | .ok n => pure n
            | .error e => eThrow (.pyError e)
          let t2 ← mNow
          mSetAuth fun s =>
            { s with expiryEpoch := t2 + max (expiresIn - 30) 30, token := some token }
      | _ => eThrow (.pyError .attributeError)

/-- `JwtAuthenticator.get_token` (main.py:123-127): refresh when the cached
token is falsy or the current time is at/past the cached expiry. -/
def getToken : M JVal := do
  let nowv ← mNow
  if !tokenTruthy (← mGetAuth).token || decide ((← mGetAuth).expiryEpoch ≤ nowv) then
    refreshToken
  pure ((← mGetAuth).token.getD .jnull)

/-- `JwtAuthenticator.invalidate` (main.py:129-131). -/
def invalidate : M Unit :=
  mSetAuth fun s => { token := none, expiryEpoch := 0, invalidations := s.invalidations + 1 }

/-- `do_request` inside `fetch_json` (main.py:180-184). -/
def doRequest (params : List (String × JVal)) : M HttpResp := do
  let tok ← getToken
  mGet params ("Bearer " ++ pyStr tok)

/-- `fetch_json` (main.py:174-195): one retry of the same request after a
401 (with `invalidate` and a fresh token), then `raise_for_status` and JSON
parsing. -/
def fetchJson (params : List (String × JVal)) : M JVal := do
  let response ← doRequest params
  let response ←
    if response.status == 401 then do
      invalidate
      doRequest params
    else pure response
  if 400 ≤ response.status then eThrow (.httpStatusError response.status)
  match response.body with
  | some j => pure j
  | none => eThrow .jsonParseError

/-- `response.headers.get(k)`. -/
def headerGet (hs : List (String × String)) (k : String) : Option String :=
  (hs.find? (fun p => p.1 == k)).map (·.2)

/-- The `while True` loop of `fetch_paginated_v1` (main.py:210-246): GET the
page, retry once after a 401 (invalidate + fresh token), fail on other error
statuses with a `RuntimeError` carrying status and stripped body text,
extend the accumulator (wrapping a non-list body), and continue while the
`Next-Page-Key` response header is truthy, rebuilding the continuation
parameters from the original parameter set plus the cursor.
`v1Request` models one page request with its inline 401 retry
(main.py:211-216); `fetchPagesV1` is the remainder of the loop body. -/
def v1Request (params : List (String × JVal)) (authHeader : String) :
    M (HttpResp × String) := do
  let response ← mGet params authHeader
  if response.status == 401 then
    invalidate
    let tok ← getToken
    let h := "Bearer " ++ pyStr tok
    let r2 ← mGet params h
    pure (r2, h)
  else
    pure (response, authHeader)

def fetchPagesV1 (fuel : Nat) (initialParams : List (String × JVal))
    (params : List (String × JVal)) (authHeader : String) (agg : List JVal) :
    M (List JVal) :=
  match fuel with
  | 0 => eThrow .exhausted
  | fuel + 1 => do
      let ra ← v1Request params authHeader
      let response := ra.1
      let authHeader := ra.2
      if 400 ≤ response.status then eThrow (.fetchError response.status response.text.trim)
      match response.body with
      | none => eThrow .jsonParseError
      | some pageData =>
          let agg := agg ++ (match pageData with | .jarr xs => xs | other => [other])
          match headerGet response.headers "Next-Page-Key" with
          | none => pure agg
          | some k =>
              if k == "" then pure agg
              else
                fetchPagesV1 fuel initialParams
                  (objSet initialParams "nextPageKey" (.jstr k)) authHeader agg

/-- `fetch_paginated_v1` (main.py:198-246): token acquired once up front,
then the page loop.  The fuel is one more than the number of scripted pages;
every iteration consumes at least one page, so the fuel is never exhausted
before the oracle is. -/
def fetchPaginatedV1 (initialParams : List (String × JVal)) : M (List JVal) := do
  let tok ← getToken
  let n ← mPageCount
  fetchPagesV1 (n + 1) initialParams initialParams ("Bearer " ++ pyStr tok) []

/-- `{k: v for k, v in response.items() if k not in ("entities", "nextPageKey")}`
(main.py:263). -/
def stripMetaFields (rf : List (String × JVal)) : List (String × JVal) :=
  rf.filter (fun p => !(p.1 == "entities") && !(p.1 == "nextPageKey"))

/-- The `while True` loop of `fetch_paginated_entities` (main.py:260-268):
fetch a page via `fetch_json`, capture the metadata from the first page only,
extend the accumulator with the page's `entities` (iterating whatever value
is there), and continue while `nextPageKey` is truthy using ONLY the cursor
parameter. -/
def fetchPagesV2 (fuel : Nat) (params : List (String × JVal))
    (meta : Option (List (String × JVal))) (agg : List JVal) :
    M (Option (List (String × JVal)) × List JVal) :=
  match fuel with
  | 0 => eThrow .exhausted
  | fuel + 1 => do
      let response ← fetchJson params
      match response with
      | .jobj rf =>
          let meta :=
            match meta with
            | some m => some m
            | none => some (stripMetaFields rf)
          let ents ←
            match pyIter (objGetD rf "entities" (.jarr [])) with
            | .ok xs => pure xs
            | .error e => eThrow (.pyError e)
          let agg := agg ++ ents
          let nextKey := objGetN rf "nextPageKey"
          if !truthy nextKey then pure (meta, agg)
          else fetchPagesV2 fuel [("nextPageKey", nextKey)] meta agg
      | _ => eThrow (.pyError .attributeError)

/-- `fetch_paginated_entities` (main.py:249-274): drain the pages, then
return the first page's metadata with the aggregated `entities` list set. -/
def fetchPaginatedEntities (initialParams : List (String × JVal)) : M JVal := do
  let n ← mPageCount
  let ma ← fetchPagesV2 (n + 1) initialParams none []
  let meta := ma.1.getD []
  pure (.jobj (objSet meta "entities" (.jarr ma.2)))


/-! ## Token lifecycle lemmas -/

theorem getToken_cached (s : JwtState) (w : World)
    (ht : tokenTruthy s.token = true)
    (hlt : w.timeline w.timeIdx < s.expiryEpoch) :
    getToken s w = (.ok (s.token.getD .jnull), s, { w with timeIdx := w.timeIdx + 1 }) := by
  have hd : decide (s.expiryEpoch ≤ w.timeline w.timeIdx) = false :=
    decide_eq_false (not_le.mpr hlt)
  simp [getToken, mNow, mGetAuth, Bind.bind, Pure.pure, ht, hd]

theorem refreshToken_success (s : JwtState) (w : World)
    {ex : HttpResp} {exr : List HttpResp} {pf : List (String × JVal)}
    {tok : JVal} {expIn : Int}
    (hex : w.exchanges = ex :: exr)
    (hst : ex.status < 400)
    (hbody : ex.body = some (.jobj pf))
    (htok : objGetN pf "access_token" = tok)
    (htr : truthy tok = true)
    (hexp : pyInt (objGetD pf "expires_in" (.jint 300)) = .ok expIn) :
    refreshToken s w =
      (.ok (),
       { s with token := some tok,
                expiryEpoch := w.timeline w.timeIdx + max (expIn - 30) 30 },
       { w with timeIdx := w.timeIdx + 1, exchanges := exr }) := by
  have hge : ¬(400 ≤ ex.status) := not_le.mpr hst
  subst htok
  simp [refreshToken, mPost, mNow, mSetAuth, Bind.bind, Pure.pure, hex, hge, hbody, htr, hexp]

theorem getToken_refresh (s : JwtState) (w : World)
    {ex : HttpResp} {exr : List HttpResp} {pf : List (String × JVal)}
    {tok : JVal} {expIn : Int}
    (hcond : (!tokenTruthy s.token
        || decide (s.expiryEpoch ≤ w.timeline w.timeIdx)) = true)
    (hex : w.exchanges = ex :: exr)
    (hst : ex.status < 400)
    (hbody : ex.body = some (.jobj pf))
    (htok : objGetN pf "access_token" = tok)
    (htr : truthy tok = true)
    (hexp : pyInt (objGetD pf "expires_in" (.jint 300)) = .ok expIn) :
    getToken s w =
      (.ok tok,
       { s with token := some tok,
                expiryEpoch := w.timeline (w.timeIdx + 1) + max (expIn - 30) 30 },
       { w with timeIdx := w.timeIdx + 2, exchanges := exr }) := by
  subst htok
  have hrt := @refreshToken_success s { w with timeIdx := w.timeIdx + 1 }
    ex exr pf (objGetN pf "access_token") expIn hex hst hbody rfl htr hexp
  simp only [getToken, mNow, mGetAuth, Bind.bind, Pure.pure, hcond, if_true]
  simp [hrt, Bind.bind]

/-! ## Claim C3 -/

/-- C3: after a successful token exchange with server lifetime `expires_in`,
the cached expiry equals the exchange-completion time sample plus
`max(expires_in - 30, 30)`; a `get_token` call strictly before that instant
returns the cached token, changing neither the authenticator state nor the
exchange oracle (no new exchange); a call at/after it performs exactly one
exchange; and after `invalidate()` the next call exchanges regardless of the
current time. -/
theorem token_refresh_expiry_and_caching :
    (∀ (s : JwtState) (w : World),
        tokenTruthy s.token = true →
        w.timeline w.timeIdx < s.expiryEpoch →
        getToken s w = (.ok (s.token.getD .jnull), s, { w with timeIdx := w.timeIdx + 1 }))
  ∧ (∀ (s : JwtState) (w : World) (ex : HttpResp) (exr : List HttpResp)
        (pf : List (String × JVal)) (tok : JVal) (expIn : Int),
        s.expiryEpoch ≤ w.timeline w.timeIdx →
        w.exchanges = ex :: exr →
        ex.status < 400 →
        ex.body = some (.jobj pf) →
        objGetN pf "access_token" = tok →
        truthy tok = true →
        pyInt (objGetD pf "expires_in" (.jint 300)) = .ok expIn →
        getToken s w =
          (.ok tok,
           { s with token := some tok,
                    expiryEpoch := w.timeline (w.timeIdx + 1) + max (expIn - 30) 30 },
           { w with timeIdx := w.timeIdx + 2, exchanges := exr }))
  ∧ (∀ (s : JwtState) (w : World) (ex : HttpResp) (exr : List HttpResp)
        (pf : List (String × JVal)) (tok : JVal) (expIn : Int),
        w.exchanges = ex :: exr →
        ex.status < 400 →
        ex.body = some (.jobj pf) →
        objGetN pf "access_token" = tok →
        truthy tok = true →
        pyInt (objGetD pf "expires_in" (.jint 300)) = .ok expIn →
        (invalidate >>= fun _ => getToken) s w =
          (.ok tok,
           { token := some tok,
             expiryEpoch := w.timeline (w.timeIdx + 1) + max (expIn - 30) 30,
             invalidations := s.invalidations + 1 },
           { w with timeIdx := w.timeIdx + 2, exchanges := exr })) := by
  refine ⟨getToken_cached, ?_, ?_⟩
  · intro s w ex exr pf tok expIn hle hex hst hbody htok htr hexp
    exact getToken_refresh s w
      (by rw [decide_eq_true hle, Bool.or_true]) hex hst hbody htok htr hexp
  · intro s w ex exr pf tok expIn hex hst hbody htok htr hexp
    have hg := getToken_refresh ⟨none, 0, s.invalidations + 1⟩ w
      (by rfl) hex hst hbody htok htr hexp
    simp only [Bind.bind, invalidate, mSetAuth]
    exact hg

/-- Witness for C3 at a concrete authenticator state, timeline and
exchange script. -/
theorem token_refresh_expiry_and_caching_witness :
    getToken ⟨some (.jstr "cached"), 1000, 0⟩
        ⟨fun i => 100 * Int.ofNat i, 0, [⟨200, some (.jobj [("access_token", .jstr "t2"),
          ("expires_in", .jint 60)]), "", []⟩], [], []⟩
      = (.ok (.jstr "cached"), ⟨some (.jstr "cached"), 1000, 0⟩,
         ⟨fun i => 100 * Int.ofNat i, 1, [⟨200, some (.jobj [("access_token", .jstr "t2"),
          ("expires_in", .jint 60)]), "", []⟩], [], []⟩)
  ∧ getToken ⟨some (.jstr "cached"), 1000, 0⟩
        ⟨fun i => 2000 + 100 * Int.ofNat i, 0, [⟨200, some (.jobj [("access_token", .jstr "t2"),
          ("expires_in", .jint 60)]), "", []⟩], [], []⟩
      = (.ok (.jstr "t2"), ⟨some (.jstr "t2"), 2100 + 30, 0⟩,
         ⟨fun i => 2000 + 100 * Int.ofNat i, 2, [], [], []⟩)
  ∧ (invalidate >>= fun _ => getToken) ⟨some (.jstr "cached"), 1000, 5⟩
        ⟨fun i => 100 * Int.ofNat i, 0, [⟨200, some (.jobj [("access_token", .jstr "t2"),
          ("expires_in", .jint 60)]), "", []⟩], [], []⟩
      = (.ok (.jstr "t2"), ⟨some (.jstr "t2"), 100 + 30, 6⟩,
         ⟨fun i => 100 * Int.ofNat i, 2, [], [], []⟩) := by
  refine ⟨?_, ?_, ?_⟩
  · exact token_refresh_expiry_and_caching.1 _ _ rfl (by decide)
  · have h := token_refresh_expiry_and_caching.2.1
      ⟨some (.jstr "cached"), 1000, 0⟩
      ⟨fun i => 2000 + 100 * Int.ofNat i, 0, [⟨200, some (.jobj [("access_token", .jstr "t2"),
        ("expires_in", .jint 60)]), "", []⟩], [], []⟩
      ⟨200, some (.jobj [("access_token", .jstr "t2"), ("expires_in", .jint 60)]), "", []⟩
      [] [("access_token", .jstr "t2"), ("expires_in", .jint 60)]
      (.jstr "t2") 60 (by decide) rfl (by decide) rfl rfl rfl rfl
    exact h
  · have h := token_refresh_expiry_and_caching.2.2
      ⟨some (.jstr "cached"), 1000, 5⟩
      ⟨fun i => 100 * Int.ofNat i, 0, [⟨200, some (.jobj [("access_token", .jstr "t2"),
        ("expires_in", .jint 60)]), "", []⟩], [], []⟩
      ⟨200, some (.jobj [("access_token", .jstr "t2"), ("expires_in", .jint 60)]), "", []⟩
      [] [("access_token", .jstr "t2"), ("expires_in", .jint 60)]
      (.jstr "t2") 60 rfl (by decide) rfl rfl rfl rfl
    exact h

/-! ## Request lemmas for the 401 retry -/

theorem doRequest_cached (params : List (String × JVal)) (s : JwtState) (w : World)
    {r : HttpResp} {rest : List HttpResp}
    (ht : tokenTruthy s.token = true)
    (hlt : w.timeline w.timeIdx < s.expiryEpoch)
    (hp : w.pages = r :: rest) :
    doRequest params s w =
      (.ok r, s,
       { w with timeIdx := w.timeIdx + 1, pages := rest,
                log := w.log ++ [⟨params, "Bearer " ++ pyStr (s.token.getD .jnull)⟩] }) := by
  simp only [doRequest, Bind.bind]
  rw [getToken_cached s w ht hlt]
  simp [mGet, hp]

theorem doRequest_refresh (params : List (String × JVal)) (s : JwtState) (w : World)
    {r : HttpResp} {rest : List HttpResp}
    {ex : HttpResp} {exr : List HttpResp} {pf : List (String × JVal)}
    {tok : JVal} {expIn : Int}
    (hcond : (!tokenTruthy s.token
        || decide (s.expiryEpoch ≤ w.timeline w.timeIdx)) = true)
    (hex : w.exchanges = ex :: exr)
    (hst : ex.status < 400)
    (hbody : ex.body = some (.jobj pf))
    (htok : objGetN pf "access_token" = tok)
    (htr : truthy tok = true)
    (hexp : pyInt (objGetD pf "expires_in" (.jint 300)) = .ok expIn)
    (hp : w.pages = r :: rest) :
    doRequest params s w =
      (.ok r,
       { s with token := some tok,
                expiryEpoch := w.timeline (w.timeIdx + 1) + max (expIn - 30) 30 },
       { w with timeIdx := w.timeIdx + 2, exchanges := exr, pages := rest,
                log := w.log ++ [⟨params, "Bearer " ++ pyStr tok⟩] }) := by
  simp only [doRequest, Bind.bind]
  rw [getToken_refresh s w hcond hex hst hbody htok htr hexp]
  simp [mGet, hp]

/-- Chain a computation whose first step's run is known. -/
theorem bind_run {α β : Type} (m : M α) (k : α → M β) (s : JwtState) (w : World)
    {a : α} {s' : JwtState} {w' : World} (h : m s w = (.ok a, s', w')) :
    (m >>= k) s w = k a s' w' := by
  show (match m s w with
        | (.ok a, s', w') => k a s' w'
        | (.error e, s', w') => (.error e, s', w')) = _
  rw [h]

theorem invalidate_run (s : JwtState) (w : World) :
    invalidate s w = (.ok (), ⟨none, 0, s.invalidations + 1⟩, w) := rfl

/-- `fetch_json` after a 401 first response: the credential is invalidated
once, the same request is retried once with a freshly exchanged token, and
the second response is then subjected to `raise_for_status` and JSON parsing
with no further retry. -/
theorem fetchJson_after_401 (params : List (String × JVal)) (s : JwtState) (w : World)
    {r1 r2 : HttpResp} {rest : List HttpResp}
    {ex : HttpResp} {exr : List HttpResp} {pf : List (String × JVal)}
    {tok : JVal} {expIn : Int}
    (hpages : w.pages = r1 :: r2 :: rest)
    (h401 : r1.status = 401)
    (ht : tokenTruthy s.token = true)
    (hlt : w.timeline w.timeIdx < s.expiryEpoch)
    (hex : w.exchanges = ex :: exr)
    (hst : ex.status < 400)
    (hbody : ex.body = some (.jobj pf))
    (htok : objGetN pf "access_token" = tok)
    (htr : truthy tok = true)
    (hexp : pyInt (objGetD pf "expires_in" (.jint 300)) = .ok expIn) :
    fetchJson params s w =
      ((if 400 ≤ r2.status then .error (.httpStatusError r2.status)
        else match r2.body with
             | some j => .ok j
             | none => .error .jsonParseError),
       { token := some tok,
         expiryEpoch := w.timeline (w.timeIdx + 2) + max (expIn - 30) 30,
         invalidations := s.invalidations + 1 },
       { w with timeIdx := w.timeIdx + 3, exchanges := exr, pages := rest,
                log := w.log ++ [⟨params, "Bearer " ++ pyStr (s.token.getD .jnull)⟩,
                                 ⟨params, "Bearer " ++ pyStr tok⟩] }) := by
  unfold fetchJson
  rw [bind_run _ _ s w (doRequest_cached params s w ht hlt hpages)]
  rw [h401]
  rw [if_pos (show ((401 : Nat) == 401) = true from rfl)]
  rw [bind_run _ _ _ _ (invalidate_run s _)]
  rw [bind_run _ _ _ _ (@doRequest_refresh params ⟨none, 0, s.invalidations + 1⟩
    { w with timeIdx := w.timeIdx + 1, pages := r2 :: rest,
             log := w.log ++ [⟨params, "Bearer " ++ pyStr (s.token.getD .jnull)⟩] }
    r2 rest ex exr pf tok expIn
    rfl hex hst hbody htok htr hexp rfl)]
  by_cases hs : 400 ≤ r2.status
  · simp [hs, eThrow, Bind.bind, List.append_assoc, Nat.add_assoc]
  · cases hb : r2.body <;>
      simp [hs, hb, eThrow, Pure.pure, Bind.bind, List.append_assoc, Nat.add_assoc]

theorem mGet_run (params : List (String × JVal)) (h : String) (s : JwtState) (w : World)
    {r : HttpResp} {rest : List HttpResp} (hp : w.pages = r :: rest) :
    mGet params h s w =
      (.ok r, s, { w with pages := rest, log := w.log ++ [⟨params, h⟩] }) := by
  simp [mGet, hp]

/-- One v1 page request with a 401 first response: invalidate once, fetch a
fresh token, and retry the same request with the same parameters once. -/
theorem v1Request_after_401 (params : List (String × JVal))
    (authHeader : String) (s : JwtState) (w : World)
    {r1 r2 : HttpResp} {rest : List HttpResp}
    {ex : HttpResp} {exr : List HttpResp} {pf : List (String × JVal)}
    {tok : JVal} {expIn : Int}
    (hpages : w.pages = r1 :: r2 :: rest)
    (h401 : r1.status = 401)
    (hex : w.exchanges = ex :: exr)
    (hst : ex.status < 400)
    (hbody : ex.body = some (.jobj pf))
    (htok : objGetN pf "access_token" = tok)
    (htr : truthy tok = true)
    (hexp : pyInt (objGetD pf "expires_in" (.jint 300)) = .ok expIn) :
    v1Request params authHeader s w =
      (.ok (r2, "Bearer " ++ pyStr tok),
       ⟨some tok, w.timeline (w.timeIdx + 1) + max (expIn - 30) 30, s.invalidations + 1⟩,
       { w with timeIdx := w.timeIdx + 2, exchanges := exr, pages := rest,
                log := w.log ++ [⟨params, authHeader⟩,
                                 ⟨params, "Bearer " ++ pyStr tok⟩] }) := by
  unfold v1Request
  rw [bind_run _ _ _ _ (mGet_run params authHeader s w hpages)]
  rw [h401]
  rw [if_pos (show ((401 : Nat) == 401) = true from rfl)]
  rw [bind_run _ _ _ _ (invalidate_run s _)]
  rw [bind_run _ _ _ _ (getToken_refresh ⟨none, 0, s.invalidations + 1⟩
    { w with pages := r2 :: rest, log := w.log ++ [⟨params, authHeader⟩] }
    rfl hex hst hbody htok htr hexp)]
  rw [bind_run _ _ _ _ (@mGet_run params ("Bearer " ++ pyStr tok) _ _ r2 rest rfl)]
  simp [Pure.pure, List.append_assoc, Nat.add_assoc]

/-- The v1 page loop after a 401 first response: invalidate once, fetch a
fresh token, retry the same request with the same parameters once; a second
401 is the fatal `RuntimeError` of main.py:222 with no further retry, while a
success with no continuation header returns the aggregated items. -/
theorem fetchPagesV1_after_401 (fuel : Nat) (initialParams params : List (String × JVal))
    (authHeader : String) (agg : List JVal) (s : JwtState) (w : World)
    {r1 r2 : HttpResp} {rest : List HttpResp}
    {ex : HttpResp} {exr : List HttpResp} {pf : List (String × JVal)}
    {tok : JVal} {expIn : Int}
    (hpages : w.pages = r1 :: r2 :: rest)
    (h401 : r1.status = 401)
    (hex : w.exchanges = ex :: exr)
    (hst : ex.status < 400)
    (hbody : ex.body = some (.jobj pf))
    (htok : objGetN pf "access_token" = tok)
    (htr : truthy tok = true)
    (hexp : pyInt (objGetD pf "expires_in" (.jint 300)) = .ok expIn) :
    (r2.status = 401 →
      fetchPagesV1 (fuel + 1) initialParams params authHeader agg s w =
        (.error (.fetchError 401 r2.text.trim),
         ⟨some tok, w.timeline (w.timeIdx + 1) + max (expIn - 30) 30, s.invalidations + 1⟩,
         { w with timeIdx := w.timeIdx + 2, exchanges := exr, pages := rest,
                  log := w.log ++ [⟨params, authHeader⟩,
                                   ⟨params, "Bearer " ++ pyStr tok⟩] }))
    ∧ (∀ xs, r2.status = 200 → r2.body = some (.jarr xs) →
        headerGet r2.headers "Next-Page-Key" = none →
        fetchPagesV1 (fuel + 1) initialParams params authHeader agg s w =
          (.ok (agg ++ xs),
           ⟨some tok, w.timeline (w.timeIdx + 1) + max (expIn - 30) 30, s.invalidations + 1⟩,
           { w with timeIdx := w.timeIdx + 2, exchanges := exr, pages := rest,
                    log := w.log ++ [⟨params, authHeader⟩,
                                     ⟨params, "Bearer " ++ pyStr tok⟩] })) := by
  have hreq := v1Request_after_401 params authHeader s w
    hpages h401 hex hst hbody htok htr hexp
  refine ⟨?_, ?_⟩
  · intro h401b
    show (fetchPagesV1 (fuel + 1) initialParams params authHeader agg) s w = _
    simp only [fetchPagesV1]
    rw [bind_run _ _ _ _ hreq]
    simp [h401b, eThrow, Bind.bind]
  · intro xs h200 hb hcur
    show (fetchPagesV1 (fuel + 1) initialParams params authHeader agg) s w = _
    simp only [fetchPagesV1]
    rw [bind_run _ _ _ _ hreq]
    simp [h200, hb, hcur, eThrow, Pure.pure, Bind.bind]

/-! ## Claim C2 -/

/-- C2: in both pagination protocols, a 401 page response invalidates the
credential exactly once (the invalidation counter increments by one), a fresh
token is obtained by exactly one exchange (exactly one scripted exchange is
consumed), and the same page request is retried with the same parameters
exactly once (the request log grows by exactly the two records, both carrying
`params`, the second carrying the freshly exchanged token); a second
consecutive 401 is fatal — `requests.HTTPError` from `raise_for_status` in
`fetch_json`, the wrapping `RuntimeError` in `fetch_paginated_v1` — and no
further request is issued (the remaining pages stay unconsumed). -/
theorem auth_401_invalidate_refresh_retry_once :
    (∀ (params : List (String × JVal)) (s : JwtState) (w : World)
        (r1 r2 : HttpResp) (rest : List HttpResp) (ex : HttpResp)
        (exr : List HttpResp) (pf : List (String × JVal)) (tok : JVal) (expIn : Int),
        w.pages = r1 :: r2 :: rest → r1.status = 401 →
        tokenTruthy s.token = true → w.timeline w.timeIdx < s.expiryEpoch →
        w.exchanges = ex :: exr → ex.status < 400 → ex.body = some (.jobj pf) →
        objGetN pf "access_token" = tok → truthy tok = true →
        pyInt (objGetD pf "expires_in" (.jint 300)) = .ok expIn →
        (∀ j, r2.status = 200 → r2.body = some j →
          fetchJson params s w =
            (.ok j,
             ⟨some tok, w.timeline (w.timeIdx + 2) + max (expIn - 30) 30,
              s.invalidations + 1⟩,
             { w with timeIdx := w.timeIdx + 3, exchanges := exr, pages := rest,
                      log := w.log ++
                        [⟨params, "Bearer " ++ pyStr (s.token.getD .jnull)⟩,
                         ⟨params, "Bearer " ++ pyStr tok⟩] }))
        ∧ (r2.status = 401 →
          fetchJson params s w =
            (.error (.httpStatusError 401),
             ⟨some tok, w.timeline (w.timeIdx + 2) + max (expIn - 30) 30,
              s.invalidations + 1⟩,
             { w with timeIdx := w.timeIdx + 3, exchanges := exr, pages := rest,
                      log := w.log ++
                        [⟨params, "Bearer " ++ pyStr (s.token.getD .jnull)⟩,
                         ⟨params, "Bearer " ++ pyStr tok⟩] })))
  ∧ (∀ (fuel : Nat) (initialParams params : List (String × JVal)) (authHeader : String)
        (agg : List JVal) (s : JwtState) (w : World)
        (r1 r2 : HttpResp) (rest : List HttpResp) (ex : HttpResp)
        (exr : List HttpResp) (pf : List (String × JVal)) (tok : JVal) (expIn : Int),
        w.pages = r1 :: r2 :: rest → r1.status = 401 →
        w.exchanges = ex :: exr → ex.status < 400 → ex.body = some (.jobj pf) →
        objGetN pf "access_token" = tok → truthy tok = true →
        pyInt (objGetD pf "expires_in" (.jint 300)) = .ok expIn →
        (∀ xs, r2.status = 200 → r2.body = some (.jarr xs) →
          headerGet r2.headers "Next-Page-Key" = none →
          fetchPagesV1 (fuel + 1) initialParams params authHeader agg s w =
            (.ok (agg ++ xs),
             ⟨some tok, w.timeline (w.timeIdx + 1) + max (expIn - 30) 30,
              s.invalidations + 1⟩,
             { w with timeIdx := w.timeIdx + 2, exchanges := exr, pages := rest,
                      log := w.log ++ [⟨params, authHeader⟩,
                                       ⟨params, "Bearer " ++ pyStr tok⟩] }))
        ∧ (r2.status = 401 →
          fetchPagesV1 (fuel + 1) initialParams params authHeader agg s w =
            (.error (.fetchError 401 r2.text.trim),
             ⟨some tok, w.timeline (w.timeIdx + 1) + max (expIn - 30) 30,
              s.invalidations + 1⟩,
             { w with timeIdx := w.timeIdx + 2, exchanges := exr, pages := rest,
                      log := w.log ++ [⟨params, authHeader⟩,
                                       ⟨params, "Bearer " ++ pyStr tok⟩] }))) := by
  constructor
  · intro params s w r1 r2 rest ex exr pf tok expIn
    intro hpages h401 ht hlt hex hst hbody htok htr hexp
    have hfj := fetchJson_after_401 params s w hpages h401 ht hlt hex hst hbody htok htr hexp
    constructor
    · intro j h200 hbj
      rw [hfj]
      have : ¬(400 ≤ r2.status) := by rw [h200]; decide
      simp [this, hbj]
    · intro h401b
      rw [hfj]
      have : (400 ≤ r2.status) := by rw [h401b]; decide
      simp [this, h401b]
  · intro fuel initialParams params authHeader agg s w r1 r2 rest ex exr pf tok expIn
    intro hpages h401 hex hst hbody htok htr hexp
    have h := fetchPagesV1_after_401 fuel initialParams params authHeader agg s w
      hpages h401 hex hst hbody htok htr hexp
    exact ⟨fun xs h200 hb hcur => h.2 xs h200 hb hcur, h.1⟩

/-- Witness for C2 at a concrete double-401 script: the fetch fails with the
fatal error after exactly the two logged requests. -/
theorem auth_401_invalidate_refresh_retry_once_witness :
    fetchJson [("a", .jstr "b")] ⟨some (.jstr "t1"), 1000, 0⟩
        ⟨fun _ => 0, 0,
         [⟨200, some (.jobj [("access_token", .jstr "t2"), ("expires_in", .jint 60)]), "", []⟩],
         [⟨401, some (.jobj []), "unauth", []⟩, ⟨401, some (.jobj []), "unauth", []⟩],
         []⟩ =
      (.error (.httpStatusError 401),
       ⟨some (.jstr "t2"), 0 + max (60 - 30) 30, 0 + 1⟩,
       { timeline := fun _ => 0, timeIdx := 0 + 3, exchanges := [], pages := [],
         log := [] ++ [⟨[("a", .jstr "b")], "Bearer " ++ pyStr ((some (JVal.jstr "t1")).getD .jnull)⟩,
                       ⟨[("a", .jstr "b")], "Bearer " ++ pyStr (.jstr "t2")⟩] }) :=
  (auth_401_invalidate_refresh_retry_once.1 [("a", .jstr "b")]
      ⟨some (.jstr "t1"), 1000, 0⟩
      ⟨fun _ => 0, 0,
       [⟨200, some (.jobj [("access_token", .jstr "t2"), ("expires_in", .jint 60)]), "", []⟩],
       [⟨401, some (.jobj []), "unauth", []⟩, ⟨401, some (.jobj []), "unauth", []⟩],
       []⟩
      ⟨401, some (.jobj []), "unauth", []⟩ ⟨401, some (.jobj []), "unauth", []⟩ []
      ⟨200, some (.jobj [("access_token", .jstr "t2"), ("expires_in", .jint 60)]), "", []⟩
      [] [("access_token", .jstr "t2"), ("expires_in", .jint 60)] (.jstr "t2") 60
      rfl rfl rfl (by decide) rfl (by decide) rfl rfl rfl rfl).2 rfl

/-! ## Clean-run lemmas (no authentication failures) -/

theorem bind_run_error {α β : Type} (m : M α) (k : α → M β) (s : JwtState) (w : World)
    {e : Err} {s' : JwtState} {w' : World} (h : m s w = (.error e, s', w')) :
    (m >>= k) s w = (.error e, s', w') := by
  show (match m s w with
        | (.ok a, s', w') => k a s' w'
        | (.error e, s', w') => (.error e, s', w')) = _
  rw [h]

theorem v1Request_clean (params : List (String × JVal)) (authHeader : String)
    (s : JwtState) (w : World) {r : HttpResp} {rest : List HttpResp}
    (hp : w.pages = r :: rest) (hst : r.status ≠ 401) :
    v1Request params authHeader s w =
      (.ok (r, authHeader), s,
       { w with pages := rest, log := w.log ++ [⟨params, authHeader⟩] }) := by
  unfold v1Request
  rw [bind_run _ _ _ _ (mGet_run params authHeader s w hp)]
  have hb : (r.status == 401) = false := by simp [hst]
  simp [hb, Pure.pure]

theorem v1Request_empty (params : List (String × JVal)) (authHeader : String)
    (s : JwtState) (w : World) (hp : w.pages = []) :
    v1Request params authHeader s w =
      (.error .exhausted, s, { w with log := w.log ++ [⟨params, authHeader⟩] }) := by
  unfold v1Request
  apply bind_run_error
  simp [mGet, hp]

theorem doRequest_empty (params : List (String × JVal)) (s : JwtState) (w : World)
    (ht : tokenTruthy s.token = true)
    (hlt : w.timeline w.timeIdx < s.expiryEpoch)
    (hp : w.pages = []) :
    doRequest params s w =
      (.error .exhausted, s,
       { w with timeIdx := w.timeIdx + 1,
                log := w.log ++ [⟨params, "Bearer " ++ pyStr (s.token.getD .jnull)⟩] }) := by
  simp only [doRequest, Bind.bind]
  rw [getToken_cached s w ht hlt]
  simp [mGet, hp]

theorem fetchJson_clean (params : List (String × JVal)) (s : JwtState) (w : World)
    {r : HttpResp} {rest : List HttpResp} {j : JVal}
    (ht : tokenTruthy s.token = true)
    (hlt : w.timeline w.timeIdx < s.expiryEpoch)
    (hp : w.pages = r :: rest)
    (hst : r.status = 200)
    (hbody : r.body = some j) :
    fetchJson params s w =
      (.ok j, s,
       { w with timeIdx := w.timeIdx + 1, pages := rest,
                log := w.log ++ [⟨params, "Bearer " ++ pyStr (s.token.getD .jnull)⟩] }) := by
  unfold fetchJson
  rw [bind_run _ _ _ _ (doRequest_cached params s w ht hlt hp)]
  have hb : (r.status == 401) = false := by rw [hst]; rfl
  have hge : ¬(400 ≤ r.status) := by rw [hst]; decide
  simp [hb, hge, hbody, Pure.pure, Bind.bind]

theorem fetchJson_empty (params : List (String × JVal)) (s : JwtState) (w : World)
    (ht : tokenTruthy s.token = true)
    (hlt : w.timeline w.timeIdx < s.expiryEpoch)
    (hp : w.pages = []) :
    fetchJson params s w =
      (.error .exhausted, s,
       { w with timeIdx := w.timeIdx + 1,
                log := w.log ++ [⟨params, "Bearer " ++ pyStr (s.token.getD .jnull)⟩] }) := by
  unfold fetchJson
  apply bind_run_error
  exact doRequest_empty params s w ht hlt hp

/-- A continuation parameter set of protocol A: the original parameter set
plus a truthy cursor token. -/
def v1ContinuationForm (initialParams : List (String × JVal)) (r : ReqRecord) : Prop :=
  ∃ c, ¬c = "" ∧ r.params = objSet initialParams "nextPageKey" (.jstr c)

/-- A continuation parameter set of protocol B: only the cursor parameter. -/
def v2ContinuationForm (r : ReqRecord) : Prop :=
  ∃ k, truthy k = true ∧ r.params = [("nextPageKey", k)]

/-- Protocol A log shape on a 401-free run: starting the loop with parameter
set `params`, the requests actually issued are `params` first and then, for
each continuation, exactly the original parameter set plus the cursor token —
never parameters accumulated from intermediate pages. -/
theorem fetchPagesV1_log_shape (fuel : Nat) :
    ∀ (initialParams params : List (String × JVal)) (authHeader : String)
      (agg : List JVal) (s : JwtState) (w : World)
      (res : Except Err (List JVal)) (s' : JwtState) (w' : World),
      (∀ p ∈ w.pages, p.status = 200) →
      fetchPagesV1 fuel initialParams params authHeader agg s w = (res, s', w') →
      ∃ reqs, w'.log = w.log ++ reqs ∧
        (reqs = [] ∨ ∃ tail, reqs = ⟨params, authHeader⟩ :: tail ∧
          ∀ r ∈ tail, v1ContinuationForm initialParams r) := by
  induction fuel with
  | zero =>
      intro initialParams params authHeader agg s w res s' w' hcl hrun
      simp only [fetchPagesV1, eThrow, Prod.mk.injEq] at hrun
      obtain ⟨-, -, rfl⟩ := hrun
      exact ⟨[], by simp, Or.inl rfl⟩
  | succ fuel ih =>
      intro initialParams params authHeader agg s w res s' w' hcl hrun
      cases hp : w.pages with
      | nil =>
          simp only [fetchPagesV1] at hrun
          rw [bind_run_error _ _ _ _ (v1Request_empty params authHeader s w hp)] at hrun
          simp only [Prod.mk.injEq] at hrun
          obtain ⟨-, -, rfl⟩ := hrun
          exact ⟨[⟨params, authHeader⟩], rfl, Or.inr ⟨[], rfl, by simp⟩⟩
      | cons r rest =>
          have h200 : r.status = 200 := hcl r (by rw [hp]; exact List.mem_cons_self r rest)
          have hne : r.status ≠ 401 := by rw [h200]; decide
          simp only [fetchPagesV1] at hrun
          rw [bind_run _ _ _ _ (v1Request_clean params authHeader s w hp hne)] at hrun
          have hgt : ¬(400 ≤ r.status) := by rw [h200]; decide
          rw [if_neg hgt] at hrun
          cases hbody : r.body with
          | none =>
              rw [hbody] at hrun
              simp only [eThrow, Prod.mk.injEq] at hrun
              obtain ⟨-, -, rfl⟩ := hrun
              exact ⟨[⟨params, authHeader⟩], rfl, Or.inr ⟨[], rfl, by simp⟩⟩
          | some pageData =>
              rw [hbody] at hrun
              cases hcur : headerGet r.headers "Next-Page-Key" with
              | none =>
                  rw [hcur] at hrun
                  simp only [Pure.pure, Prod.mk.injEq] at hrun
                  obtain ⟨-, -, rfl⟩ := hrun
                  exact ⟨[⟨params, authHeader⟩], rfl, Or.inr ⟨[], rfl, by simp⟩⟩
              | some k =>
                  rw [hcur] at hrun
                  simp only [Bind.bind, Pure.pure] at hrun
                  by_cases hk : (k == "") = true
                  · rw [if_pos hk] at hrun
                    simp only [Pure.pure, Prod.mk.injEq] at hrun
                    obtain ⟨-, -, rfl⟩ := hrun
                    exact ⟨[⟨params, authHeader⟩], rfl, Or.inr ⟨[], rfl, by simp⟩⟩
                  · rw [if_neg hk] at hrun
                    have hcl' : ∀ p ∈ rest, p.status = 200 := fun p hmem =>
                      hcl p (by rw [hp]; exact List.mem_cons_of_mem _ hmem)
                    obtain ⟨reqs', hlog', hshape'⟩ := ih initialParams
                      (objSet initialParams "nextPageKey" (.jstr k)) authHeader
                      _ s _ res s' w' hcl' hrun
                    refine ⟨⟨params, authHeader⟩ :: reqs', ?_, ?_⟩
                    · simpa [List.append_assoc] using hlog'
                    · refine Or.inr ⟨reqs', rfl, ?_⟩
                      intro rr hrr
                      cases hshape' with
                      | inl hnil => rw [hnil] at hrr; simp at hrr
                      | inr hcons =>
                          obtain ⟨tail', heq, htail'⟩ := hcons
                          rw [heq] at hrr
                          cases hrr with
                          | head =>
                              exact ⟨k, by simpa using hk, rfl⟩
                          | tail _ hmem => exact htail' _ hmem

theorem fetchJson_parsefail (params : List (String × JVal)) (s : JwtState) (w : World)
    {r : HttpResp} {rest : List HttpResp}
    (ht : tokenTruthy s.token = true)
    (hlt : w.timeline w.timeIdx < s.expiryEpoch)
    (hp : w.pages = r :: rest)
    (hst : r.status = 200)
    (hbody : r.body = none) :
    fetchJson params s w =
      (.error .jsonParseError, s,
       { w with timeIdx := w.timeIdx + 1, pages := rest,
                log := w.log ++ [⟨params, "Bearer " ++ pyStr (s.token.getD .jnull)⟩] }) := by
  unfold fetchJson
  rw [bind_run _ _ _ _ (doRequest_cached params s w ht hlt hp)]
  have hb : (r.status == 401) = false := by rw [hst]; rfl
  have hge : ¬(400 ≤ r.status) := by rw [hst]; decide
  simp [hb, hge, hbody, eThrow, Pure.pure, Bind.bind]

/-- Protocol B log shape on a 401-free run: the requests issued are the
current parameter set first, then only cursor-parameter requests — the
original filter parameters are dropped on every continuation. -/
theorem fetchPagesV2_log_shape (fuel : Nat) :
    ∀ (params : List (String × JVal)) (meta : Option (List (String × JVal)))
      (agg : List JVal) (s : JwtState) (w : World)
      (res : Except Err (Option (List (String × JVal)) × List JVal))
      (s' : JwtState) (w' : World),
      tokenTruthy s.token = true →
      (∀ i, w.timeline i < s.expiryEpoch) →
      (∀ p ∈ w.pages, p.status = 200) →
      fetchPagesV2 fuel params meta agg s w = (res, s', w') →
      ∃ reqs, w'.log = w.log ++ reqs ∧
        (reqs = [] ∨
          ∃ tail, reqs = ⟨params, "Bearer " ++ pyStr (s.token.getD .jnull)⟩ :: tail ∧
            ∀ r ∈ tail, v2ContinuationForm r) := by
  induction fuel with
  | zero =>
      intro params meta agg s w res s' w' ht hexp hcl hrun
      simp only [fetchPagesV2, eThrow, Prod.mk.injEq] at hrun
      obtain ⟨-, -, rfl⟩ := hrun
      exact ⟨[], by simp, Or.inl rfl⟩
  | succ fuel ih =>
      intro params meta agg s w res s' w' ht hexp hcl hrun
      cases hp : w.pages with
      | nil =>
          simp only [fetchPagesV2] at hrun
          rw [bind_run_error _ _ _ _ (fetchJson_empty params s w ht (hexp _) hp)] at hrun
          simp only [Prod.mk.injEq] at hrun
          obtain ⟨-, -, rfl⟩ := hrun
          exact ⟨[⟨params, "Bearer " ++ pyStr (s.token.getD .jnull)⟩], rfl,
            Or.inr ⟨[], rfl, by simp⟩⟩
      | cons r rest =>
          have h200 : r.status = 200 := hcl r (by rw [hp]; exact List.mem_cons_self r rest)
          cases hbody : r.body with
          | none =>
              simp only [fetchPagesV2] at hrun
              rw [bind_run_error _ _ _ _
                (fetchJson_parsefail params s w ht (hexp _) hp h200 hbody)] at hrun
              simp only [Prod.mk.injEq] at hrun
              obtain ⟨-, -, rfl⟩ := hrun
              exact ⟨[⟨params, "Bearer " ++ pyStr (s.token.getD .jnull)⟩], rfl,
                Or.inr ⟨[], rfl, by simp⟩⟩
          | some j =>
              simp only [fetchPagesV2] at hrun
              rw [bind_run _ _ _ _
                (fetchJson_clean params s w ht (hexp _) hp h200 hbody)] at hrun
              cases j with
              | jobj rf =>
                  simp only [Bind.bind, Pure.pure] at hrun
                  cases hiter : pyIter (objGetD rf "entities" (.jarr [])) with
                  | error e =>
                      rw [hiter] at hrun
                      simp only [eThrow, Prod.mk.injEq] at hrun
                      obtain ⟨-, -, rfl⟩ := hrun
                      exact ⟨[⟨params, "Bearer " ++ pyStr (s.token.getD .jnull)⟩], rfl,
                        Or.inr ⟨[], rfl, by simp⟩⟩
                  | ok xs =>
                      rw [hiter] at hrun
                      simp only [Bind.bind, Pure.pure] at hrun
                      by_cases hkey : truthy (objGetN rf "nextPageKey") = true
                      · rw [if_neg (by rw [hkey]; decide)] at hrun
                        have hcl' : ∀ p ∈ rest, p.status = 200 := fun p hmem =>
                          hcl p (by rw [hp]; exact List.mem_cons_of_mem _ hmem)
                        obtain ⟨reqs', hlog', hshape'⟩ :=
                          ih [("nextPageKey", objGetN rf "nextPageKey")] _ _ s
                            ⟨w.timeline, w.timeIdx + 1, w.exchanges, rest,
                              w.log ++ [⟨params, "Bearer " ++ pyStr (s.token.getD .jnull)⟩]⟩
                            res s' w' ht hexp hcl' hrun
                        refine ⟨⟨params, "Bearer " ++ pyStr (s.token.getD .jnull)⟩ :: reqs',
                          ?_, ?_⟩
                        · simpa [List.append_assoc] using hlog'
                        · refine Or.inr ⟨reqs', rfl, ?_⟩
                          intro rr hrr
                          cases hshape' with
                          | inl hnil => rw [hnil] at hrr; simp at hrr
                          | inr hcons =>
                              obtain ⟨tail', heq, htail'⟩ := hcons
                              rw [heq] at hrr
                              cases hrr with
                              | head => exact ⟨objGetN rf "nextPageKey", hkey, rfl⟩
                              | tail _ hmem => exact htail' _ hmem
                      · rw [if_pos (by simpa using hkey)] at hrun
                        simp only [Pure.pure, Prod.mk.injEq] at hrun
                        obtain ⟨-, -, rfl⟩ := hrun
                        exact ⟨[⟨params, "Bearer " ++ pyStr (s.token.getD .jnull)⟩], rfl,
                          Or.inr ⟨[], rfl, by simp⟩⟩
              | jnull =>
                  simp only [eThrow, Prod.mk.injEq] at hrun
                  obtain ⟨-, -, rfl⟩ := hrun
                  exact ⟨[⟨params, "Bearer " ++ pyStr (s.token.getD .jnull)⟩], rfl,
                    Or.inr ⟨[], rfl, by simp⟩⟩
              | jbool b =>
                  simp only [eThrow, Prod.mk.injEq] at hrun
                  obtain ⟨-, -, rfl⟩ := hrun
                  exact ⟨[⟨params, "Bearer " ++ pyStr (s.token.getD .jnull)⟩], rfl,
                    Or.inr ⟨[], rfl, by simp⟩⟩
              | jint n =>
                  simp only [eThrow, Prod.mk.injEq] at hrun
                  obtain ⟨-, -, rfl⟩ := hrun
                  exact ⟨[⟨params, "Bearer " ++ pyStr (s.token.getD .jnull)⟩], rfl,
                    Or.inr ⟨[], rfl, by simp⟩⟩
              | jfloat fr =>
                  simp only [eThrow, Prod.mk.injEq] at hrun
                  obtain ⟨-, -, rfl⟩ := hrun
                  exact ⟨[⟨params, "Bearer " ++ pyStr (s.token.getD .jnull)⟩], rfl,
                    Or.inr ⟨[], rfl, by simp⟩⟩
              | jstr str =>
                  simp only [eThrow, Prod.mk.injEq] at hrun
                  obtain ⟨-, -, rfl⟩ := hrun
                  exact ⟨[⟨params, "Bearer " ++ pyStr (s.token.getD .jnull)⟩], rfl,
                    Or.inr ⟨[], rfl, by simp⟩⟩
              | jarr xs =>
                  simp only [eThrow, Prod.mk.injEq] at hrun
                  obtain ⟨-, -, rfl⟩ := hrun
                  exact ⟨[⟨params, "Bearer " ++ pyStr (s.token.getD .jnull)⟩], rfl,
                    Or.inr ⟨[], rfl, by simp⟩⟩

theorem mPageCount_run (s : JwtState) (w : World) :
    mPageCount s w = (.ok w.pages.length, s, w) := rfl

/-! ## Claim C4 -/

/-- C4: on a 401-free run, every continuation request after the first page
carries exactly the protocol-dictated parameter set: under protocol A
(header cursor) the original initial parameters plus the cursor token — never
parameters accumulated from intermediate pages — and under protocol B (body
cursor) only the cursor parameter, with all original filter parameters
dropped. -/
theorem cursor_continuation_parameter_sets :
    (∀ (initialParams : List (String × JVal)) (s : JwtState) (w : World)
        (res : Except Err (List JVal)) (s' : JwtState) (w' : World),
        tokenTruthy s.token = true →
        (∀ i, w.timeline i < s.expiryEpoch) →
        (∀ p ∈ w.pages, p.status = 200) →
        fetchPaginatedV1 initialParams s w = (res, s', w') →
        ∃ reqs, w'.log = w.log ++ reqs ∧
          (reqs = [] ∨ ∃ tail,
            reqs = ⟨initialParams, "Bearer " ++ pyStr (s.token.getD .jnull)⟩ :: tail ∧
            ∀ r ∈ tail, v1ContinuationForm initialParams r))
  ∧ (∀ (initialParams : List (String × JVal)) (s : JwtState) (w : World)
        (res : Except Err JVal) (s' : JwtState) (w' : World),
        tokenTruthy s.token = true →
        (∀ i, w.timeline i < s.expiryEpoch) →
        (∀ p ∈ w.pages, p.status = 200) →
        fetchPaginatedEntities initialParams s w = (res, s', w') →
        ∃ reqs, w'.log = w.log ++ reqs ∧
          (reqs = [] ∨ ∃ tail,
            reqs = ⟨initialParams, "Bearer " ++ pyStr (s.token.getD .jnull)⟩ :: tail ∧
            ∀ r ∈ tail, v2ContinuationForm r)) := by
  constructor
  · intro initialParams s w res s' w' ht hexp hcl hrun
    unfold fetchPaginatedV1 at hrun
    rw [bind_run _ _ _ _ (getToken_cached s w ht (hexp _))] at hrun
    rw [bind_run _ _ _ _ (mPageCount_run s _)] at hrun
    exact fetchPagesV1_log_shape _ initialParams initialParams _ [] s
      ⟨w.timeline, w.timeIdx + 1, w.exchanges, w.pages, w.log⟩ res s' w' hcl hrun
  · intro initialParams s w res s' w' ht hexp hcl hrun
    unfold fetchPaginatedEntities at hrun
    rw [bind_run _ _ _ _ (mPageCount_run s w)] at hrun
    cases hv2 : fetchPagesV2 (w.pages.length + 1) initialParams none [] s w with
    | mk r0 sw0 =>
        obtain ⟨s0, w0⟩ := sw0
        cases r0 with
        | ok ma =>
            rw [bind_run _ _ _ _ hv2] at hrun
            simp only [Pure.pure, Prod.mk.injEq] at hrun
            obtain ⟨-, -, rfl⟩ := hrun
            exact fetchPagesV2_log_shape _ initialParams none [] s w _ s0 w0 ht hexp hcl hv2
        | error e =>
            rw [bind_run_error _ _ _ _ hv2] at hrun
            simp only [Prod.mk.injEq] at hrun
            obtain ⟨-, -, rfl⟩ := hrun
            exact fetchPagesV2_log_shape _ initialParams none [] s w _ s0 w0 ht hexp hcl hv2

/-- Witness for C4 at concrete one-page (protocol A) and two-page
(protocol B) scripts. -/
theorem cursor_continuation_parameter_sets_witness :
    (∃ reqs, (⟨fun _ => 0, 1, [], [],
        [⟨[("pageSize", .jstr "50")], "Bearer T"⟩]⟩ : World).log = [] ++ reqs ∧
      (reqs = [] ∨ ∃ tail,
        reqs = ⟨[("pageSize", .jstr "50")], "Bearer T"⟩ :: tail ∧
        ∀ r ∈ tail, v1ContinuationForm [("pageSize", .jstr "50")] r))
  ∧ (∃ reqs, (⟨fun _ => 0, 2, [], [],
        [⟨[("from", .jstr "now-1h")], "Bearer T"⟩,
         ⟨[("nextPageKey", .jstr "abc")], "Bearer T"⟩]⟩ : World).log = [] ++ reqs ∧
      (reqs = [] ∨ ∃ tail,
        reqs = ⟨[("from", .jstr "now-1h")], "Bearer T"⟩ :: tail ∧
        ∀ r ∈ tail, v2ContinuationForm r)) := by
  constructor
  · exact cursor_continuation_parameter_sets.1 [("pageSize", .jstr "50")]
      ⟨some (.jstr "T"), 1000, 0⟩
      ⟨fun _ => 0, 0, [], [⟨200, some (.jarr [.jint 7]), "", []⟩], []⟩
      (.ok [.jint 7]) ⟨some (.jstr "T"), 1000, 0⟩
      ⟨fun _ => 0, 1, [], [], [⟨[("pageSize", .jstr "50")], "Bearer T"⟩]⟩
      rfl (fun i => show (0 : Int) < 1000 by decide)
      (by intro p hp; rw [List.mem_singleton.mp hp]) rfl
  · exact cursor_continuation_parameter_sets.2 [("from", .jstr "now-1h")]
      ⟨some (.jstr "T"), 1000, 0⟩
      ⟨fun _ => 0, 0, [],
       [⟨200, some (.jobj [("totalCount", .jint 2), ("entities", .jarr [.jstr "E1"]),
          ("nextPageKey", .jstr "abc")]), "", []⟩,
        ⟨200, some (.jobj [("entities", .jarr [.jstr "E2"]), ("totalCount", .jint 9)]),
          "", []⟩], []⟩
      (.ok (.jobj [("totalCount", .jint 2), ("entities", .jarr [.jstr "E1", .jstr "E2"])]))
      ⟨some (.jstr "T"), 1000, 0⟩
      ⟨fun _ => 0, 2, [], [],
       [⟨[("from", .jstr "now-1h")], "Bearer T"⟩,
        ⟨[("nextPageKey", .jstr "abc")], "Bearer T"⟩]⟩
      rfl (fun i => show (0 : Int) < 1000 by decide)
      (by intro p hp
          cases hp with
          | head => rfl
          | tail _ hp2 => rw [List.mem_singleton.mp hp2]) rfl

/-- A scripted 200-status page whose body is the JSON object `fs`. -/
def mkPage (fs : List (String × JVal)) : HttpResp := ⟨200, some (.jobj fs), "", []⟩

/-- The `entities` list of a page body (empty when absent). -/
def entsOf (fs : List (String × JVal)) : List JVal :=
  match objGetD fs "entities" (.jarr []) with
  | .jarr xs => xs
  | _ => []

/-- Full-run characterization of the protocol B loop on a clean script: the
captured metadata comes from the first page only and the aggregated entity
list is the concatenation of the per-page entity lists in cursor order. -/
theorem fetchPagesV2_run (ps' : List (List (String × JVal))) :
    ∀ (fs0 : List (String × JVal)) (fuel : Nat) (params : List (String × JVal))
      (meta : Option (List (String × JVal))) (agg : List JVal) (s : JwtState) (w : World)
      (rest : List HttpResp),
      w.pages = (fs0 :: ps').map mkPage ++ rest →
      ps'.length < fuel →
      tokenTruthy s.token = true →
      (∀ i, w.timeline i < s.expiryEpoch) →
      (∀ fs ∈ (fs0 :: ps').dropLast, truthy (objGetN fs "nextPageKey") = true) →
      (∀ fs, (fs0 :: ps').getLast? = some fs → truthy (objGetN fs "nextPageKey") = false) →
      (∀ fs ∈ fs0 :: ps', ∃ xs, objGetD fs "entities" (.jarr []) = .jarr xs) →
      ∃ w', fetchPagesV2 fuel params meta agg s w =
          (.ok (some (meta.getD (stripMetaFields fs0)),
                agg ++ (fs0 :: ps').flatMap entsOf), s, w')
        ∧ w'.pages = rest := by
  induction ps' with
  | nil =>
      intro fs0 fuel params meta agg s w rest hw hfuel ht hexp hcurs hlast hents
      cases fuel with
      | zero => omega
      | succ f =>
          obtain ⟨xs, hxs⟩ := hents fs0 (List.mem_singleton.mpr rfl)
          have hlast0 : truthy (objGetN fs0 "nextPageKey") = false := hlast fs0 rfl
          simp only [fetchPagesV2]
          rw [bind_run _ _ _ _ (fetchJson_clean params s w ht (hexp _)
            (by simpa using hw) rfl rfl)]
          simp only [Bind.bind, Pure.pure]
          rw [hxs]
          simp only [pyIter]
          rw [hlast0]
          refine ⟨⟨w.timeline, w.timeIdx + 1, w.exchanges, rest,
            w.log ++ [⟨params, "Bearer " ++ pyStr (s.token.getD .jnull)⟩]⟩, ?_, rfl⟩
          cases meta with
          | none => simp [entsOf, hxs]
          | some m => simp [entsOf, hxs]
  | cons fs1 ps'' ih =>
      intro fs0 fuel params meta agg s w rest hw hfuel ht hexp hcurs hlast hents
      cases fuel with
      | zero => omega
      | succ f =>
          obtain ⟨xs, hxs⟩ := hents fs0 (List.mem_cons_self _ _)
          have hcur0 : truthy (objGetN fs0 "nextPageKey") = true :=
            hcurs fs0 (List.mem_cons_self _ _)
          simp only [fetchPagesV2]
          rw [bind_run _ _ _ _ (fetchJson_clean params s w ht (hexp _)
            (by simpa using hw) rfl rfl)]
          simp only [Bind.bind, Pure.pure]
          rw [hxs]
          simp only [pyIter]
          rw [hcur0]
          simp only [Bool.not_true, if_false]
          cases meta with
          | none =>
              obtain ⟨w', hrun', hpages'⟩ := ih fs1 f
                [("nextPageKey", objGetN fs0 "nextPageKey")]
                (some (stripMetaFields fs0)) (agg ++ xs) s
                ⟨w.timeline, w.timeIdx + 1, w.exchanges,
                 (fs1 :: ps'').map mkPage ++ rest,
                 w.log ++ [⟨params, "Bearer " ++ pyStr (s.token.getD .jnull)⟩]⟩
                rest rfl (by simpa using hfuel) ht hexp
                (fun fs hm => hcurs fs (List.mem_cons_of_mem _ hm))
                (fun fs hm => hlast fs hm)
                (fun fs hm => hents fs (List.mem_cons_of_mem _ hm))
              exact ⟨w', hrun'.trans (by simp [entsOf, hxs, List.append_assoc]), hpages'⟩
          | some m =>
              obtain ⟨w', hrun', hpages'⟩ := ih fs1 f
                [("nextPageKey", objGetN fs0 "nextPageKey")]
                (some m) (agg ++ xs) s
                ⟨w.timeline, w.timeIdx + 1, w.exchanges,
                 (fs1 :: ps'').map mkPage ++ rest,
                 w.log ++ [⟨params, "Bearer " ++ pyStr (s.token.getD .jnull)⟩]⟩
                rest rfl (by simpa using hfuel) ht hexp
                (fun fs hm => hcurs fs (List.mem_cons_of_mem _ hm))
                (fun fs hm => hlast fs hm)
                (fun fs hm => hents fs (List.mem_cons_of_mem _ hm))
              exact ⟨w', hrun'.trans (by simp [entsOf, hxs, List.append_assoc]), hpages'⟩

/-! ## Claim C5 -/

/-- C5: on a clean protocol B session the aggregated result is the first
page's response stripped of the `entities` and `nextPageKey` fields — so the
captured metadata is determined by the first page alone, whatever metadata
any later page carries — with the `entities` key holding the concatenation of
the per-page entity lists in cursor order. -/
theorem protocolB_first_page_metadata_and_concatenation :
    ∀ (fs0 : List (String × JVal)) (ps' : List (List (String × JVal)))
      (initialParams : List (String × JVal)) (s : JwtState) (w : World),
      w.pages = (fs0 :: ps').map mkPage →
      tokenTruthy s.token = true →
      (∀ i, w.timeline i < s.expiryEpoch) →
      (∀ fs ∈ (fs0 :: ps').dropLast, truthy (objGetN fs "nextPageKey") = true) →
      (∀ fs, (fs0 :: ps').getLast? = some fs → truthy (objGetN fs "nextPageKey") = false) →
      (∀ fs ∈ fs0 :: ps', ∃ xs, objGetD fs "entities" (.jarr []) = .jarr xs) →
      ∃ w', fetchPaginatedEntities initialParams s w =
        (.ok (.jobj (objSet (stripMetaFields fs0) "entities"
              (.jarr ((fs0 :: ps').flatMap entsOf)))), s, w') := by
  intro fs0 ps' initialParams s w hw ht hexp hcurs hlast hents
  have hlen : w.pages.length = ps'.length + 1 := by rw [hw]; simp
  obtain ⟨w', hrun, -⟩ := fetchPagesV2_run ps' fs0 (w.pages.length + 1)
    initialParams none [] s w [] (by rw [hw]; simp) (by omega) ht hexp hcurs hlast hents
  refine ⟨w', ?_⟩
  unfold fetchPaginatedEntities
  rw [bind_run _ _ _ _ (mPageCount_run s w)]
  rw [bind_run _ _ _ _ hrun]
  simp [Pure.pure]

/-- Witness for C5 at a concrete two-page script mirroring the repository's
own test. -/
theorem protocolB_first_page_metadata_and_concatenation_witness :
    ∃ w', fetchPaginatedEntities [("from", .jstr "now-1h")]
        ⟨some (.jstr "T"), 1000, 0⟩
        ⟨fun _ => 0, 0, [],
         [mkPage [("totalCount", .jint 2), ("entities", .jarr [.jstr "E1"]),
                  ("nextPageKey", .jstr "abc")],
          mkPage [("entities", .jarr [.jstr "E2"]), ("totalCount", .jint 9)]], []⟩ =
      (.ok (.jobj (objSet
            (stripMetaFields [("totalCount", .jint 2), ("entities", .jarr [.jstr "E1"]),
              ("nextPageKey", .jstr "abc")])
            "entities"
            (.jarr ([[("totalCount", .jint 2), ("entities", .jarr [.jstr "E1"]),
                      ("nextPageKey", .jstr "abc")],
                     [("entities", .jarr [.jstr "E2"]), ("totalCount", .jint 9)]].flatMap
              entsOf)))),
       ⟨some (.jstr "T"), 1000, 0⟩, w') :=
  protocolB_first_page_metadata_and_concatenation
    [("totalCount", .jint 2), ("entities", .jarr [.jstr "E1"]), ("nextPageKey", .jstr "abc")]
    [[("entities", .jarr [.jstr "E2"]), ("totalCount", .jint 9)]]
    [("from", .jstr "now-1h")] ⟨some (.jstr "T"), 1000, 0⟩
    ⟨fun _ => 0, 0, [],
     [mkPage [("totalCount", .jint 2), ("entities", .jarr [.jstr "E1"]),
              ("nextPageKey", .jstr "abc")],
      mkPage [("entities", .jarr [.jstr "E2"]), ("totalCount", .jint 9)]], []⟩
    rfl rfl (fun i => show (0 : Int) < 1000 by decide)
    (by intro fs hm; rw [List.mem_singleton.mp hm]; rfl)
    (by intro fs hm; injection hm with h; rw [← h]; rfl)
    (by intro fs hm
        cases hm with
        | head => exact ⟨[.jstr "E1"], rfl⟩
        | tail _ hm2 =>
            rw [List.mem_singleton.mp hm2]
            exact ⟨[.jstr "E2"], rfl⟩)


/-! ## Heap model for the mutation claim

`clean_unsupported_metadata` deep-copies its argument and all later mutations
(`dict.pop`, item assignment) hit the copy or dicts freshly derived from it.
To verify that the *input* object graph is never written, the topology
pipeline is modelled a second time over an explicit heap: dicts and lists
live in addressed cells, scalars are immutable values, and every Python
in-place mutation is a `hWrite` to the cell the source code mutates.  The
payloads stored by a mutation are allocated fresh from their pure value
(computed by the section-2 functions) except where the source shares an
existing object (`{"logFileStatus": <original list>}`, `data["listenPorts"] =
listen_ports`, `component_data.update(cleaned_entity)` …), which the model
shares too; sharing *inside* freshly built values is not tracked — it cannot
affect which cells are written. -/

/-- Heap addresses. -/
abbrev Addr := Nat

/-- Immutable Python scalars. -/
inductive Prim where
  | pnull
  | pbool (b : Bool)
  | pint (n : Int)
  | pfloat (r : String)
  | pstr (s : String)

/-- A runtime value: a scalar or a reference to a heap cell. -/
inductive HVal where
  | prim (p : Prim)
  | ref (a : Addr)

/-- A heap cell: a dict or a list. -/
inductive HObj where
  | hdict (fields : List (String × HVal))
  | hlist (elems : List HVal)

/-- The heap: an allocation bound and the cell store. -/
structure Heap where
  next : Addr
  cells : Addr → Option HObj

/-- Heap computations with Python exceptions. -/
def HM (α : Type) : Type := Heap → Except PyErr α × Heap

instance : Monad HM where
  pure a := fun h => (.ok a, h)
  bind m f := fun h =>
    match m h with
    | (.ok a, h') => f a h'
    | (.error e, h') => (.error e, h')

/-- Raise a Python exception. -/
def hThrow (e : PyErr) : HM α := fun h => (.error e, h)

/-- Allocate a fresh cell. -/
def hAlloc (o : HObj) : HM HVal := fun h =>
  (.ok (.ref h.next),
   ⟨h.next + 1, fun a => if a = h.next then some o else h.cells a⟩)

/-- Read a cell (a dangling address is a model-level `TypeError`). -/
def hRead (a : Addr) : HM HObj := fun h =>
  match h.cells a with
  | some o => (.ok o, h)
  | none => (.error .typeError, h)

/-- Overwrite a cell in place. -/
def hWrite (a : Addr) (o : HObj) : HM Unit := fun h =>
  (.ok (), ⟨h.next, fun x => if x = a then some o else h.cells x⟩)

/-- The JSON scalar denoted by a `Prim`. -/
def primToJVal : Prim → JVal
  | .pnull => .jnull
  | .pbool b => .jbool b
  | .pint n => .jint n
  | .pfloat r => .jfloat r
  | .pstr s => .jstr s

/-- Association-list lookup on heap dict fields. -/
def objGetHV (fs : List (String × HVal)) (k : String) : Option HVal :=
  (fs.find? (fun p => p.1 == k)).map (·.2)

/-- Replace the value of the first entry with key `k`, keeping its position. -/
def replaceEntryHV : List (String × HVal) → String → HVal → List (String × HVal)
  | [], _, _ => []
  | p :: fs, k, v => if p.1 == k then (p.1, v) :: fs else p :: replaceEntryHV fs k v

/-- Python `d[k] = v` on heap dict fields. -/
def objSetHV (fs : List (String × HVal)) (k : String) (v : HVal) :
    List (String × HVal) :=
  if fs.any (fun p => p.1 == k) then replaceEntryHV fs k v else fs ++ [(k, v)]

/-- Python `d.pop(k, None)` / `del d[k]` on heap dict fields. -/
def objRemoveHV (fs : List (String × HVal)) (k : String) : List (String × HVal) :=
  fs.filter (fun p => !(p.1 == k))

mutual

/-- Dereference a value into its pure JSON tree (fuel-bounded). -/
def readTree (h : Heap) : Nat → HVal → Option JVal
  | _, .prim p => some (primToJVal p)
  | 0, .ref _ => none
  | fuel + 1, .ref a =>
      match h.cells a with
      | some (.hlist es) => (readTreeList h fuel es).map .jarr
      | some (.hdict fes) => (readTreeFields h fuel fes).map .jobj
      | none => none

/-- Dereference list elements. -/
def readTreeList (h : Heap) (fuel : Nat) : List HVal → Option (List JVal)
  | [] => some []
  | v :: vs => do
      let t ← readTree h fuel v
      let ts ← readTreeList h fuel vs
      some (t :: ts)

/-- Dereference dict entries. -/
def readTreeFields (h : Heap) (fuel : Nat) :
    List (String × HVal) → Option (List (String × JVal))
  | [] => some []
  | (k, v) :: fs => do
      let t ← readTree h fuel v
      let ts ← readTreeFields h fuel fs
      some ((k, t) :: ts)

end

/-- Read a value's tree inside `HM` (ample fuel; exhaustion — impossible on
the acyclic heaps the model builds — is a `RecursionError`). -/
def readTreeM (v : HVal) : HM JVal := fun h =>
  (match readTree h (h.next + 1) v with
   | some t => .ok t
   | none => .error .recursionError, h)

mutual

/-- Allocate a fresh object graph denoting a pure JSON tree. -/
def allocTree : JVal → HM HVal
  | .jnull => pure (.prim .pnull)
  | .jbool b => pure (.prim (.pbool b))
  | .jint n => pure (.prim (.pint n))
  | .jfloat r => pure (.prim (.pfloat r))
  | .jstr s => pure (.prim (.pstr s))
  | .jarr ts => do
      let es ← allocTreeList ts
      hAlloc (.hlist es)
  | .jobj fts => do
      let fes ← allocTreeFields fts
      hAlloc (.hdict fes)

/-- Allocate the elements of a list. -/
def allocTreeList : List JVal → HM (List HVal)
  | [] => pure []
  | t :: ts => do
      let v ← allocTree t
      let vs ← allocTreeList ts
      pure (v :: vs)

/-- Allocate the entries of a dict. -/
def allocTreeFields : List (String × JVal) → HM (List (String × HVal))
  | [] => pure []
  | (k, t) :: fts => do
      let v ← allocTree t
      let vs ← allocTreeFields fts
      pure ((k, v) :: vs)

end

/-- `copy.deepcopy`: a fresh graph carrying the same value, sharing nothing
with the original. -/
def deepcopyH (v : HVal) : HM HVal := do
  let t ← readTreeM v
  allocTree t

/-- Top-level scalar coercion on a heap value (scalars are immutable;
containers are references and stay untouched here). -/
def coerceScalarH (v : HVal) : HVal :=
  match v with
  | .prim (.pfloat r) => .prim (.pstr r)
  | .prim (.pbool b) => .prim (.pstr (pyStr (.jbool b)))
  | .prim (.pint n) => .prim (.pstr (toString n))
  | other => other

/-- Step of `clean_unsupported_metadata` for `releasesVersion`
(main_process_topology.py:49-53): a string form is replaced by a fresh empty
dict. -/
def cleanReleasesVersionH (pf : List (String × HVal)) : HM (List (String × HVal)) :=
  match objGetHV pf "releasesVersion" with
  | some (.prim (.pstr _)) => do
      let e ← hAlloc (.hdict [])
      pure (objSetHV pf "releasesVersion" e)
  | _ => pure pf

/-- Step for `osServices` (main_process_topology.py:56-62): a list is
replaced by the fresh converted name list. -/
def cleanOsServicesH (pf : List (String × HVal)) : HM (List (String × HVal)) :=
  match objGetHV pf "osServices" with
  | some (.ref oa) => do
      let o ← hRead oa
      match o with
      | .hlist _ => do
          let t ← readTreeM (.ref oa)
          match t with
          | .jarr services => do
              let na ← allocTree (.jarr (convertOsServices services))
              pure (objSetHV pf "osServices" na)
          | _ => pure pf
      | _ => pure pf
  | _ => pure pf

/-- Step for `customPgMetadata` (main_process_topology.py:65-77): a list
folds into a fresh flat dict; other non-dict values are replaced by a fresh
empty dict. -/
def cleanCustomPgMetadataH (pf : List (String × HVal)) : HM (List (String × HVal)) :=
  match objGetHV pf "customPgMetadata" with
  | some (.ref ca) => do
      let o ← hRead ca
      match o with
      | .hlist _ => do
          let t ← readTreeM (.ref ca)
          match t with
          | .jarr items => do
              let na ← allocTree (.jobj (foldCustomPgMetadata items))
              pure (objSetHV pf "customPgMetadata" na)
          | _ => pure pf
      | .hdict _ => pure pf
  | some (.prim _) => do
      let e ← hAlloc (.hdict [])
      pure (objSetHV pf "customPgMetadata" e)
  | none => pure pf

/-- Step for the two log keys (main_process_topology.py:80-110): a list is
wrapped into a fresh dict SHARING the list; a scalar becomes None. -/
def cleanLogWrapH (key : String) (pf : List (String × HVal)) :
    HM (List (String × HVal)) :=
  match objGetHV pf key with
  | some (.ref la) => do
      let o ← hRead la
      match o with
      | .hlist _ => do
          let e ← hAlloc (.hdict [(key, .ref la)])
          pure (objSetHV pf key e)
      | .hdict _ => pure pf
  | some (.prim _) => pure (objSetHV pf key (.prim .pnull))
  | none => pure pf

/-- The nested-`properties` handling of `clean_unsupported_metadata`
(main_process_topology.py:47-110) on the heap: each rule replaces one entry
of the (copied) properties dict; replaced payloads are freshly allocated from
the pure conversion of the old value, except the log wrappers, which share
the original list exactly as the source does. -/
def cleanPropertiesH (pf : List (String × HVal)) : HM (List (String × HVal)) := do
  let pf ← cleanReleasesVersionH pf
  let pf ← cleanOsServicesH pf
  let pf ← cleanCustomPgMetadataH pf
  let pf ← cleanLogWrapH "logFileStatus" pf
  let pf ← cleanLogWrapH "logSourceState" pf
  pure pf

/-- The in-place rewrite of the copied `properties` cell
(main_process_topology.py:47-110): runs the per-key rules and writes the
result back into the same cell; non-dict `properties` values are left
alone. -/
def cleanPropsCellH (fields : List (String × HVal)) : HM Unit :=
  match objGetHV fields "properties" with
  | some (.ref pa) => do
      let po ← hRead pa
      match po with
      | .hdict pf => do
          let pf ← cleanPropertiesH pf
          hWrite pa (.hdict pf)
      | _ => pure ()
  | _ => pure ()

/-- `clean_unsupported_metadata` (main_process_topology.py:29-116) on the
heap: deep-copy the argument, then mutate only the copy (its root cell and
its `properties` cell). -/
def cleanUnsupportedMetadataH (x : HVal) : HM HVal := do
  let c ← deepcopyH x
  match c with
  | .prim _ => hThrow .attributeError
  | .ref a => do
      let o ← hRead a
      match o with
      | .hlist _ => hThrow .attributeError
      | .hdict fields => do
          let fields := fields.map (fun p => (p.1, coerceScalarH p.2))
          hWrite a (.hdict fields)
          -- nested properties handling, in place on the copied properties dict
          cleanPropsCellH fields
          -- remove lastSeenTimestamp from the copy
          let o2 ← hRead a
          match o2 with
          | .hdict fields2 => do
              hWrite a (.hdict (objRemoveHV fields2 "lastSeenTimestamp"))
              pure (HVal.ref a)
          | _ => hThrow .attributeError

/-- Truthiness of a heap value (`bool(v)`). -/
def truthyH (v : HVal) : HM Bool :=
  match v with
  | .prim p => pure (truthy (primToJVal p))
  | .ref a => do
      let o ← hRead a
      match o with
      | .hdict fs => pure (!fs.isEmpty)
      | .hlist es => pure (!es.isEmpty)

/-- Truthiness of an optional heap value (`None` is falsy). -/
def truthyOptH (v : Option HVal) : HM Bool :=
  match v with
  | none => pure false
  | some v => truthyH v

/-- Whether a heap value is a Python list. -/
def isListH (v : HVal) : HM Bool :=
  match v with
  | .ref a => do
      let o ← hRead a
      match o with
      | .hlist _ => pure true
      | _ => pure false
  | _ => pure false

/-- `isinstance(v, list)` on an optional heap value. -/
def isListOptH (v : Option HVal) : HM Bool :=
  match v with
  | some v => isListH v
  | none => pure false

/-- The `metadata` fold of `normalize_process_group_v2_to_v1`
(main_process_topology.py:197-218): when the popped value is a truthy list,
fold it into a fresh dict-of-arrays and set it on the data fields; otherwise
leave them unchanged. -/
def normalizeMetadataFoldH (df : List (String × HVal)) (mv : Option HVal)
    (tMv lMv : Bool) : HM (List (String × HVal)) :=
  if tMv && lMv then do
    let t ← readTreeM (mv.getD (.prim .pnull))
    match t with
    | .jarr entries =>
        match foldMetadataEntries entries with
        | .ok out =>
            if out.isEmpty then pure df
            else do
              let ma ← allocTree (.jobj out)
              pure (objSetHV df "metadata" ma)
        | .error e => hThrow e
    | _ => pure df
  else pure df

/-- The list-pop/hoist chain of `normalize_process_group_v2_to_v1`
(main_process_topology.py:176-218) on a truthy properties dict `pf` at cell
`pa`, with data fields `df` at cell `da`: pops mutate the shared properties
cell, hoists mutate the data cell, and the hoisted payloads are the very
objects popped (shared), except the metadata fold, which allocates fresh. -/
def normalizeElseH (da pa : Addr) (df pf : List (String × HVal)) : HM HVal := do
  -- 1) listenPorts: pop, hoist the SAME list object
  let listenPorts := objGetHV pf "listenPorts"
  let pf := objRemoveHV pf "listenPorts"
  let tLp ← truthyOptH listenPorts
  let lLp ← isListOptH listenPorts
  let df :=
    if tLp && lLp then
      objSetHV df "listenPorts" (listenPorts.getD (.prim .pnull))
    else df
  -- 2) softwareTechnologies: same
  let softwareTechs := objGetHV pf "softwareTechnologies"
  let pf := objRemoveHV pf "softwareTechnologies"
  let tSt ← truthyOptH softwareTechs
  let lSt ← isListOptH softwareTechs
  let df :=
    if tSt && lSt then
      objSetHV df "softwareTechnologies" (softwareTechs.getD (.prim .pnull))
    else df
  -- 3) detectedName -> discoveredName when missing (shared value)
  let dn := objGetHV pf "detectedName"
  let tDn ← truthyOptH dn
  let tDisc ← truthyOptH (objGetHV df "discoveredName")
  let df :=
    if tDn && !tDisc then
      objSetHV df "discoveredName" (dn.getD (.prim .pnull))
    else df
  -- 4) metadata: pop, fold into a fresh dict-of-arrays
  let mv := objGetHV pf "metadata"
  let pf := objRemoveHV pf "metadata"
  let tMv ← truthyOptH mv
  let lMv ← isListOptH mv
  let df ← normalizeMetadataFoldH df mv tMv lMv
  hWrite pa (.hdict pf)
  hWrite da (.hdict df)
  pure (HVal.ref da)

/-- `normalize_process_group_v2_to_v1` applied to the data fields `df` found
at cell `da`: exactly when `data["properties"]` is a truthy dict the pops and
hoists run; otherwise (`or {}` fallback or truthy non-dict) nothing is
written. -/
def normalizeBodyH (da : Addr) (df : List (String × HVal)) : HM HVal :=
  match objGetHV df "properties" with
  | some (.ref pa) => do
      let po ← hRead pa
      match po with
      | .hlist _ =>
          -- empty list: falsy, fresh `{}`, no-op; non-empty: truthy
          -- non-dict, early return — unchanged either way
          pure (HVal.ref da)
      | .hdict pf =>
          if pf.isEmpty then
            -- falsy: `properties` is a fresh unshared `{}`; the pops
            -- hit the fresh dict and nothing is written
            pure (HVal.ref da)
          else normalizeElseH da pa df pf
  | _ =>
      -- missing or scalar `properties`: a truthy scalar is a non-dict
      -- (early return), a falsy one becomes the fresh `{}` (no-op)
      pure (HVal.ref da)

/-- `normalize_process_group_v2_to_v1` (main_process_topology.py:166-225) on
the heap. -/
def normalizeProcessGroupV2ToV1H (d : HVal) : HM HVal :=
  match d with
  | .prim _ => hThrow .attributeError
  | .ref da => do
      let o ← hRead da
      match o with
      | .hlist _ => hThrow .attributeError
      | .hdict df => normalizeBodyH da df

/-- The `component_type == "process-group"` branch of
`process_entity_to_component` (main_process_topology.py:283-284). -/
def normalizeIfPgH (componentType : String) (cd : HVal) : HM HVal :=
  if componentType == "process-group" then normalizeProcessGroupV2ToV1H cd
  else pure cd

/-- The record built by `process_entity_to_component` as the topology loop
consumes it: the component (a heap object) plus the pure values the
relationship loops read. -/
structure ProcessedH where
  entityId : JVal
  component : HVal
  fromRels : JVal
  toRels : JVal

/-- The dict-entity body of `process_entity_to_component`
(main_process_topology.py:244-303): `component_data` is a fresh dict sharing
the cleaned copy's entry objects; the process-group reshape mutates it (and
the shared properties cell) in place; the final update writes the fresh
identifier/tag/type values into the `component_data` cell. -/
def buildComponentH (componentType : String) (cfs : List (String × JVal))
    (entityId : JVal) (c : HVal) : HM ProcessedH :=
  match buildTags cfs entityId with
  | .error e => hThrow e
  | .ok tags =>
      match c with
      | .ref ca => do
          let co ← hRead ca
          match co with
          | .hdict cf => do
              let cdf := objRemoveHV (objRemoveHV (objRemoveHV cf
                "fromRelationships") "toRelationships") "tags"
              let cd ← hAlloc (.hdict cdf)
              let cd ← normalizeIfPgH componentType cd
              match cd with
              | .ref cda => do
                  let cdo ← hRead cda
                  match cdo with
                  | .hdict cdf2 => do
                      let idsRef ← allocTree
                        (.jarr [createComponentIdentifier entityId])
                      let tagsRef ← allocTree (.jarr tags)
                      let cdf2 := objSetHV cdf2 "identifiers" idsRef
                      let cdf2 := objSetHV cdf2 "tags" tagsRef
                      let cdf2 := objSetHV cdf2 "component_type"
                        (.prim (.pstr componentType))
                      hWrite cda (.hdict cdf2)
                      pure { entityId := entityId
                             component := cd
                             fromRels := objGetD cfs "fromRelationships" (.jobj [])
                             toRels := objGetD cfs "toRelationships" (.jobj []) }
                  | _ => hThrow .typeError
              | _ => hThrow .typeError
          | _ => hThrow .typeError
      | _ => hThrow .typeError

/-- `process_entity_to_component` (main_process_topology.py:228-303) on the
heap: clean a deep copy, build tags purely from its tree, then build and
reshape the component dict in place. -/
def processEntityToComponentH (entity : HVal) (componentType : String) :
    HM ProcessedH := do
  let c ← cleanUnsupportedMetadataH entity
  let t ← readTreeM c
  match t with
  | .jobj cfs =>
      buildComponentH componentType cfs (objGetD cfs "entityId" (.jstr "")) c
  | _ => hThrow .attributeError

/-- `entity.get("entityId", "UNKNOWN")` in the exception handler, on the
heap (a read-only operation). -/
def warnIdH (entity : HVal) : HM JVal :=
  match entity with
  | .ref a => do
      let o ← hRead a
      match o with
      | .hdict fs =>
          match objGetHV fs "entityId" with
          | some v => readTreeM v
          | none => pure (.jstr "UNKNOWN")
      | _ => hThrow .attributeError
  | _ => hThrow .attributeError

/-- The relationship extraction of one `process_topology` iteration after a
successful `process_entity_to_component` (main_process_topology.py:345-374):
the component is already appended; a failure in either relationship loop is
caught and logs a warning. -/
def afterPEHOk (entity : HVal) (p : ProcessedH) :
    HM (List HVal × List Edge × List JVal) :=
  match relsFrom p.entityId p.fromRels with
  | .ok fe =>
      match relsTo p.entityId p.toRels with
      | .ok te => pure ([p.component], fe ++ te, [])
      | .error _ => do
          let wid ← warnIdH entity
          pure ([p.component], fe, [wid])
  | .error _ => do
      let wid ← warnIdH entity
      pure ([p.component], [], [wid])

/-- The per-entity `except` handler of `process_topology`
(main_process_topology.py:368-374) around the result of
`process_entity_to_component`. -/
def afterPEH (entity : HVal) (res : Except PyErr ProcessedH) :
    HM (List HVal × List Edge × List JVal) :=
  match res with
  | .ok p => afterPEHOk entity p
  | .error _ => do
      let wid ← warnIdH entity
      pure ([], [], [wid])

/-- One iteration of the `process_topology` entity loop on the heap, with the
per-entity `except` handler. -/
def processOneH (ct : String) (entity : HVal) :
    HM (List HVal × List Edge × List JVal) := fun h =>
  let z := processEntityToComponentH entity ct h
  afterPEH entity z.1 z.2

/-- The `process_topology` entity loop on the heap. -/
def processTopologyH (ct : String) : List HVal → HM (List HVal × List Edge × List JVal)
  | [] => pure ([], [], [])
  | e :: rest => do
      let one ← processOneH ct e
      let acc ← processTopologyH ct rest
      pure (one.1 ++ acc.1, one.2.1 ++ acc.2.1, one.2.2 ++ acc.2.2)

/-! ## Frame reasoning: the pipeline never writes below the input boundary -/

/-- A value whose reference (if any) lies at or above `n`. -/
def HValAbove (n : Nat) : HVal → Prop
  | .prim _ => True
  | .ref a => n ≤ a

/-- All references stored in a cell lie at or above `n`. -/
def objRefsAbove (n : Nat) : HObj → Prop
  | .hdict fs => ∀ p ∈ fs, HValAbove n p.2
  | .hlist es => ∀ v ∈ es, HValAbove n v

/-- Heap region discipline: cells at/above `n` only reference cells at/above
`n` (the region the pipeline is allowed to mutate is closed). -/
def GoodAbove (n : Nat) (h : Heap) : Prop :=
  n ≤ h.next ∧ ∀ a o, n ≤ a → h.cells a = some o → objRefsAbove n o

/-- `m` preserves the region discipline, never writes a cell below `n`, and
its successful results satisfy `Q`. -/
def Frames (n : Nat) (m : HM α) (Q : α → Prop) : Prop :=
  ∀ h r h', GoodAbove n h → m h = (r, h') →
    GoodAbove n h' ∧ (∀ a, a < n → h'.cells a = h.cells a) ∧ (∀ v, r = .ok v → Q v)

theorem hm_pure_run (v : α) (h : Heap) : (pure v : HM α) h = (.ok v, h) := rfl

theorem hm_bind_run (m : HM α) (k : α → HM β) (h : Heap) :
    (m >>= k) h = match m h with
                  | (.ok a, h0) => k a h0
                  | (.error e, h0) => (.error e, h0) := rfl

theorem frames_pure {n : Nat} {Q : α → Prop} (v : α) (hq : Q v) :
    Frames n (pure v) Q := by
  intro h r h' hg hrun
  rw [hm_pure_run] at hrun
  simp only [Prod.mk.injEq] at hrun
  obtain ⟨rfl, rfl⟩ := hrun
  exact ⟨hg, fun a _ => rfl, fun w hw => by cases hw; exact hq⟩

theorem frames_throw {n : Nat} {Q : α → Prop} (e : PyErr) :
    Frames n (hThrow e) Q := by
  intro h r h' hg hrun
  simp only [hThrow, Prod.mk.injEq] at hrun
  obtain ⟨rfl, rfl⟩ := hrun
  exact ⟨hg, fun a _ => rfl, fun w hw => by cases hw⟩

theorem frames_imp {n : Nat} {Q R : α → Prop} {m : HM α}
    (hm : Frames n m Q) (himp : ∀ v, Q v → R v) : Frames n m R := by
  intro h r h' hg hrun
  obtain ⟨hg', hf', hq'⟩ := hm h r h' hg hrun
  exact ⟨hg', hf', fun v hv => himp v (hq' v hv)⟩

theorem frames_bind {n : Nat} {Q : α → Prop} {R : β → Prop}
    {m : HM α} {k : α → HM β}
    (hm : Frames n m Q) (hk : ∀ v, Q v → Frames n (k v) R) :
    Frames n (m >>= k) R := by
  intro h r h' hg hrun
  rw [hm_bind_run] at hrun
  cases hm0 : m h with
  | mk r0 h0 =>
      rw [hm0] at hrun
      obtain ⟨hg0, hf0, hq0⟩ := hm h r0 h0 hg hm0
      cases r0 with
      | ok a =>
          obtain ⟨hg1, hf1, hq1⟩ := hk a (hq0 a rfl) h0 r h' hg0 hrun
          exact ⟨hg1, fun x hx => (hf1 x hx).trans (hf0 x hx), hq1⟩
      | error e =>
          simp only [Prod.mk.injEq] at hrun
          obtain ⟨rfl, rfl⟩ := hrun
          exact ⟨hg0, hf0, fun v hv => by cases hv⟩

theorem frames_alloc {n : Nat} (o : HObj) (ho : objRefsAbove n o) :
    Frames n (hAlloc o) (HValAbove n) := by
  intro h r h' hg hrun
  simp only [hAlloc, Prod.mk.injEq] at hrun
  obtain ⟨rfl, rfl⟩ := hrun
  have hn : n ≤ h.next := hg.1
  refine ⟨⟨Nat.le_succ_of_le hn, ?_⟩, ?_, ?_⟩
  · intro a ob ha hcell
    by_cases hae : a = h.next
    · subst hae
      simp only [if_pos rfl] at hcell
      cases hcell
      exact ho
    · simp only [if_neg hae] at hcell
      exact hg.2 a ob ha hcell
  · intro a ha
    have : a ≠ h.next := by omega
    simp [this]
  · intro v hv
    cases hv
    exact hg.1

theorem frames_write {n : Nat} (a : Addr) (o : HObj) (ha : n ≤ a)
    (ho : objRefsAbove n o) : Frames n (hWrite a o) (fun _ => True) := by
  intro h r h' hg hrun
  simp only [hWrite, Prod.mk.injEq] at hrun
  obtain ⟨rfl, rfl⟩ := hrun
  refine ⟨⟨hg.1, ?_⟩, ?_, fun _ _ => trivial⟩
  · intro x ob hx hcell
    by_cases hxa : x = a
    · subst hxa
      simp only [if_pos rfl] at hcell
      cases hcell
      exact ho
    · simp only [if_neg hxa] at hcell
      exact hg.2 x ob hx hcell
  · intro x hx
    have : x ≠ a := by omega
    simp [this]

/-- `m` leaves the heap untouched. -/
def ReadOnly (m : HM α) : Prop := ∀ h, (m h).2 = h

theorem frames_of_readOnly {n : Nat} {m : HM α} (hm : ReadOnly m) :
    Frames n m (fun _ => True) := by
  intro h r h' hg hrun
  have := hm h
  rw [hrun] at this
  cases this
  exact ⟨hg, fun a _ => rfl, fun _ _ => trivial⟩

theorem readOnly_pure (v : α) : ReadOnly (pure v : HM α) := fun _ => rfl

theorem readOnly_hThrow (e : PyErr) : ReadOnly (hThrow e : HM α) := fun _ => rfl

theorem readOnly_hRead (a : Addr) : ReadOnly (hRead a) := by
  intro h
  simp only [hRead]
  cases h.cells a <;> rfl

theorem readOnly_readTreeM (v : HVal) : ReadOnly (readTreeM v) := fun _ => rfl

theorem readOnly_bind {m : HM α} {k : α → HM β}
    (hm : ReadOnly m) (hk : ∀ v, ReadOnly (k v)) : ReadOnly (m >>= k) := by
  intro h
  show (match m h with
        | (.ok a, h') => k a h'
        | (.error e, h') => (.error e, h')).2 = h
  cases hm0 : m h with
  | mk r0 h0 =>
      have hh0 : h0 = h := by have := hm h; rw [hm0] at this; exact this
      cases r0 with
      | ok a => rw [hh0]; exact hk a h
      | error e => exact hh0

theorem readOnly_truthyH (v : HVal) : ReadOnly (truthyH v) := by
  cases v with
  | prim p => exact readOnly_pure _
  | ref a =>
      refine readOnly_bind (readOnly_hRead a) ?_
      intro o
      cases o <;> exact readOnly_pure _

theorem readOnly_truthyOptH (v : Option HVal) : ReadOnly (truthyOptH v) := by
  cases v with
  | none => exact readOnly_pure _
  | some v => exact readOnly_truthyH v

theorem readOnly_isListH (v : HVal) : ReadOnly (isListH v) := by
  cases v with
  | prim p => exact readOnly_pure _
  | ref a =>
      refine readOnly_bind (readOnly_hRead a) ?_
      intro o
      cases o <;> exact readOnly_pure _

theorem readOnly_warnIdH (entity : HVal) : ReadOnly (warnIdH entity) := by
  cases entity with
  | prim p => exact readOnly_hThrow _
  | ref a =>
      refine readOnly_bind (readOnly_hRead a) ?_
      intro o
      cases o with
      | hlist es => exact readOnly_hThrow _
      | hdict fs =>
          show ReadOnly (match objGetHV fs "entityId" with
            | some v => readTreeM v
            | none => pure (JVal.jstr "UNKNOWN"))
          cases objGetHV fs "entityId" with
          | none => exact readOnly_pure _
          | some v => exact readOnly_readTreeM v

theorem objGetHV_forall {P : HVal → Prop} {fs : List (String × HVal)}
    {k : String} {v : HVal} (hfs : ∀ p ∈ fs, P p.2)
    (hget : objGetHV fs k = some v) : P v := by
  unfold objGetHV at hget
  cases hf : fs.find? (fun p => p.1 == k) with
  | none => rw [hf] at hget; cases hget
  | some p =>
      rw [hf] at hget
      simp only [Option.map_some'] at hget
      cases hget
      exact hfs p (List.mem_of_find?_eq_some hf)

theorem replaceEntryHV_forall {P : HVal → Prop} {v : HVal} (hv : P v) :
    ∀ {fs : List (String × HVal)} {k : String},
      (∀ p ∈ fs, P p.2) → ∀ p ∈ replaceEntryHV fs k v, P p.2 := by
  intro fs
  induction fs with
  | nil => intro k _ p hp; cases hp
  | cons q fs ih =>
      intro k hfs p hp
      unfold replaceEntryHV at hp
      by_cases hq : q.1 == k
      · rw [if_pos hq] at hp
        rcases List.mem_cons.mp hp with rfl | hmem
        · exact hv
        · exact hfs p (List.mem_cons_of_mem q hmem)
      · rw [if_neg hq] at hp
        rcases List.mem_cons.mp hp with rfl | hmem
        · exact hfs p (List.mem_cons_self p fs)
        · exact ih (fun x hx => hfs x (List.mem_cons_of_mem q hx)) p hmem

theorem objSetHV_forall {P : HVal → Prop} {fs : List (String × HVal)}
    {k : String} {v : HVal} (hfs : ∀ p ∈ fs, P p.2) (hv : P v) :
    ∀ p ∈ objSetHV fs k v, P p.2 := by
  unfold objSetHV
  by_cases hc : fs.any (fun p => p.1 == k)
  · rw [if_pos hc]
    exact replaceEntryHV_forall hv hfs
  · rw [if_neg hc]
    intro p hp
    rcases List.mem_append.mp hp with hmem | hmem
    · exact hfs p hmem
    · rcases List.mem_singleton.mp hmem with rfl
      exact hv

theorem objRemoveHV_forall {P : HVal → Prop} {fs : List (String × HVal)}
    {k : String} (hfs : ∀ p ∈ fs, P p.2) :
    ∀ p ∈ objRemoveHV fs k, P p.2 := by
  intro p hp
  exact hfs p (List.mem_of_mem_filter hp)

theorem coerceScalarH_above {n : Nat} {v : HVal} (hv : HValAbove n v) :
    HValAbove n (coerceScalarH v) := by
  cases v with
  | ref a => exact hv
  | prim p => cases p <;> trivial

mutual

theorem allocTree_frames (n : Nat) :
    (t : JVal) → Frames n (allocTree t) (HValAbove n)
  | .jnull => frames_pure _ trivial
  | .jbool b => frames_pure _ trivial
  | .jint i => frames_pure _ trivial
  | .jfloat r => frames_pure _ trivial
  | .jstr s => frames_pure _ trivial
  | .jarr ts => by
      show Frames n (allocTreeList ts >>= fun es => hAlloc (.hlist es)) (HValAbove n)
      exact frames_bind (allocTreeList_frames n ts) (fun es hes => frames_alloc _ hes)
  | .jobj fts => by
      show Frames n (allocTreeFields fts >>= fun fes => hAlloc (.hdict fes)) (HValAbove n)
      exact frames_bind (allocTreeFields_frames n fts) (fun fes hfes => frames_alloc _ hfes)

theorem allocTreeList_frames (n : Nat) :
    (ts : List JVal) →
      Frames n (allocTreeList ts) (fun vs => ∀ v ∈ vs, HValAbove n v)
  | [] => frames_pure _ (fun v hv => absurd hv (List.not_mem_nil v))
  | t :: ts => by
      show Frames n (allocTree t >>= fun v =>
        allocTreeList ts >>= fun vs => pure (v :: vs)) _
      refine frames_bind (allocTree_frames n t) (fun v hv => ?_)
      refine frames_bind (allocTreeList_frames n ts) (fun vs hvs => ?_)
      refine frames_pure _ ?_
      intro x hx
      rcases List.mem_cons.mp hx with rfl | hmem
      · exact hv
      · exact hvs x hmem

theorem allocTreeFields_frames (n : Nat) :
    (fts : List (String × JVal)) →
      Frames n (allocTreeFields fts) (fun fes => ∀ p ∈ fes, HValAbove n p.2)
  | [] => frames_pure _ (fun p hp => absurd hp (List.not_mem_nil p))
  | (k, t) :: fts => by
      show Frames n (allocTree t >>= fun v =>
        allocTreeFields fts >>= fun vs => pure ((k, v) :: vs)) _
      refine frames_bind (allocTree_frames n t) (fun v hv => ?_)
      refine frames_bind (allocTreeFields_frames n fts) (fun vs hvs => ?_)
      refine frames_pure _ ?_
      intro p hp
      rcases List.mem_cons.mp hp with rfl | hmem
      · exact hv
      · exact hvs p hmem

end

/-- No cell exists at or above the allocation pointer. -/
def NoJunk (h : Heap) : Prop := ∀ a, h.next ≤ a → h.cells a = none

theorem goodAbove_next_of_noJunk {h : Heap} (hj : NoJunk h) :
    GoodAbove h.next h := by
  refine ⟨Nat.le_refl _, ?_⟩
  intro a o ha hc
  rw [hj a ha] at hc
  cases hc

theorem noJunk_hAlloc {h : Heap} {o : HObj} {v : HVal} {h' : Heap}
    (hj : NoJunk h) (hrun : hAlloc o h = (.ok v, h')) : NoJunk h' := by
  simp only [hAlloc, Prod.mk.injEq] at hrun
  obtain ⟨-, rfl⟩ := hrun
  intro a ha
  have ha2 : h.next + 1 ≤ a := ha
  show (if a = h.next then some o else h.cells a) = none
  have hne : a ≠ h.next := fun he => Nat.not_succ_le_self h.next (he ▸ ha2)
  rw [if_neg hne]
  exact hj a (Nat.le_of_succ_le ha2)

mutual

theorem allocTree_noJunk :
    (t : JVal) → ∀ {h : Heap} {r : Except PyErr HVal} {h' : Heap},
      NoJunk h → allocTree t h = (r, h') → NoJunk h'
  | .jnull, h, r, h', hj, hrun => by
      simp only [allocTree, hm_pure_run, Prod.mk.injEq] at hrun
      obtain ⟨-, rfl⟩ := hrun
      exact hj
  | .jbool b, h, r, h', hj, hrun => by
      simp only [allocTree, hm_pure_run, Prod.mk.injEq] at hrun
      obtain ⟨-, rfl⟩ := hrun
      exact hj
  | .jint i, h, r, h', hj, hrun => by
      simp only [allocTree, hm_pure_run, Prod.mk.injEq] at hrun
      obtain ⟨-, rfl⟩ := hrun
      exact hj
  | .jfloat x, h, r, h', hj, hrun => by
      simp only [allocTree, hm_pure_run, Prod.mk.injEq] at hrun
      obtain ⟨-, rfl⟩ := hrun
      exact hj
  | .jstr s, h, r, h', hj, hrun => by
      simp only [allocTree, hm_pure_run, Prod.mk.injEq] at hrun
      obtain ⟨-, rfl⟩ := hrun
      exact hj
  | .jarr ts, h, r, h', hj, hrun => by
      have hrun2 : (allocTreeList ts >>= fun es => hAlloc (.hlist es)) h = (r, h') := hrun
      rw [hm_bind_run] at hrun2
      cases hl : allocTreeList ts h with
      | mk r1 h1 =>
          rw [hl] at hrun2
          have hj1 := allocTreeList_noJunk ts hj hl
          cases r1 with
          | ok es =>
              cases hr : r with
              | error e => rw [hr] at hrun2; simp only [hAlloc, Prod.mk.injEq] at hrun2; cases hrun2.1
              | ok v =>
                  rw [hr] at hrun2
                  exact noJunk_hAlloc hj1 hrun2
          | error e =>
              simp only [Prod.mk.injEq] at hrun2
              obtain ⟨-, rfl⟩ := hrun2
              exact hj1
  | .jobj fts, h, r, h', hj, hrun => by
      have hrun2 : (allocTreeFields fts >>= fun fes => hAlloc (.hdict fes)) h = (r, h') := hrun
      rw [hm_bind_run] at hrun2
      cases hl : allocTreeFields fts h with
      | mk r1 h1 =>
          rw [hl] at hrun2
          have hj1 := allocTreeFields_noJunk fts hj hl
          cases r1 with
          | ok fes =>
              cases hr : r with
              | error e => rw [hr] at hrun2; simp only [hAlloc, Prod.mk.injEq] at hrun2; cases hrun2.1
              | ok v =>
                  rw [hr] at hrun2
                  exact noJunk_hAlloc hj1 hrun2
          | error e =>
              simp only [Prod.mk.injEq] at hrun2
              obtain ⟨-, rfl⟩ := hrun2
              exact hj1

theorem allocTreeList_noJunk :
    (ts : List JVal) → ∀ {h : Heap} {r : Except PyErr (List HVal)} {h' : Heap},
      NoJunk h → allocTreeList ts h = (r, h') → NoJunk h'
  | [], h, r, h', hj, hrun => by
      simp only [allocTreeList, hm_pure_run, Prod.mk.injEq] at hrun
      obtain ⟨-, rfl⟩ := hrun
      exact hj
  | t :: ts, h, r, h', hj, hrun => by
      have hrun2 : (allocTree t >>= fun v =>
          allocTreeList ts >>= fun vs => pure (v :: vs)) h = (r, h') := hrun
      rw [hm_bind_run] at hrun2
      cases h1r : allocTree t h with
      | mk r1 h1 =>
          rw [h1r] at hrun2
          have hj1 := allocTree_noJunk t hj h1r
          cases r1 with
          | ok v =>
              have hrun3 : (allocTreeList ts >>= fun vs => pure (v :: vs)) h1
                  = (r, h') := hrun2
              rw [hm_bind_run] at hrun3
              cases h2r : allocTreeList ts h1 with
              | mk r2 h2 =>
                  rw [h2r] at hrun3
                  have hj2 := allocTreeList_noJunk ts hj1 h2r
                  cases r2 with
                  | ok vs =>
                      simp only [hm_pure_run, Prod.mk.injEq] at hrun3
                      obtain ⟨-, rfl⟩ := hrun3
                      exact hj2
                  | error e =>
                      simp only [Prod.mk.injEq] at hrun3
                      obtain ⟨-, rfl⟩ := hrun3
                      exact hj2
          | error e =>
              simp only [Prod.mk.injEq] at hrun2
              obtain ⟨-, rfl⟩ := hrun2
              exact hj1

theorem allocTreeFields_noJunk :
    (fts : List (String × JVal)) →
      ∀ {h : Heap} {r : Except PyErr (List (String × HVal))} {h' : Heap},
      NoJunk h → allocTreeFields fts h = (r, h') → NoJunk h'
  | [], h, r, h', hj, hrun => by
      simp only [allocTreeFields, hm_pure_run, Prod.mk.injEq] at hrun
      obtain ⟨-, rfl⟩ := hrun
      exact hj
  | (k, t) :: fts, h, r, h', hj, hrun => by
      have hrun2 : (allocTree t >>= fun v =>
          allocTreeFields fts >>= fun vs => pure ((k, v) :: vs)) h = (r, h') := hrun
      rw [hm_bind_run] at hrun2
      cases h1r : allocTree t h with
      | mk r1 h1 =>
          rw [h1r] at hrun2
          have hj1 := allocTree_noJunk t hj h1r
          cases r1 with
          | ok v =>
              have hrun3 : (allocTreeFields fts >>= fun vs => pure ((k, v) :: vs)) h1
                  = (r, h') := hrun2
              rw [hm_bind_run] at hrun3
              cases h2r : allocTreeFields fts h1 with
              | mk r2 h2 =>
                  rw [h2r] at hrun3
                  have hj2 := allocTreeFields_noJunk fts hj1 h2r
                  cases r2 with
                  | ok vs =>
                      simp only [hm_pure_run, Prod.mk.injEq] at hrun3
                      obtain ⟨-, rfl⟩ := hrun3
                      exact hj2
                  | error e =>
                      simp only [Prod.mk.injEq] at hrun3
                      obtain ⟨-, rfl⟩ := hrun3
                      exact hj2
          | error e =>
              simp only [Prod.mk.injEq] at hrun2
              obtain ⟨-, rfl⟩ := hrun2
              exact hj1

end

mutual

/-- `TreeAt h n v t`: in heap `h`, value `v` denotes exactly the pure tree
`t`, using only cells strictly below `n`. -/
def TreeAt (h : Heap) (n : Nat) : HVal → JVal → Prop
  | v, .jnull => v = .prim .pnull
  | v, .jbool b => v = .prim (.pbool b)
  | v, .jint i => v = .prim (.pint i)
  | v, .jfloat r => v = .prim (.pfloat r)
  | v, .jstr s => v = .prim (.pstr s)
  | v, .jarr ts => ∃ a es, v = .ref a ∧ a < n ∧
      h.cells a = some (.hlist es) ∧ TreeAtList h n es ts
  | v, .jobj fts => ∃ a fes, v = .ref a ∧ a < n ∧
      h.cells a = some (.hdict fes) ∧ TreeAtFields h n fes fts

/-- Elementwise `TreeAt` for list payloads. -/
def TreeAtList (h : Heap) (n : Nat) : List HVal → List JVal → Prop
  | [], [] => True
  | v :: vs, t :: ts => TreeAt h n v t ∧ TreeAtList h n vs ts
  | _, _ => False

/-- Entrywise `TreeAt` for dict payloads. -/
def TreeAtFields (h : Heap) (n : Nat) :
    List (String × HVal) → List (String × JVal) → Prop
  | [], [] => True
  | (k, v) :: fes, (k2, t) :: fts => k = k2 ∧ TreeAt h n v t ∧ TreeAtFields h n fes fts
  | _, _ => False

end

mutual

/-- Nesting depth of a JSON tree (containers count, scalars are 0). -/
def treeDepth : JVal → Nat
  | .jarr ts => treeDepthList ts + 1
  | .jobj fts => treeDepthFields fts + 1
  | _ => 0

/-- Maximum depth over list elements. -/
def treeDepthList : List JVal → Nat
  | [] => 0
  | t :: ts => max (treeDepth t) (treeDepthList ts)

/-- Maximum depth over dict values. -/
def treeDepthFields : List (String × JVal) → Nat
  | [] => 0
  | (_, t) :: fts => max (treeDepth t) (treeDepthFields fts)

end

mutual

theorem treeAt_mono {h : Heap} {n m : Nat} (hnm : n ≤ m) :
    (t : JVal) → ∀ {v : HVal}, TreeAt h n v t → TreeAt h m v t
  | .jnull, v, ht => ht
  | .jbool b, v, ht => ht
  | .jint i, v, ht => ht
  | .jfloat r, v, ht => ht
  | .jstr s, v, ht => ht
  | .jarr ts, v, ht => by
      obtain ⟨a, es, rfl, ha, hc, hl⟩ := ht
      exact ⟨a, es, rfl, Nat.lt_of_lt_of_le ha hnm, hc, treeAtList_mono hnm ts hl⟩
  | .jobj fts, v, ht => by
      obtain ⟨a, fes, rfl, ha, hc, hl⟩ := ht
      exact ⟨a, fes, rfl, Nat.lt_of_lt_of_le ha hnm, hc, treeAtFields_mono hnm fts hl⟩

theorem treeAtList_mono {h : Heap} {n m : Nat} (hnm : n ≤ m) :
    (ts : List JVal) → ∀ {vs : List HVal}, TreeAtList h n vs ts → TreeAtList h m vs ts
  | [], vs, ht => by
      cases vs with
      | nil => trivial
      | cons v vs => cases ht
  | t :: ts, vs, ht => by
      cases vs with
      | nil => cases ht
      | cons v vs => exact ⟨treeAt_mono hnm t ht.1, treeAtList_mono hnm ts ht.2⟩

theorem treeAtFields_mono {h : Heap} {n m : Nat} (hnm : n ≤ m) :
    (fts : List (String × JVal)) → ∀ {fes : List (String × HVal)},
      TreeAtFields h n fes fts → TreeAtFields h m fes fts
  | [], fes, ht => by
      cases fes with
      | nil => trivial
      | cons p fes => cases ht
  | (k, t) :: fts, fes, ht => by
      cases fes with
      | nil => cases ht
      | cons p fes =>
          obtain ⟨q, v⟩ := p
          exact ⟨ht.1, treeAt_mono hnm t ht.2.1, treeAtFields_mono hnm fts ht.2.2⟩

end

mutual

theorem treeAt_frame {h h2 : Heap} {n : Nat}
    (hf : ∀ a, a < n → h2.cells a = h.cells a) :
    (t : JVal) → ∀ {v : HVal}, TreeAt h n v t → TreeAt h2 n v t
  | .jnull, v, ht => ht
  | .jbool b, v, ht => ht
  | .jint i, v, ht => ht
  | .jfloat r, v, ht => ht
  | .jstr s, v, ht => ht
  | .jarr ts, v, ht => by
      obtain ⟨a, es, rfl, ha, hc, hl⟩ := ht
      exact ⟨a, es, rfl, ha, (hf a ha).trans hc, treeAtList_frame hf ts hl⟩
  | .jobj fts, v, ht => by
      obtain ⟨a, fes, rfl, ha, hc, hl⟩ := ht
      exact ⟨a, fes, rfl, ha, (hf a ha).trans hc, treeAtFields_frame hf fts hl⟩

theorem treeAtList_frame {h h2 : Heap} {n : Nat}
    (hf : ∀ a, a < n → h2.cells a = h.cells a) :
    (ts : List JVal) → ∀ {vs : List HVal}, TreeAtList h n vs ts → TreeAtList h2 n vs ts
  | [], vs, ht => by
      cases vs with
      | nil => trivial
      | cons v vs => cases ht
  | t :: ts, vs, ht => by
      cases vs with
      | nil => cases ht
      | cons v vs => exact ⟨treeAt_frame hf t ht.1, treeAtList_frame hf ts ht.2⟩

theorem treeAtFields_frame {h h2 : Heap} {n : Nat}
    (hf : ∀ a, a < n → h2.cells a = h.cells a) :
    (fts : List (String × JVal)) → ∀ {fes : List (String × HVal)},
      TreeAtFields h n fes fts → TreeAtFields h2 n fes fts
  | [], fes, ht => by
      cases fes with
      | nil => trivial
      | cons p fes => cases ht
  | (k, t) :: fts, fes, ht => by
      cases fes with
      | nil => cases ht
      | cons p fes =>
          obtain ⟨q, v⟩ := p
          exact ⟨ht.1, treeAt_frame hf t ht.2.1, treeAtFields_frame hf fts ht.2.2⟩

end

mutual

theorem treeAt_readTree {h : Heap} {n : Nat} :
    (t : JVal) → ∀ {v : HVal} {fuel : Nat}, TreeAt h n v t →
      treeDepth t < fuel → readTree h fuel v = some t
  | .jnull, v, fuel, ht, hd => by
      subst ht
      simp [readTree, primToJVal]
  | .jbool b, v, fuel, ht, hd => by
      subst ht
      simp [readTree, primToJVal]
  | .jint i, v, fuel, ht, hd => by
      subst ht
      simp [readTree, primToJVal]
  | .jfloat r, v, fuel, ht, hd => by
      subst ht
      simp [readTree, primToJVal]
  | .jstr s, v, fuel, ht, hd => by
      subst ht
      simp [readTree, primToJVal]
  | .jarr ts, v, fuel, ht, hd => by
      obtain ⟨a, es, rfl, ha, hc, hl⟩ := ht
      cases fuel with
      | zero => exact absurd hd (Nat.not_lt_zero _)
      | succ f =>
          have hd2 : treeDepthList ts < f := Nat.lt_of_succ_lt_succ hd
          simp only [readTree, hc, treeAtList_readTree ts hl hd2, Option.map_some']
  | .jobj fts, v, fuel, ht, hd => by
      obtain ⟨a, fes, rfl, ha, hc, hl⟩ := ht
      cases fuel with
      | zero => exact absurd hd (Nat.not_lt_zero _)
      | succ f =>
          have hd2 : treeDepthFields fts < f := Nat.lt_of_succ_lt_succ hd
          simp only [readTree, hc, treeAtFields_readTree fts hl hd2, Option.map_some']

theorem treeAtList_readTree {h : Heap} {n : Nat} :
    (ts : List JVal) → ∀ {vs : List HVal} {fuel : Nat}, TreeAtList h n vs ts →
      treeDepthList ts < fuel → readTreeList h fuel vs = some ts
  | [], vs, fuel, ht, hd => by
      cases vs with
      | nil => simp [readTreeList]
      | cons v vs => cases ht
  | t :: ts, vs, fuel, ht, hd => by
      cases vs with
      | nil => cases ht
      | cons v vs =>
          have h1 := treeAt_readTree t ht.1
            (Nat.lt_of_le_of_lt (Nat.le_max_left (treeDepth t) (treeDepthList ts)) hd)
          have h2 := treeAtList_readTree ts ht.2
            (Nat.lt_of_le_of_lt (Nat.le_max_right (treeDepth t) (treeDepthList ts)) hd)
          simp only [readTreeList, h1, h2]
          rfl

theorem treeAtFields_readTree {h : Heap} {n : Nat} :
    (fts : List (String × JVal)) → ∀ {fes : List (String × HVal)} {fuel : Nat},
      TreeAtFields h n fes fts → treeDepthFields fts < fuel →
      readTreeFields h fuel fes = some fts
  | [], fes, fuel, ht, hd => by
      cases fes with
      | nil => simp [readTreeFields]
      | cons p fes => cases ht
  | (k, t) :: fts, fes, fuel, ht, hd => by
      cases fes with
      | nil => cases ht
      | cons p fes =>
          obtain ⟨q, v⟩ := p
          obtain ⟨rfl, ht1, ht2⟩ := ht
          have h1 := treeAt_readTree t ht1
            (Nat.lt_of_le_of_lt (Nat.le_max_left (treeDepth t) (treeDepthFields fts)) hd)
          have h2 := treeAtFields_readTree fts ht2
            (Nat.lt_of_le_of_lt (Nat.le_max_right (treeDepth t) (treeDepthFields fts)) hd)
          simp only [readTreeFields, h1, h2]
          rfl

end

mutual

theorem allocTree_treeAt :
    (t : JVal) → ∀ {h : Heap} {v : HVal} {h' : Heap},
      allocTree t h = (.ok v, h') →
      h.next ≤ h'.next ∧ (∀ a, a < h.next → h'.cells a = h.cells a) ∧
        TreeAt h' h'.next v t
  | .jnull, h, v, h', hrun => by
      have hrun2 : ((.ok (.prim .pnull), h) : Except PyErr HVal × Heap) = (.ok v, h') := hrun
      simp only [Prod.mk.injEq, Except.ok.injEq] at hrun2
      obtain ⟨rfl, rfl⟩ := hrun2
      exact ⟨Nat.le_refl _, fun a _ => rfl, rfl⟩
  | .jbool b, h, v, h', hrun => by
      have hrun2 : ((.ok (.prim (.pbool b)), h) : Except PyErr HVal × Heap) = (.ok v, h') := hrun
      simp only [Prod.mk.injEq, Except.ok.injEq] at hrun2
      obtain ⟨rfl, rfl⟩ := hrun2
      exact ⟨Nat.le_refl _, fun a _ => rfl, rfl⟩
  | .jint i, h, v, h', hrun => by
      have hrun2 : ((.ok (.prim (.pint i)), h) : Except PyErr HVal × Heap) = (.ok v, h') := hrun
      simp only [Prod.mk.injEq, Except.ok.injEq] at hrun2
      obtain ⟨rfl, rfl⟩ := hrun2
      exact ⟨Nat.le_refl _, fun a _ => rfl, rfl⟩
  | .jfloat r, h, v, h', hrun => by
      have hrun2 : ((.ok (.prim (.pfloat r)), h) : Except PyErr HVal × Heap) = (.ok v, h') := hrun
      simp only [Prod.mk.injEq, Except.ok.injEq] at hrun2
      obtain ⟨rfl, rfl⟩ := hrun2
      exact ⟨Nat.le_refl _, fun a _ => rfl, rfl⟩
  | .jstr s, h, v, h', hrun => by
      have hrun2 : ((.ok (.prim (.pstr s)), h) : Except PyErr HVal × Heap) = (.ok v, h') := hrun
      simp only [Prod.mk.injEq, Except.ok.injEq] at hrun2
      obtain ⟨rfl, rfl⟩ := hrun2
      exact ⟨Nat.le_refl _, fun a _ => rfl, rfl⟩
  | .jarr ts, h, v, h', hrun => by
      have hrun2 : (allocTreeList ts >>= fun es => hAlloc (.hlist es)) h
          = (.ok v, h') := hrun
      rw [hm_bind_run] at hrun2
      cases hl : allocTreeList ts h with
      | mk r1 h1 =>
          rw [hl] at hrun2
          cases r1 with
          | error e => simp only [Prod.mk.injEq] at hrun2; cases hrun2.1
          | ok es =>
              obtain ⟨hg1, hf1, ht1⟩ := allocTreeList_treeAt ts hl
              simp only [hAlloc, Prod.mk.injEq, Except.ok.injEq] at hrun2
              obtain ⟨rfl, rfl⟩ := hrun2
              have hfr : ∀ a, a < h1.next →
                  (if a = h1.next then some (HObj.hlist es) else h1.cells a) = h1.cells a := by
                intro a ha
                exact if_neg (Nat.ne_of_lt ha)
              refine ⟨Nat.le_trans hg1 (Nat.le_succ _), ?_, ?_⟩
              · intro a ha
                have ha1 : a < h1.next := Nat.lt_of_lt_of_le ha hg1
                show (if a = h1.next then some (HObj.hlist es) else h1.cells a) = h.cells a
                rw [if_neg (Nat.ne_of_lt ha1)]
                exact hf1 a ha
              · refine ⟨h1.next, es, rfl, Nat.lt_succ_self _, ?_, ?_⟩
                · show (if h1.next = h1.next then some (HObj.hlist es) else h1.cells h1.next)
                      = some (HObj.hlist es)
                  rw [if_pos rfl]
                · exact treeAtList_mono (Nat.le_succ _) ts (treeAtList_frame hfr ts ht1)
  | .jobj fts, h, v, h', hrun => by
      have hrun2 : (allocTreeFields fts >>= fun fes => hAlloc (.hdict fes)) h
          = (.ok v, h') := hrun
      rw [hm_bind_run] at hrun2
      cases hl : allocTreeFields fts h with
      | mk r1 h1 =>
          rw [hl] at hrun2
          cases r1 with
          | error e => simp only [Prod.mk.injEq] at hrun2; cases hrun2.1
          | ok fes =>
              obtain ⟨hg1, hf1, ht1⟩ := allocTreeFields_treeAt fts hl
              simp only [hAlloc, Prod.mk.injEq, Except.ok.injEq] at hrun2
              obtain ⟨rfl, rfl⟩ := hrun2
              have hfr : ∀ a, a < h1.next →
                  (if a = h1.next then some (HObj.hdict fes) else h1.cells a) = h1.cells a := by
                intro a ha
                exact if_neg (Nat.ne_of_lt ha)
              refine ⟨Nat.le_trans hg1 (Nat.le_succ _), ?_, ?_⟩
              · intro a ha
                have ha1 : a < h1.next := Nat.lt_of_lt_of_le ha hg1
                show (if a = h1.next then some (HObj.hdict fes) else h1.cells a) = h.cells a
                rw [if_neg (Nat.ne_of_lt ha1)]
                exact hf1 a ha
              · refine ⟨h1.next, fes, rfl, Nat.lt_succ_self _, ?_, ?_⟩
                · show (if h1.next = h1.next then some (HObj.hdict fes) else h1.cells h1.next)
                      = some (HObj.hdict fes)
                  rw [if_pos rfl]
                · exact treeAtFields_mono (Nat.le_succ _) fts (treeAtFields_frame hfr fts ht1)

theorem allocTreeList_treeAt :
    (ts : List JVal) → ∀ {h : Heap} {vs : List HVal} {h' : Heap},
      allocTreeList ts h = (.ok vs, h') →
      h.next ≤ h'.next ∧ (∀ a, a < h.next → h'.cells a = h.cells a) ∧
        TreeAtList h' h'.next vs ts
  | [], h, vs, h', hrun => by
      have hrun2 : ((.ok ([] : List HVal), h) : Except PyErr (List HVal) × Heap)
          = (.ok vs, h') := hrun
      simp only [Prod.mk.injEq, Except.ok.injEq] at hrun2
      obtain ⟨rfl, rfl⟩ := hrun2
      exact ⟨Nat.le_refl _, fun a _ => rfl, trivial⟩
  | t :: ts, h, vs, h', hrun => by
      have hrun2 : (allocTree t >>= fun v =>
          allocTreeList ts >>= fun vs2 => pure (v :: vs2)) h = (.ok vs, h') := hrun
      rw [hm_bind_run] at hrun2
      cases h1r : allocTree t h with
      | mk r1 h1 =>
          rw [h1r] at hrun2
          cases r1 with
          | error e => simp only [Prod.mk.injEq] at hrun2; cases hrun2.1
          | ok v =>
              obtain ⟨hg1, hf1, ht1⟩ := allocTree_treeAt t h1r
              have hrun3 : (allocTreeList ts >>= fun vs2 => pure (v :: vs2)) h1
                  = (.ok vs, h') := hrun2
              rw [hm_bind_run] at hrun3
              cases h2r : allocTreeList ts h1 with
              | mk r2 h2 =>
                  rw [h2r] at hrun3
                  cases r2 with
                  | error e => simp only [Prod.mk.injEq] at hrun3; cases hrun3.1
                  | ok vs2 =>
                      obtain ⟨hg2, hf2, ht2⟩ := allocTreeList_treeAt ts h2r
                      simp only [hm_pure_run, Prod.mk.injEq, Except.ok.injEq] at hrun3
                      obtain ⟨rfl, rfl⟩ := hrun3
                      refine ⟨Nat.le_trans hg1 hg2, ?_, ?_, ht2⟩
                      · intro a ha
                        exact (hf2 a (Nat.lt_of_lt_of_le ha hg1)).trans (hf1 a ha)
                      · have hfr : ∀ a, a < h1.next → h2.cells a = h1.cells a := hf2
                        exact treeAt_mono hg2 t (treeAt_frame hfr t ht1)

theorem allocTreeFields_treeAt :
    (fts : List (String × JVal)) →
      ∀ {h : Heap} {fes : List (String × HVal)} {h' : Heap},
      allocTreeFields fts h = (.ok fes, h') →
      h.next ≤ h'.next ∧ (∀ a, a < h.next → h'.cells a = h.cells a) ∧
        TreeAtFields h' h'.next fes fts
  | [], h, fes, h', hrun => by
      have hrun2 : ((.ok ([] : List (String × HVal)), h) :
          Except PyErr (List (String × HVal)) × Heap) = (.ok fes, h') := hrun
      simp only [Prod.mk.injEq, Except.ok.injEq] at hrun2
      obtain ⟨rfl, rfl⟩ := hrun2
      exact ⟨Nat.le_refl _, fun a _ => rfl, trivial⟩
  | (k, t) :: fts, h, fes, h', hrun => by
      have hrun2 : (allocTree t >>= fun v =>
          allocTreeFields fts >>= fun vs2 => pure ((k, v) :: vs2)) h = (.ok fes, h') := hrun
      rw [hm_bind_run] at hrun2
      cases h1r : allocTree t h with
      | mk r1 h1 =>
          rw [h1r] at hrun2
          cases r1 with
          | error e => simp only [Prod.mk.injEq] at hrun2; cases hrun2.1
          | ok v =>
              obtain ⟨hg1, hf1, ht1⟩ := allocTree_treeAt t h1r
              have hrun3 : (allocTreeFields fts >>= fun vs2 => pure ((k, v) :: vs2)) h1
                  = (.ok fes, h') := hrun2
              rw [hm_bind_run] at hrun3
              cases h2r : allocTreeFields fts h1 with
              | mk r2 h2 =>
                  rw [h2r] at hrun3
                  cases r2 with
                  | error e => simp only [Prod.mk.injEq] at hrun3; cases hrun3.1
                  | ok vs2 =>
                      obtain ⟨hg2, hf2, ht2⟩ := allocTreeFields_treeAt fts h2r
                      simp only [hm_pure_run, Prod.mk.injEq, Except.ok.injEq] at hrun3
                      obtain ⟨rfl, rfl⟩ := hrun3
                      refine ⟨Nat.le_trans hg1 hg2, ?_, rfl, ?_, ht2⟩
                      · intro a ha
                        exact (hf2 a (Nat.lt_of_lt_of_le ha hg1)).trans (hf1 a ha)
                      · exact treeAt_mono hg2 t (treeAt_frame hf2 t ht1)

end

theorem frames_read_above {n : Nat} {a : Addr} (ha : n ≤ a) :
    Frames n (hRead a) (objRefsAbove n) := by
  intro h r h' hg hrun
  unfold hRead at hrun
  cases hc : h.cells a with
  | some o =>
      rw [hc] at hrun
      simp only [Prod.mk.injEq] at hrun
      obtain ⟨rfl, rfl⟩ := hrun
      refine ⟨hg, fun x _ => rfl, ?_⟩
      intro v hv
      cases hv
      exact hg.2 a _ ha hc
  | none =>
      rw [hc] at hrun
      simp only [Prod.mk.injEq] at hrun
      obtain ⟨rfl, rfl⟩ := hrun
      exact ⟨hg, fun x _ => rfl, fun v hv => by cases hv⟩

theorem deepcopyH_frames {n : Nat} (v : HVal) :
    Frames n (deepcopyH v) (HValAbove n) := by
  unfold deepcopyH
  exact frames_bind (frames_of_readOnly (readOnly_readTreeM v))
    (fun t _ => allocTree_frames n t)


theorem cleanReleasesVersionH_frames {n : Nat} {pf : List (String × HVal)}
    (hpf : ∀ p ∈ pf, HValAbove n p.2) :
    Frames n (cleanReleasesVersionH pf) (fun fs => ∀ p ∈ fs, HValAbove n p.2) := by
  unfold cleanReleasesVersionH
  cases h1 : objGetHV pf "releasesVersion" with
  | none => exact frames_pure _ hpf
  | some v =>
      cases v with
      | ref a => exact frames_pure _ hpf
      | prim p =>
          cases p with
          | pstr s =>
              refine frames_bind
                (frames_alloc (.hdict []) (fun q hq => absurd hq (List.not_mem_nil q))) ?_
              intro e he
              exact frames_pure _ (objSetHV_forall hpf he)
          | pnull => exact frames_pure _ hpf
          | pbool b => exact frames_pure _ hpf
          | pint i => exact frames_pure _ hpf
          | pfloat r => exact frames_pure _ hpf

theorem cleanOsServicesH_frames {n : Nat} {pf : List (String × HVal)}
    (hpf : ∀ p ∈ pf, HValAbove n p.2) :
    Frames n (cleanOsServicesH pf) (fun fs => ∀ p ∈ fs, HValAbove n p.2) := by
  unfold cleanOsServicesH
  cases h1 : objGetHV pf "osServices" with
  | none => exact frames_pure _ hpf
  | some v =>
      cases v with
      | prim p => exact frames_pure _ hpf
      | ref oa =>
          refine frames_bind (frames_of_readOnly (readOnly_hRead oa)) ?_
          rintro o -
          cases o with
          | hdict fs => exact frames_pure _ hpf
          | hlist es =>
              refine frames_bind (frames_of_readOnly (readOnly_readTreeM _)) ?_
              rintro t -
              cases t with
              | jarr services =>
                  refine frames_bind (allocTree_frames n _) ?_
                  intro na hna
                  exact frames_pure _ (objSetHV_forall hpf hna)
              | jnull => exact frames_pure _ hpf
              | jbool b => exact frames_pure _ hpf
              | jint i => exact frames_pure _ hpf
              | jfloat r => exact frames_pure _ hpf
              | jstr s => exact frames_pure _ hpf
              | jobj fs => exact frames_pure _ hpf

theorem cleanCustomPgMetadataH_frames {n : Nat} {pf : List (String × HVal)}
    (hpf : ∀ p ∈ pf, HValAbove n p.2) :
    Frames n (cleanCustomPgMetadataH pf) (fun fs => ∀ p ∈ fs, HValAbove n p.2) := by
  unfold cleanCustomPgMetadataH
  cases h1 : objGetHV pf "customPgMetadata" with
  | none => exact frames_pure _ hpf
  | some v =>
      cases v with
      | prim p =>
          refine frames_bind
            (frames_alloc (.hdict []) (fun q hq => absurd hq (List.not_mem_nil q))) ?_
          intro e he
          exact frames_pure _ (objSetHV_forall hpf he)
      | ref ca =>
          refine frames_bind (frames_of_readOnly (readOnly_hRead ca)) ?_
          rintro o -
          cases o with
          | hdict fs => exact frames_pure _ hpf
          | hlist es =>
              refine frames_bind (frames_of_readOnly (readOnly_readTreeM _)) ?_
              rintro t -
              cases t with
              | jarr items =>
                  refine frames_bind (allocTree_frames n _) ?_
                  intro na hna
                  exact frames_pure _ (objSetHV_forall hpf hna)
              | jnull => exact frames_pure _ hpf
              | jbool b => exact frames_pure _ hpf
              | jint i => exact frames_pure _ hpf
              | jfloat r => exact frames_pure _ hpf
              | jstr s => exact frames_pure _ hpf
              | jobj fs => exact frames_pure _ hpf

theorem cleanLogWrapH_frames {n : Nat} (key : String) {pf : List (String × HVal)}
    (hpf : ∀ p ∈ pf, HValAbove n p.2) :
    Frames n (cleanLogWrapH key pf) (fun fs => ∀ p ∈ fs, HValAbove n p.2) := by
  unfold cleanLogWrapH
  cases h1 : objGetHV pf key with
  | none => exact frames_pure _ hpf
  | some v =>
      cases v with
      | prim p => exact frames_pure _ (objSetHV_forall hpf trivial)
      | ref la =>
          have hla : HValAbove n (.ref la) := objGetHV_forall hpf h1
          refine frames_bind (frames_of_readOnly (readOnly_hRead la)) ?_
          rintro o -
          cases o with
          | hdict fs => exact frames_pure _ hpf
          | hlist es =>
              refine frames_bind (frames_alloc _ ?_) ?_
              · intro q hq
                rcases List.mem_singleton.mp hq with rfl
                exact hla
              · intro e he
                exact frames_pure _ (objSetHV_forall hpf he)

theorem cleanPropertiesH_frames {n : Nat} {pf : List (String × HVal)}
    (hpf : ∀ p ∈ pf, HValAbove n p.2) :
    Frames n (cleanPropertiesH pf) (fun fs => ∀ p ∈ fs, HValAbove n p.2) := by
  unfold cleanPropertiesH
  refine frames_bind (cleanReleasesVersionH_frames hpf) ?_
  intro pf1 hpf1
  refine frames_bind (cleanOsServicesH_frames hpf1) ?_
  intro pf2 hpf2
  refine frames_bind (cleanCustomPgMetadataH_frames hpf2) ?_
  intro pf3 hpf3
  refine frames_bind (cleanLogWrapH_frames "logFileStatus" hpf3) ?_
  intro pf4 hpf4
  refine frames_bind (cleanLogWrapH_frames "logSourceState" hpf4) ?_
  intro pf5 hpf5
  exact frames_pure _ hpf5

theorem cleanPropsCellH_frames {n : Nat} {fields : List (String × HVal)}
    (hfields : ∀ p ∈ fields, HValAbove n p.2) :
    Frames n (cleanPropsCellH fields) (fun _ => True) := by
  unfold cleanPropsCellH
  cases h1 : objGetHV fields "properties" with
  | none => exact frames_pure _ trivial
  | some v =>
      cases v with
      | prim p => exact frames_pure _ trivial
      | ref pa =>
          have hpa : n ≤ pa := objGetHV_forall hfields h1
          refine frames_bind (frames_read_above hpa) ?_
          intro po hpo
          cases po with
          | hlist es => exact frames_pure _ trivial
          | hdict pf =>
              refine frames_bind (cleanPropertiesH_frames hpo) ?_
              intro pf2 hpf2
              exact frames_write pa _ hpa hpf2

theorem cleanUnsupportedMetadataH_frames {n : Nat} (x : HVal) :
    Frames n (cleanUnsupportedMetadataH x) (HValAbove n) := by
  unfold cleanUnsupportedMetadataH
  refine frames_bind (deepcopyH_frames x) ?_
  intro c hc
  cases c with
  | prim p => exact frames_throw _
  | ref a =>
      have ha : n ≤ a := hc
      refine frames_bind (frames_read_above ha) ?_
      intro o ho
      cases o with
      | hlist es => exact frames_throw _
      | hdict fields =>
          have hfields : ∀ p ∈ fields.map (fun p => (p.1, coerceScalarH p.2)),
              HValAbove n p.2 := by
            intro p hp
            rcases List.mem_map.mp hp with ⟨q, hq, rfl⟩
            exact coerceScalarH_above (ho q hq)
          refine frames_bind (frames_write a (.hdict _) ha hfields) ?_
          rintro - -
          refine frames_bind (cleanPropsCellH_frames hfields) ?_
          rintro - -
          refine frames_bind (frames_read_above ha) ?_
          intro o2 ho2
          cases o2 with
          | hlist es => exact frames_throw _
          | hdict fields2 =>
              refine frames_bind
                (frames_write a (.hdict _) ha (objRemoveHV_forall ho2)) ?_
              rintro - -
              exact frames_pure _ hc

theorem readOnly_isListOptH (v : Option HVal) : ReadOnly (isListOptH v) := by
  cases v with
  | none => exact readOnly_pure _
  | some v => exact readOnly_isListH v

theorem normalizeMetadataFoldH_frames {n : Nat} {df : List (String × HVal)}
    (hdf : ∀ p ∈ df, HValAbove n p.2) (mv : Option HVal) (tMv lMv : Bool) :
    Frames n (normalizeMetadataFoldH df mv tMv lMv)
      (fun fs => ∀ p ∈ fs, HValAbove n p.2) := by
  unfold normalizeMetadataFoldH
  by_cases hc : (tMv && lMv) = true
  · rw [if_pos hc]
    refine frames_bind (frames_of_readOnly (readOnly_readTreeM _)) ?_
    rintro t -
    cases t with
    | jarr entries =>
        show Frames n (match foldMetadataEntries entries with
          | .ok out =>
              if out.isEmpty then pure df
              else do
                let ma ← allocTree (.jobj out)
                pure (objSetHV df "metadata" ma)
          | .error e => hThrow e) _
        cases hf : foldMetadataEntries entries with
        | error e => exact frames_throw e
        | ok out =>
            show Frames n (if out.isEmpty then pure df
              else do
                let ma ← allocTree (.jobj out)
                pure (objSetHV df "metadata" ma)) _
            by_cases he : out.isEmpty = true
            · rw [if_pos he]
              exact frames_pure _ hdf
            · rw [if_neg he]
              refine frames_bind (allocTree_frames n _) ?_
              intro ma hma
              exact frames_pure _ (objSetHV_forall hdf hma)
    | jnull => exact frames_pure _ hdf
    | jbool b => exact frames_pure _ hdf
    | jint i => exact frames_pure _ hdf
    | jfloat r => exact frames_pure _ hdf
    | jstr s => exact frames_pure _ hdf
    | jobj fs => exact frames_pure _ hdf
  · rw [if_neg hc]
    exact frames_pure _ hdf

theorem objGetHV_getD_above {n : Nat} {fs : List (String × HVal)} {k : String}
    (hfs : ∀ p ∈ fs, HValAbove n p.2) :
    HValAbove n ((objGetHV fs k).getD (.prim .pnull)) := by
  cases hg : objGetHV fs k with
  | none => trivial
  | some v => exact objGetHV_forall hfs hg

theorem if_objSetHV_forall {P : HVal → Prop} {fs : List (String × HVal)}
    {k : String} {v : HVal} (c : Prop) [Decidable c]
    (hfs : ∀ p ∈ fs, P p.2) (hv : P v) :
    ∀ p ∈ (if c then objSetHV fs k v else fs), P p.2 := by
  by_cases hc : c
  · rw [if_pos hc]
    exact objSetHV_forall hfs hv
  · rw [if_neg hc]
    exact hfs

theorem normalizeElseH_frames {n : Nat} {da pa : Addr}
    {df pf : List (String × HVal)} (hda : n ≤ da) (hpa : n ≤ pa)
    (hdf : ∀ p ∈ df, HValAbove n p.2) (hpf : ∀ p ∈ pf, HValAbove n p.2) :
    Frames n (normalizeElseH da pa df pf) (HValAbove n) := by
  unfold normalizeElseH
  refine frames_bind (frames_of_readOnly (readOnly_truthyOptH _)) ?_
  rintro tLp -
  refine frames_bind (frames_of_readOnly (readOnly_isListOptH _)) ?_
  rintro lLp -
  refine frames_bind (frames_of_readOnly (readOnly_truthyOptH _)) ?_
  rintro tSt -
  refine frames_bind (frames_of_readOnly (readOnly_isListOptH _)) ?_
  rintro lSt -
  refine frames_bind (frames_of_readOnly (readOnly_truthyOptH _)) ?_
  rintro tDn -
  refine frames_bind (frames_of_readOnly (readOnly_truthyOptH _)) ?_
  rintro tDisc -
  refine frames_bind (frames_of_readOnly (readOnly_truthyOptH _)) ?_
  rintro tMv -
  refine frames_bind (frames_of_readOnly (readOnly_isListOptH _)) ?_
  rintro lMv -
  refine frames_bind (normalizeMetadataFoldH_frames ?_ _ _ _) ?_
  · exact if_objSetHV_forall _
      (if_objSetHV_forall _
        (if_objSetHV_forall _ hdf (objGetHV_getD_above hpf))
        (objGetHV_getD_above (objRemoveHV_forall hpf)))
      (objGetHV_getD_above (objRemoveHV_forall (objRemoveHV_forall hpf)))
  · intro df4 hdf4
    refine frames_bind (frames_write pa (.hdict _) hpa
      (objRemoveHV_forall (objRemoveHV_forall (objRemoveHV_forall hpf)))) ?_
    rintro - -
    refine frames_bind (frames_write da (.hdict _) hda hdf4) ?_
    rintro - -
    exact frames_pure _ hda

theorem normalizeBodyH_frames {n : Nat} {da : Addr}
    {df : List (String × HVal)} (hda : n ≤ da)
    (hdf : ∀ p ∈ df, HValAbove n p.2) :
    Frames n (normalizeBodyH da df) (HValAbove n) := by
  unfold normalizeBodyH
  cases hpr : objGetHV df "properties" with
  | none => exact frames_pure _ hda
  | some v =>
      cases v with
      | prim p => exact frames_pure _ hda
      | ref pa =>
          have hpa : n ≤ pa := objGetHV_forall hdf hpr
          refine frames_bind (frames_read_above hpa) ?_
          intro po hpo
          cases po with
          | hlist es => exact frames_pure _ hda
          | hdict pf =>
              show Frames n (if pf.isEmpty then pure (HVal.ref da)
                else normalizeElseH da pa df pf) (HValAbove n)
              by_cases hemp : pf.isEmpty = true
              · rw [if_pos hemp]
                exact frames_pure _ hda
              · rw [if_neg hemp]
                exact normalizeElseH_frames hda hpa hdf hpo

theorem normalizeProcessGroupV2ToV1H_frames {n : Nat} {d : HVal}
    (hd : HValAbove n d) :
    Frames n (normalizeProcessGroupV2ToV1H d) (HValAbove n) := by
  unfold normalizeProcessGroupV2ToV1H
  cases d with
  | prim p => exact frames_throw _
  | ref da =>
      have hda : n ≤ da := hd
      refine frames_bind (frames_read_above hda) ?_
      intro o ho
      cases o with
      | hlist es => exact frames_throw _
      | hdict df => exact normalizeBodyH_frames hda ho

theorem normalizeIfPgH_frames {n : Nat} (ct : String) {cd : HVal}
    (hcd : HValAbove n cd) :
    Frames n (normalizeIfPgH ct cd) (HValAbove n) := by
  unfold normalizeIfPgH
  by_cases hq : (ct == "process-group") = true
  · rw [if_pos hq]
    exact normalizeProcessGroupV2ToV1H_frames hcd
  · rw [if_neg hq]
    exact frames_pure _ hcd

theorem buildComponentH_frames {n : Nat} (ct : String)
    (cfs : List (String × JVal)) (entityId : JVal) {c : HVal}
    (hc : HValAbove n c) :
    Frames n (buildComponentH ct cfs entityId c)
      (fun p => HValAbove n p.component) := by
  unfold buildComponentH
  cases hbt : buildTags cfs entityId with
  | error e => exact frames_throw e
  | ok tags =>
      cases c with
      | prim p => exact frames_throw _
      | ref ca =>
          have hca : n ≤ ca := hc
          refine frames_bind (frames_read_above hca) ?_
          intro co hco
          cases co with
          | hlist es => exact frames_throw _
          | hdict cf =>
              refine frames_bind (frames_alloc (.hdict _)
                (objRemoveHV_forall (objRemoveHV_forall
                  (objRemoveHV_forall hco)))) ?_
              intro cd hcd
              refine frames_bind (normalizeIfPgH_frames ct hcd) ?_
              intro cd2 hcd2
              cases cd2 with
              | prim p => exact frames_throw _
              | ref cda =>
                  have hcda : n ≤ cda := hcd2
                  refine frames_bind (frames_read_above hcda) ?_
                  intro cdo hcdo
                  cases cdo with
                  | hlist es => exact frames_throw _
                  | hdict cdf2 =>
                      refine frames_bind (allocTree_frames n _) ?_
                      intro idsRef hids
                      refine frames_bind (allocTree_frames n _) ?_
                      intro tagsRef htags
                      refine frames_bind (frames_write cda (.hdict _) hcda
                        (objSetHV_forall (objSetHV_forall
                          (objSetHV_forall hcdo hids) htags) trivial)) ?_
                      rintro - -
                      exact frames_pure _ hcd2

theorem processEntityToComponentH_frames {n : Nat} (entity : HVal) (ct : String) :
    Frames n (processEntityToComponentH entity ct)
      (fun p => HValAbove n p.component) := by
  unfold processEntityToComponentH
  refine frames_bind (cleanUnsupportedMetadataH_frames entity) ?_
  intro c hc
  refine frames_bind (frames_of_readOnly (readOnly_readTreeM c)) ?_
  rintro t -
  cases t with
  | jnull => exact frames_throw _
  | jbool b => exact frames_throw _
  | jint i => exact frames_throw _
  | jfloat r => exact frames_throw _
  | jstr s => exact frames_throw _
  | jarr es => exact frames_throw _
  | jobj cfs => exact buildComponentH_frames ct cfs _ hc

theorem afterPEHOk_frames {n : Nat} (entity : HVal) (p : ProcessedH) :
    Frames n (afterPEHOk entity p) (fun _ => True) := by
  unfold afterPEHOk
  cases hfr : relsFrom p.entityId p.fromRels with
  | error e =>
      refine frames_bind (frames_of_readOnly (readOnly_warnIdH entity)) ?_
      rintro wid -
      exact frames_pure _ trivial
  | ok fe =>
      cases htr : relsTo p.entityId p.toRels with
      | ok te => exact frames_pure _ trivial
      | error e =>
          refine frames_bind (frames_of_readOnly (readOnly_warnIdH entity)) ?_
          rintro wid -
          exact frames_pure _ trivial

theorem afterPEH_frames {n : Nat} (entity : HVal) (res : Except PyErr ProcessedH) :
    Frames n (afterPEH entity res) (fun _ => True) := by
  unfold afterPEH
  cases res with
  | ok p => exact afterPEHOk_frames entity p
  | error e =>
      refine frames_bind (frames_of_readOnly (readOnly_warnIdH entity)) ?_
      rintro wid -
      exact frames_pure _ trivial

theorem processOneH_frames {n : Nat} (ct : String) (entity : HVal) :
    Frames n (processOneH ct entity) (fun _ => True) := by
  intro h r h' hg hrun
  unfold processOneH at hrun
  cases hpe : processEntityToComponentH entity ct h with
  | mk r0 h0 =>
      rw [hpe] at hrun
      have hrun2 : afterPEH entity r0 h0 = (r, h') := hrun
      obtain ⟨hg0, hf0, -⟩ :=
        processEntityToComponentH_frames entity ct h r0 h0 hg hpe
      obtain ⟨hg1, hf1, -⟩ := afterPEH_frames entity r0 h0 r h' hg0 hrun2
      exact ⟨hg1, fun a ha => (hf1 a ha).trans (hf0 a ha), fun _ _ => trivial⟩

theorem processTopologyH_frames {n : Nat} (ct : String) :
    (es : List HVal) → Frames n (processTopologyH ct es) (fun _ => True)
  | [] => frames_pure _ trivial
  | e :: rest => by
      show Frames n (processOneH ct e >>= fun one =>
        processTopologyH ct rest >>= fun acc =>
        pure (one.1 ++ acc.1, one.2.1 ++ acc.2.1, one.2.2 ++ acc.2.2)) _
      refine frames_bind (processOneH_frames ct e) ?_
      rintro one -
      refine frames_bind (processTopologyH_frames ct rest) ?_
      rintro acc -
      exact frames_pure _ trivial

/-- The heap with no objects, into which the raw entities are allocated. -/
def emptyHeap : Heap := ⟨0, fun _ => none⟩

theorem noJunk_emptyHeap : NoJunk emptyHeap := fun _ _ => rfl

theorem treeAtList_of_alloc {ents : List JVal} {refs : List HVal} {h0 : Heap}
    (halloc : allocTreeList ents emptyHeap = (.ok refs, h0)) :
    TreeAtList h0 h0.next refs ents :=
  (allocTreeList_treeAt ents halloc).2.2

/-- C9: normalization never mutates its input.  Allocate a raw entity tree
(or a whole collection) into the empty heap and run
`process_entity_to_component` (or a full `process_topology` pass, which also
includes the relationship loops and the per-entity handler): afterwards every
input reference still reads back as exactly the original tree — all coercion,
property reshaping, field stripping and process-group hoisting happen on the
deep copy, never on the input cells. -/
theorem normalization_never_mutates_input :
    (∀ (e : JVal) (ct : String) (v : HVal) (h0 : Heap)
        (res : Except PyErr ProcessedH) (h1 : Heap) (fuel : Nat),
        allocTree e emptyHeap = (.ok v, h0) →
        processEntityToComponentH v ct h0 = (res, h1) →
        treeDepth e < fuel →
        readTree h1 fuel v = some e) ∧
    (∀ (ents : List JVal) (ct : String) (refs : List HVal) (h0 : Heap)
        (res : Except PyErr (List HVal × List Edge × List JVal)) (h1 : Heap)
        (fuel : Nat),
        allocTreeList ents emptyHeap = (.ok refs, h0) →
        processTopologyH ct refs h0 = (res, h1) →
        treeDepthList ents < fuel →
        readTreeList h1 fuel refs = some ents) := by
  constructor
  · intro e ct v h0 res h1 fuel halloc hrun hfuel
    have hnj : NoJunk h0 := allocTree_noJunk e noJunk_emptyHeap halloc
    have hga : GoodAbove h0.next h0 := goodAbove_next_of_noJunk hnj
    have hta : TreeAt h0 h0.next v e := (allocTree_treeAt e halloc).2.2
    obtain ⟨-, hframe, -⟩ :=
      processEntityToComponentH_frames (n := h0.next) v ct h0 res h1 hga hrun
    exact treeAt_readTree e (treeAt_frame hframe e hta) hfuel
  · intro ents ct refs h0 res h1 fuel halloc hrun hfuel
    have hnj : NoJunk h0 := allocTreeList_noJunk ents noJunk_emptyHeap halloc
    have hga : GoodAbove h0.next h0 := goodAbove_next_of_noJunk hnj
    have hta : TreeAtList h0 h0.next refs ents := treeAtList_of_alloc halloc
    obtain ⟨-, hframe, -⟩ :=
      processTopologyH_frames (n := h0.next) ct refs h0 res h1 hga hrun
    exact treeAtList_readTree ents (treeAtList_frame hframe ents hta) hfuel

/-- A concrete instance of the frame theorem: one entity, processed by a
full `process_topology` run, reads back unchanged. -/
theorem normalization_never_mutates_input_witness :
    readTreeList
      ((processTopologyH "process" [HVal.ref 0]
        ((allocTreeList [JVal.jobj [("entityId", JVal.jstr "E1")]] emptyHeap).2)).2)
      2 [HVal.ref 0]
      = some [JVal.jobj [("entityId", JVal.jstr "E1")]] :=
  normalization_never_mutates_input.2
    [JVal.jobj [("entityId", JVal.jstr "E1")]] "process" [HVal.ref 0]
    ((allocTreeList [JVal.jobj [("entityId", JVal.jstr "E1")]] emptyHeap).2)
    ((processTopologyH "process" [HVal.ref 0]
      ((allocTreeList [JVal.jobj [("entityId", JVal.jstr "E1")]] emptyHeap).2)).1)
    ((processTopologyH "process" [HVal.ref 0]
      ((allocTreeList [JVal.jobj [("entityId", JVal.jstr "E1")]] emptyHeap).2)).2)
    2 rfl rfl (by decide)

end DynatraceClient
